import Mathlib

/-! # CUBIC with HyStart and the SUSS slow-start extension

A shallow embedding of `sourceCode/linux-6.8/suss/tcp_cubic.c`.

Conventions of the embedding:

* C unsigned values are natural numbers; every operation that can wrap in C
  carries its explicit reduction (`% 4294967296` for `u32`, `% 18446744073709551616`
  for `u64`, `% 2 ^ w` for a bit-field of width `w`).
* Signed reinterpretation `(s32)x` is the function `s32`.
* Module parameters are C `int`s and are integers here.
* A computation that traps (division by zero), that has no defined value (shift by
  a negative count or by the width of the operand or more) or that does not terminate
  returns `none`. The one exception is the shift of the send-window floor in
  `cubictcp_cong_avoid`, whose `u8` count reaches 255 on a flow that starts at
  `cubictcp_init`: the compiled call returns there, with the value of the shift
  instruction, which takes the count modulo 32 (`shl32_u8`).
* `printk` and the SNMP counters have no effect on the state and are omitted.
* Kernel facilities that are declared outside this file (`HZ`, `usecs_to_jiffies`,
  `tcp_is_cwnd_limited`, `tcp_slow_start`, `tcp_cong_avoid_ai`) are fields of `Kernel`.
-/

namespace TcpCubic

/-! ## Machine arithmetic -/

/-- Conversion of a C `int` value to `u32`. -/
def u32 (z : Int) : Nat := (z % 4294967296).toNat

/-- Reinterpretation `(s32)x` of a 32-bit value. -/
def s32 (n : Nat) : Int :=
  if n % 4294967296 < 2147483648 then ((n % 4294967296 : Nat) : Int)
  else ((n % 4294967296 : Nat) : Int) - 4294967296

/-- Subtraction `a - b` in `u32`. -/
def sub32 (a b : Nat) : Nat := (a + 4294967296 - b % 4294967296) % 4294967296

/-- Left shift `x << k` of a 32-bit operand by an `int` count; the result is
undefined in C for a negative count or a count of 32 or more. -/
def shl32 (x : Nat) (k : Int) : Option Nat :=
  if 0 ≤ k ∧ k < 32 then some ((x <<< k.toNat) % 4294967296) else none

/-- Left shift `x << k` of a 32-bit operand by a `u8` count as the compiled code
performs it: the shift instruction takes the count modulo 32. For a count below 32 this
is the C value `(x << k) mod 2 ^ 32`; for a larger count C defines no value and the
compiled call carries on with the value of the instruction. -/
def shl32_u8 (x k : Nat) : Nat := (x <<< (k % 32)) % 4294967296

/-- Right shift `x >> k` of a 32-bit operand by an `int` count. -/
def shr32 (x : Nat) (k : Int) : Option Nat :=
  if 0 ≤ k ∧ k < 32 then some (x >>> k.toNat) else none

/-- Division that traps on a zero divisor (`div64_u64`, `div64_long`, `div64_ul`
on non-negative operands). -/
def div64 (a b : Nat) : Option Nat :=
  if b = 0 then none else some (a / b)

/-- Kernel `after(seq1, seq2)`, that is `(s32)(seq2 - seq1) < 0`. -/
def after (seq1 seq2 : Nat) : Bool := decide (s32 (sub32 seq2 seq1) < 0)

/-- Kernel `fls64` on at most `fuel` bits: position of the most significant set
bit, counted from 1, and 0 for 0. -/
def flsAux : Nat → Nat → Nat
  | 0, _ => 0
  | fuel + 1, a => if a = 0 then 0 else flsAux fuel (a / 2) + 1

/-- Kernel `fls64`. -/
def fls64 (a : Nat) : Nat := flsAux 64 a

/-! ## Constants of the file -/

def BICTCP_BETA_SCALE : Nat := 1024
def BICTCP_HZ : Nat := 10
def HYSTART_ACK_TRAIN : Nat := 1
def HYSTART_DELAY : Nat := 2
def HYSTART_MIN_SAMPLES : Nat := 8
def HYSTART_DELAY_MIN : Nat := 4000
def HYSTART_DELAY_MAX : Nat := 16000
def BW_SCALE : Nat := 24
def BW_UNIT : Nat := 16777216
def SUSS_SCALE : Nat := 10

/-- Macro `HYSTART_DELAY_THRESH(x)`, that is `clamp(x, 4000, 16000)`. -/
def HYSTART_DELAY_THRESH (x : Nat) : Nat :=
  if x < HYSTART_DELAY_MIN then HYSTART_DELAY_MIN
  else if HYSTART_DELAY_MAX < x then HYSTART_DELAY_MAX else x

/-! Kernel constants used by the file. -/

def TCP_INIT_CWND : Nat := 10
def USEC_PER_SEC : Nat := 1000000
def USEC_PER_MSEC : Nat := 1000
def NSEC_PER_USEC : Nat := 1000
def SK_PACING_NONE : Nat := 0
def SK_PACING_NEEDED : Nat := 1
def TCP_CA_Loss : Nat := 4
def CA_EVENT_TX_START : Nat := 0

/-! ## Data model -/

/-- Module parameters (C `int`s). -/
structure Params where
  suss : Int
  suss_max : Int
  suss_kmax : Int
  fast_convergence : Int
  beta : Int
  initial_ssthresh : Int
  bic_scale : Int
  tcp_friendliness : Int
  hystart : Int
  hystart_detect : Int
  hystart_low_window : Int
  hystart_ack_delta_us : Int
  deriving DecidableEq

/-- The initialisers of the module parameters. -/
def Params.default : Params where
  suss := 0
  suss_max := 3
  suss_kmax := 1
  fast_convergence := 1
  beta := 717
  initial_ssthresh := 0
  bic_scale := 41
  tcp_friendliness := 1
  hystart := 1
  hystart_detect := 3
  hystart_low_window := 16
  hystart_ack_delta_us := 2000

/-- Scale factors precomputed by `cubictcp_register`. -/
structure Scales where
  cube_rtt_scale : Nat
  beta_scale : Nat
  cube_factor : Nat
  deriving DecidableEq

/-- The part of `cubictcp_register` that precomputes the scale factors; the two
divisions trap when `beta = 1024` or `bic_scale * 10` is 0 as a 32-bit value. -/
def cubictcp_register (p : Params) : Option Scales :=
  if (BICTCP_BETA_SCALE : Int) - p.beta = 0 then none
  else
    let beta_scale :=
      u32 (Int.tdiv (Int.tdiv (8 * ((BICTCP_BETA_SCALE : Int) + p.beta)) 3)
        ((BICTCP_BETA_SCALE : Int) - p.beta))
    let cube_rtt_scale := u32 (p.bic_scale * 10)
    if u32 (p.bic_scale * 10) = 0 then none
    else
      some
        { cube_rtt_scale := cube_rtt_scale
          beta_scale := beta_scale
          cube_factor := (1 <<< (10 + 3 * BICTCP_HZ)) / u32 (p.bic_scale * 10) }

/-- The scale factors of the default parameters. -/
def Scales.default : Scales where
  cube_rtt_scale := 410
  beta_scale := 15
  cube_factor := 2681735677

/-- Per-flow private state `struct bictcp`. The fields up to `tcp_cwnd` are `u32`;
`sample_cnt` and `found` are `u8`; the SUSS bit-fields have the widths `suss_round_no` 5,
`suss_gf` 1, `suss_is_blue` 2, `suss_flag` 1, `suss_cap` 14, `suss_r_minupdate` 5,
`suss_blue_cnt` 12, `suss_perv_delta_t_bat` 18, `suss_num_of_jump` 3, and every store to
one of them is reduced modulo `2 ^ width`. -/
structure bictcp where
  cnt : Nat
  last_max_cwnd : Nat
  last_cwnd : Nat
  last_time : Nat
  bic_origin_point : Nat
  bic_K : Nat
  delay_min : Nat
  epoch_start : Nat
  ack_cnt : Nat
  tcp_cwnd : Nat
  unused : Nat
  sample_cnt : Nat
  found : Nat
  round_start : Nat
  end_seq : Nat
  last_ack : Nat
  curr_rtt : Nat
  suss_head_seq : Nat
  suss_tail_seq : Nat
  suss_round_start_us : Nat
  suss_round_no : Nat
  suss_gf : Nat
  suss_is_blue : Nat
  suss_flag : Nat
  suss_cap : Nat
  suss_r_minupdate : Nat
  suss_blue_cnt : Nat
  suss_perv_delta_t_bat : Nat
  suss_num_of_jump : Nat
  suss_unused : Nat
  deriving DecidableEq

/-- The fields of `struct tcp_sock` that the file reads or writes;
`packets_in_flight` stands for `tcp_packets_in_flight(tp)`. -/
structure tcp_sock where
  snd_cwnd : Nat
  snd_ssthresh : Nat
  snd_nxt : Nat
  snd_una : Nat
  snd_isn : Nat
  snd_wnd : Nat
  mss_cache : Nat
  lsndtime : Nat
  tcp_mstamp : Nat
  tcp_clock_cache : Nat
  packets_in_flight : Nat
  suss_state : Nat
  suss_limit : Nat
  suss_rate : Nat
  suss_pacing_start_ns : Nat
  deriving DecidableEq

/-- The socket: transport part, congestion-control private part and the
`struct sock` / `inet_sock` fields that the file uses. -/
structure sock where
  tp : tcp_sock
  ca : bictcp
  sk_pacing_status : Nat
  sk_pacing_rate : Nat
  sk_gso_max_size : Nat
  inet_sport : Nat
  inet_dport : Nat
  deriving DecidableEq

/-- Kernel facilities declared outside the file. -/
structure Kernel where
  HZ : Nat
  usecs_to_jiffies : Nat → Nat
  tcp_is_cwnd_limited : sock → Bool
  tcp_slow_start : tcp_sock → Nat → tcp_sock × Nat
  tcp_cong_avoid_ai : tcp_sock → Nat → Nat → tcp_sock

/-! ## Accessors and resets -/

/-- Kernel `tcp_snd_cwnd`. -/
def tcp_snd_cwnd (tp : tcp_sock) : Nat := tp.snd_cwnd

/-- Kernel `tcp_in_slow_start`. -/
def tcp_in_slow_start (tp : tcp_sock) : Bool := decide (tcp_snd_cwnd tp < tp.snd_ssthresh)

/-- Kernel `tcp_packets_in_flight`. -/
def tcp_packets_in_flight (tp : tcp_sock) : Nat := tp.packets_in_flight

/-- Source `bictcp_reset`: zero the fields that precede `unused`, clear `found`. -/
def bictcp_reset (ca : bictcp) : bictcp :=
  { ca with
    cnt := 0, last_max_cwnd := 0, last_cwnd := 0, last_time := 0, bic_origin_point := 0,
    bic_K := 0, delay_min := 0, epoch_start := 0, ack_cnt := 0, tcp_cwnd := 0, found := 0 }

/-- Source `bictcp_clock_us`: the 64-bit `tcp_mstamp` truncated to `u32`. -/
def bictcp_clock_us (sk : sock) : Nat := sk.tp.tcp_mstamp % 4294967296

/-- Source `bictcp_hystart_reset`. -/
def bictcp_hystart_reset (sk : sock) : sock :=
  { sk with
    ca := { sk.ca with
      round_start := bictcp_clock_us sk, last_ack := bictcp_clock_us sk,
      end_seq := sk.tp.snd_nxt, curr_rtt := 4294967295, sample_cnt := 0 } }

/-- Source `cubictcp_init`. -/
def cubictcp_init (p : Params) (sk : sock) : sock :=
  let ca := bictcp_reset sk.ca
  let ca := { ca with
    suss_num_of_jump := 0, suss_gf := 1, suss_flag := 0, suss_cap := 0, suss_round_no := 1,
    suss_head_seq := sk.tp.snd_nxt,
    suss_tail_seq := sub32 ((sk.tp.snd_nxt + (10 * sk.tp.mss_cache) % 4294967296) % 4294967296) 1 }
  let st : Nat :=
    if p.suss ≠ 0 ∧ sk.sk_pacing_status = SK_PACING_NONE ∧
        (sk.inet_sport = 20480 ∨ sk.inet_dport = 20480) then 1 else 10
  let sk : sock := { sk with ca := ca, tp := { sk.tp with suss_state := st } }
  let sk : sock := if p.hystart ≠ 0 then bictcp_hystart_reset sk else sk
  if p.hystart = 0 ∧ p.initial_ssthresh ≠ 0 then
    { sk with tp := { sk.tp with snd_ssthresh := u32 p.initial_ssthresh } }
  else sk

/-- Source `cubictcp_cwnd_event`; `jiffies` is the value of `tcp_jiffies32`. -/
def cubictcp_cwnd_event (jiffies : Nat) (sk : sock) (event : Nat) : sock :=
  if event = CA_EVENT_TX_START then
    let now := jiffies
    let delta : Int := s32 (sub32 now sk.tp.lsndtime)
    if sk.ca.epoch_start ≠ 0 ∧ delta > 0 then
      let e := (sk.ca.epoch_start + u32 delta) % 4294967296
      let e := if after e now then now else e
      { sk with ca := { sk.ca with epoch_start := e } }
    else sk
  else sk

/-! ## Cube root -/

/-- Conversion of a C integer value to `u64`. -/
def u64 (z : Int) : Nat := (z % 18446744073709551616).toNat

/-- The table `v` of `cubic_root`. -/
def v : List Nat :=
  [0, 54, 54, 54, 118, 118, 118, 118,
   123, 129, 134, 138, 143, 147, 151, 156,
   157, 161, 164, 168, 170, 173, 176, 179,
   181, 185, 187, 190, 192, 194, 197, 199,
   200, 202, 204, 206, 209, 211, 213, 215,
   217, 219, 221, 222, 224, 225, 227, 229,
   231, 232, 234, 236, 237, 239, 240, 242,
   244, 245, 246, 248, 250, 251, 252, 254]

/-- The exponent `b = ((fls64(a) * 84) >> 8) - 1` of `cubic_root`. -/
def cubic_root_b (a : Nat) : Nat := sub32 ((fls64 a * 84) >>> 8) 1

/-- The table index `shift = (a >> (b * 3))` of `cubic_root`, a `u32`. -/
def cubic_root_shift (a : Nat) : Nat := (a >>> (cubic_root_b a * 3)) % 4294967296

/-- The initial estimate `x = ((u32)(((u32)v[shift] + 10) << b)) >> 6` of
`cubic_root`, for the exponent `b` and the table entry `t`. -/
def cubic_root_x0 (b t : Nat) : Nat := (((t + 10) <<< b) % 4294967296) >>> 6

/-- The Newton-Raphson step of `cubic_root` from the estimate `x`:
`x = 2 * x + (u32)div64_u64(a, (u64)x * (u64)(x - 1))` and `x = (x * 341) >> 10`,
both in `u32`; `none` when the division traps. -/
def cubic_root_newton (x a : Nat) : Option Nat :=
  (div64 a (x * sub32 x 1)).bind fun q =>
    let x := (2 * x + q % 4294967296) % 4294967296
    some (((x * 341) % 4294967296) >>> 10)

/-- Source `cubic_root`: table lookup and one Newton-Raphson iteration; `none`
when the table is read out of range or the division traps. -/
def cubic_root (a : Nat) : Option Nat :=
  if fls64 a < 7 then
    (v[a % 4294967296]?).bind fun t => some ((t + 35) >>> 6)
  else
    (v[cubic_root_shift a]?).bind fun t =>
      cubic_root_newton (cubic_root_x0 (cubic_root_b a) t) a

/-! ## Cubic growth engine -/

/-- The loop `while (ca->ack_cnt > delta) { ca->ack_cnt -= delta; ca->tcp_cwnd++; }`
run for at most `fuel` iterations; the result is the pair `(ack_cnt, tcp_cwnd)` on
exit and `none` when the loop is still running after `fuel` iterations. -/
def tcp_friendly_loop (delta : Nat) : Nat → Nat → Nat → Option (Nat × Nat)
  | 0, ack_cnt, tcp_cwnd =>
    if ack_cnt > delta then none else some (ack_cnt, tcp_cwnd)
  | fuel + 1, ack_cnt, tcp_cwnd =>
    if ack_cnt > delta then
      tcp_friendly_loop delta fuel (ack_cnt - delta) ((tcp_cwnd + 1) % 4294967296)
    else some (ack_cnt, tcp_cwnd)

/-- Source `bictcp_update` from the label `tcp_friendliness` to the end. The loop
gets `ack_cnt` iterations, which is enough whenever the step `delta` is positive;
`none` means that the loop does not terminate. -/
def bictcp_friendliness (p : Params) (d : Scales) (ca : bictcp) (cwnd : Nat) : Option bictcp :=
  if p.tcp_friendliness ≠ 0 then
    let scale := d.beta_scale
    let delta := ((cwnd * scale) % 4294967296) >>> 3
    (tcp_friendly_loop delta ca.ack_cnt ca.ack_cnt ca.tcp_cwnd).bind fun r =>
      let ca : bictcp := { ca with ack_cnt := r.1, tcp_cwnd := r.2 }
      let ca : bictcp :=
        if ca.tcp_cwnd > cwnd then
          let delta := ca.tcp_cwnd - cwnd
          let max_cnt := cwnd / delta
          if ca.cnt > max_cnt then { ca with cnt := max_cnt } else ca
        else ca
      some { ca with cnt := max ca.cnt 2 }
  else some { ca with cnt := max ca.cnt 2 }

/-- Source `bictcp_update`, the block `if (ca->epoch_start == 0) { ... }`. -/
def bictcp_epoch (d : Scales) (jiffies : Nat) (ca : bictcp) (cwnd acked : Nat) : Option bictcp :=
  if ca.epoch_start = 0 then
    let ca := { ca with epoch_start := jiffies, ack_cnt := acked, tcp_cwnd := cwnd }
    if ca.last_max_cwnd ≤ cwnd then
      some { ca with bic_K := 0, bic_origin_point := cwnd }
    else
      (cubic_root ((d.cube_factor * (ca.last_max_cwnd - cwnd)) % 18446744073709551616)).bind
        fun k => some { ca with bic_K := k, bic_origin_point := ca.last_max_cwnd }
  else some ca

/-- Source `bictcp_update`, from `t = (s32)(tcp_jiffies32 - ca->epoch_start)` to the
clamp of `ca->cnt` to 20; `K.HZ` is positive. -/
def bictcp_cubic (K : Kernel) (d : Scales) (jiffies : Nat) (ca : bictcp) (cwnd : Nat) : bictcp :=
  let t := u64 (s32 (sub32 jiffies ca.epoch_start))
  let t := (t + K.usecs_to_jiffies ca.delay_min) % 18446744073709551616
  let t := (t <<< BICTCP_HZ) % 18446744073709551616
  let t := t / K.HZ
  let offs := if t < ca.bic_K then ca.bic_K - t else t - ca.bic_K
  let delta :=
    (((d.cube_rtt_scale * offs * offs * offs) % 18446744073709551616) >>>
      (10 + 3 * BICTCP_HZ)) % 4294967296
  let bic_target :=
    if t < ca.bic_K then sub32 ca.bic_origin_point delta
    else (ca.bic_origin_point + delta) % 4294967296
  let cnt :=
    if bic_target > cwnd then cwnd / (bic_target - cwnd) else (100 * cwnd) % 4294967296
  let cnt := if ca.last_max_cwnd = 0 ∧ cnt > 20 then 20 else cnt
  { ca with cnt := cnt }

/-- Source `bictcp_update`; `jiffies` is the value of `tcp_jiffies32`. -/
def bictcp_update (K : Kernel) (p : Params) (d : Scales) (jiffies : Nat) (ca : bictcp)
    (cwnd acked : Nat) : Option bictcp :=
  let ca := { ca with ack_cnt := (ca.ack_cnt + acked) % 4294967296 }
  if ca.last_cwnd = cwnd ∧ s32 (sub32 jiffies ca.last_time) ≤ ((K.HZ / 32 : Nat) : Int) then
    some ca
  else if ca.epoch_start ≠ 0 ∧ jiffies = ca.last_time then
    bictcp_friendliness p d ca cwnd
  else
    let ca := { ca with last_cwnd := cwnd, last_time := jiffies }
    (bictcp_epoch d jiffies ca cwnd acked).bind fun ca =>
      bictcp_friendliness p d (bictcp_cubic K d jiffies ca cwnd) cwnd

/-- Source `cubictcp_recalc_ssthresh`: the new state and the returned threshold. -/
def cubictcp_recalc_ssthresh (p : Params) (sk : sock) : sock × Nat :=
  let cwnd := tcp_snd_cwnd sk.tp
  let ca := { sk.ca with epoch_start := 0 }
  let ca :=
    if cwnd < ca.last_max_cwnd ∧ p.fast_convergence ≠ 0 then
      { ca with
        last_max_cwnd :=
          ((cwnd * u32 ((BICTCP_BETA_SCALE : Int) + p.beta)) % 4294967296) /
            (2 * BICTCP_BETA_SCALE) }
    else { ca with last_max_cwnd := cwnd }
  ({ sk with ca := ca }, max (((cwnd * u32 p.beta) % 4294967296) / BICTCP_BETA_SCALE) 2)

/-- Source `cubictcp_state`. -/
def cubictcp_state (sk : sock) (new_state : Nat) : sock :=
  if new_state = TCP_CA_Loss then
    bictcp_hystart_reset { sk with ca := bictcp_reset sk.ca }
  else sk

/-! ## Accelerated slow start (SUSS) -/

/-- Source `suss_speedup`: the returned value and the state; `none` when a
shift count is negative or the division traps. -/
def suss_speedup (p : Params) (sk : sock) (delta_t_bat : Nat) : Option (Nat × sock) :=
  let ca := sk.ca
  if ca.suss_round_no = 2 then
    if ca.delay_min > 10000 ∧ delta_t_bat < (ca.delay_min >>> 2) then some (1, sk)
    else some (0, { sk with tp := { sk.tp with suss_state := 10 } })
  else
    (shl32 delta_t_bat ((ca.suss_round_no : Int) - 2)).bind fun delta_t =>
    (shl32 ca.suss_perv_delta_t_bat ((ca.suss_round_no : Int) - 3)).bind fun perv_delta_t =>
      (div64 (delta_t <<< SUSS_SCALE) ((perv_delta_t <<< 1) % 4294967296)).bind fun mu =>
        let temp := ((mu * delta_t) % 18446744073709551616) >>> (SUSS_SCALE - 1)
        let value : Nat :=
          if temp ≤ ca.delay_min ∧ (ca.suss_round_no : Int) < p.suss_max + 2 then 1 else 0
        let value : Nat :=
          if value = 1 then
            let k := u32 ((ca.suss_round_no : Int) - (ca.suss_r_minupdate : Int))
            let temp1 := ((k + 1) % 4294967296) * ca.curr_rtt
            let temp2 :=
              (ca.delay_min * ((k + 1) % 4294967296)) % 4294967296 +
                (((ca.delay_min * k) % 4294967296) >>> 3)
            if temp1 > temp2 then 0 else value
          else value
        some (value, sk)

/-- Source `suss_measurements`, the block run when the ACK passes the tail of the
blue part of the train (`ack > ca->suss_tail_seq`). -/
def suss_measurements_tail (p : Params) (sk : sock) (now acked : Nat) : Option sock :=
  let elapsed := sub32 now sk.ca.suss_round_start_us
  let sk : sock := { sk with ca := { sk.ca with suss_is_blue := 2 } }
  (shl32 TCP_INIT_CWND ((sk.ca.suss_round_no : Int) - 1)).bind fun blue_pkt =>
    let blue_ack := blue_pkt >>> 1
    let sk : sock := { sk with ca := { sk.ca with
      suss_tail_seq :=
        sub32 ((sk.ca.suss_head_seq + (blue_pkt * sk.tp.mss_cache) % 4294967296) % 4294967296) 1 } }
    let temp := sk.ca.suss_blue_cnt <<< 1
    (div64 ((blue_pkt * elapsed) % 4294967296) temp).bind fun q =>
      let delta_t_bat := q % 4294967296
      let r : Option sock :=
        if sk.ca.suss_gf = 1 then
          (suss_speedup p sk delta_t_bat).bind fun vs =>
            some { vs.2 with ca := { vs.2.ca with suss_gf := vs.1 % 2 } }
        else some sk
      r.bind fun sk =>
        if sk.ca.suss_gf = 1 then
          let sk : sock :=
            { sk with ca := { sk.ca with suss_perv_delta_t_bat := delta_t_bat % 262144 } }
          (shl32 blue_pkt ((sk.ca.suss_round_no : Int) - 1)).bind fun bp =>
          (shl32 blue_ack ((sk.ca.suss_round_no : Int) - 2)).bind fun ba =>
          (shr32 sk.ca.delay_min ((sk.ca.suss_round_no : Int) - 1)).bind fun dm =>
            let red_pkt := sub32 bp blue_pkt
            let red_ack := sub32 ba blue_ack
            let limit :=
              sub32 (((sk.tp.snd_cwnd + acked) % 4294967296 + red_pkt) % 4294967296) red_ack
            let pacing_duration := sub32 sk.ca.delay_min dm
            (div64 (((red_pkt * sk.tp.mss_cache) % 4294967296) * BW_UNIT)
                pacing_duration).bind fun rate =>
              let rate := (rate * USEC_PER_SEC) % 18446744073709551616
              let rate := rate >>> BW_SCALE
              let sk : sock := { sk with tp := { sk.tp with suss_limit := limit, suss_rate := rate } }
              let temp := sub32 sk.ca.delay_min pacing_duration
              if temp > delta_t_bat then
                let guard := ((temp - delta_t_bat) >>> 1) * NSEC_PER_USEC
                some { sk with
                  tp := { sk.tp with
                    suss_state := 2,
                    suss_pacing_start_ns :=
                      (sk.tp.tcp_clock_cache + guard) % 18446744073709551616 },
                  ca := { sk.ca with suss_num_of_jump := (sk.ca.suss_num_of_jump + 1) % 8 } }
              else some { sk with tp := { sk.tp with suss_state := 1 } }
        else some sk

/-- Source `suss_measurements`. -/
def suss_measurements (p : Params) (sk : sock) (ack acked : Nat) : Option sock :=
  let now := bictcp_clock_us sk
  let sk : sock :=
    if sk.ca.suss_is_blue = 2 then { sk with ca := { sk.ca with suss_is_blue := 0 } } else sk
  let sk : sock :=
    if ack > sk.ca.suss_head_seq then
      { sk with
        ca := { sk.ca with
          suss_is_blue := 1, suss_blue_cnt := 0,
          suss_round_no := (sk.ca.suss_round_no + 1) % 32,
          suss_round_start_us := now, suss_head_seq := sk.tp.snd_nxt },
        sk_pacing_status :=
          if sk.sk_pacing_status = SK_PACING_NEEDED then SK_PACING_NONE else sk.sk_pacing_status,
        tp := { sk.tp with suss_state := 1 } }
    else sk
  let r : Option sock :=
    if ack > sk.ca.suss_tail_seq then suss_measurements_tail p sk now acked else some sk
  r.bind fun sk =>
    let sk : sock :=
      if sk.ca.suss_is_blue ≠ 0 then
        { sk with ca := { sk.ca with suss_blue_cnt := (sk.ca.suss_blue_cnt + acked) % 4096 } }
      else sk
    if sk.ca.suss_is_blue = 0 ∧ sk.tp.suss_state = 2 then
      some { sk with tp := { sk.tp with snd_cwnd := sub32 sk.tp.snd_cwnd acked } }
    else some sk

/-- Source `cubictcp_cong_avoid`; the local `una` only feeds `printk`. The floor of the
send window `(10 * tp->mss_cache) << temp` is shifted by the `u8` local `temp` as the
compiled code does (`shl32_u8`), so that the call returns for every exponent. -/
def cubictcp_cong_avoid (K : Kernel) (p : Params) (d : Scales) (jiffies : Nat) (sk : sock)
    (ack acked : Nat) : Option sock :=
  let sk : sock :=
    if sk.tp.suss_state > 2 ∧ sk.tp.suss_state < 10 ∧ sk.sk_pacing_status = SK_PACING_NEEDED then
      { sk with sk_pacing_status := SK_PACING_NONE }
    else sk
  let r : Option sock :=
    if sk.tp.suss_state < 3 ∧ sk.ca.suss_flag = 0 then suss_measurements p sk ack acked
    else some sk
  r.bind fun sk =>
    let temp : Nat :=
      if sk.tp.suss_state < 3 ∧
          (sk.ca.suss_round_no : Int) < p.suss_max + (sk.ca.suss_num_of_jump : Int) then
        u32 ((sk.ca.suss_round_no : Int) + (sk.ca.suss_num_of_jump : Int) - 1) % 256
      else 0
    let sk : sock :=
      { sk with tp := { sk.tp with
          snd_wnd := max sk.tp.snd_wnd (shl32_u8 ((10 * sk.tp.mss_cache) % 4294967296) temp) } }
    if !K.tcp_is_cwnd_limited sk then some sk
    else
      let go (sk : sock) (acked : Nat) : Option sock :=
        (bictcp_update K p d jiffies sk.ca (tcp_snd_cwnd sk.tp) acked).bind fun ca =>
          some { sk with ca := ca, tp := K.tcp_cong_avoid_ai sk.tp ca.cnt acked }
      if tcp_in_slow_start sk.tp then
        let tpa := K.tcp_slow_start sk.tp acked
        let sk : sock := { sk with tp := tpa.1 }
        if tpa.2 = 0 then some sk else go sk tpa.2
      else go sk acked

/-! ## HyStart and the cap -/

/-- Source `hystart_ack_delay`. -/
def hystart_ack_delay (sk : sock) : Nat :=
  let rate := sk.sk_pacing_rate
  if rate = 0 then 0
  else min USEC_PER_MSEC (((sk.sk_gso_max_size * 4 * USEC_PER_SEC) % 18446744073709551616) / rate)

/-- Source `suss_cap`, the first block: the cap is armed and the window exceeds it. -/
def suss_cap_enforce (sk : sock) : sock :=
  let sk : sock := { sk with ca := { sk.ca with found := 1 }, tp := { sk.tp with suss_state := 3 } }
  let sk : sock :=
    if sk.ca.suss_num_of_jump > 1 then
      { sk with tp := { sk.tp with snd_cwnd := tcp_packets_in_flight sk.tp } }
    else sk
  { sk with tp := { sk.tp with snd_ssthresh := sk.tp.snd_cwnd } }

/-- Source `suss_cap`, the second block: arming of the cap. -/
def suss_cap_arm (p : Params) (sk : sock) (now : Nat) : sock :=
  if s32 (sub32 now sk.ca.last_ack) ≤ p.hystart_ack_delta_us then
    let sk : sock := { sk with ca := { sk.ca with last_ack := now } }
    let threshold := (sk.ca.delay_min + hystart_ack_delay sk) % 4294967296
    let threshold := threshold >>> 1
    let temp := ((sub32 now sk.ca.round_start) <<< sk.ca.suss_num_of_jump) % 4294967296
    if temp > threshold then
      { sk with ca := { sk.ca with
        suss_flag := 1,
        suss_cap :=
          ((sk.tp.snd_cwnd +
              (sk.ca.suss_blue_cnt * ((1 <<< sk.ca.suss_num_of_jump) - 1)) % 4294967296) %
            4294967296) % 16384 } }
    else sk
  else sk

/-- Source `suss_cap`. -/
def suss_cap (p : Params) (sk : sock) : sock :=
  let now := bictcp_clock_us sk
  if sk.ca.suss_flag = 1 ∧ sk.tp.snd_cwnd > sk.ca.suss_cap then suss_cap_enforce sk
  else if sk.ca.suss_flag = 0 ∧ sk.tp.suss_state < 3 ∧ sk.ca.suss_is_blue ≠ 0 then
    suss_cap_arm p sk now
  else sk

/-- Source `hystart_update`, the plain ACK-train check (the statement guarded by
`if (tp->suss_state == 10)`); `now` is the clock read at the top of the block. -/
def hystart_plain_train (p : Params) (sk : sock) (now : Nat) : sock :=
  if s32 (sub32 now sk.ca.last_ack) ≤ p.hystart_ack_delta_us then
    let sk : sock := { sk with ca := { sk.ca with last_ack := now } }
    let threshold := (sk.ca.delay_min + hystart_ack_delay sk) % 4294967296
    let threshold :=
      if sk.sk_pacing_status = SK_PACING_NONE then threshold >>> 1 else threshold
    if sub32 now sk.ca.round_start > threshold then
      { sk with
        ca := { sk.ca with found := 1 },
        tp := { sk.tp with snd_ssthresh := tcp_snd_cwnd sk.tp } }
    else sk
  else sk

/-- Source `hystart_update`, the block `if (hystart_detect & HYSTART_ACK_TRAIN) { ... }`:
the cap check, then the plain ACK-train check when `suss_state` is 10. -/
def hystart_ack_train (p : Params) (sk : sock) : sock :=
  let now := bictcp_clock_us sk
  let sk : sock := suss_cap p sk
  if sk.tp.suss_state = 10 then hystart_plain_train p sk now else sk

/-- Source `hystart_update`, the block `if (hystart_detect & HYSTART_DELAY) { ... }`. -/
def hystart_delay (sk : sock) (delay : Nat) : sock :=
  let sk : sock :=
    if sk.ca.curr_rtt > delay then { sk with ca := { sk.ca with curr_rtt := delay } } else sk
  if sk.ca.sample_cnt < HYSTART_MIN_SAMPLES then
    { sk with ca := { sk.ca with sample_cnt := (sk.ca.sample_cnt + 1) % 256 } }
  else if sk.ca.curr_rtt >
      (sk.ca.delay_min + HYSTART_DELAY_THRESH (sk.ca.delay_min >>> 3)) % 4294967296 then
    let sk : sock := { sk with ca := { sk.ca with found := 1 } }
    let sk : sock :=
      if sk.tp.suss_state < 9 then
        let sk : sock := { sk with tp := { sk.tp with suss_state := 4 } }
        if sk.ca.suss_num_of_jump > 1 then
          { sk with tp := { sk.tp with snd_cwnd := tcp_packets_in_flight sk.tp } }
        else sk
      else sk
    { sk with tp := { sk.tp with snd_ssthresh := tcp_snd_cwnd sk.tp } }
  else sk

/-- Source `hystart_update`. -/
def hystart_update (p : Params) (sk : sock) (delay : Nat) : sock :=
  let sk : sock := if after sk.tp.snd_una sk.ca.end_seq then bictcp_hystart_reset sk else sk
  if tcp_snd_cwnd sk.tp < u32 p.hystart_low_window then sk
  else
    let sk : sock :=
      if (u32 p.hystart_detect) &&& HYSTART_ACK_TRAIN ≠ 0 then hystart_ack_train p sk else sk
    if (u32 p.hystart_detect) &&& HYSTART_DELAY ≠ 0 then hystart_delay sk delay else sk

/-- Source `cubictcp_acked`; `rtt_us` is `sample->rtt_us` (an `s32`) and `jiffies`
the value of `tcp_jiffies32`. -/
def cubictcp_acked (K : Kernel) (p : Params) (jiffies : Nat) (sk : sock) (rtt_us : Int) : sock :=
  if rtt_us < 0 then sk
  else if sk.ca.epoch_start ≠ 0 ∧ s32 (sub32 jiffies sk.ca.epoch_start) < (K.HZ : Int) then sk
  else
    let delay := u32 rtt_us
    let delay := if delay = 0 then 1 else delay
    let sk : sock :=
      if sk.ca.delay_min = 0 ∨ sk.ca.delay_min > delay then
        { sk with ca := { sk.ca with delay_min := delay, suss_r_minupdate := sk.ca.suss_round_no } }
      else sk
    if sk.ca.found = 0 ∧ tcp_in_slow_start sk.tp = true ∧ p.hystart ≠ 0 then
      hystart_update p sk delay
    else sk

/-! ## Blocks of the per-ACK functions

The longer functions of the extension are also given block by block; each block is the
translation of the statements named in its comment, and the theorems
`suss_measurements_tail_eq`, `suss_measurements_eq` and `cubictcp_cong_avoid_eq` state
that the functions above are the compositions of their blocks. -/

/-- Source `suss_measurements`, tail block, the statement
`if (ca->suss_gf == 1) ca->suss_gf = suss_speedup(sk, delta_t_bat);`. -/
def suss_tail_speedup (p : Params) (sk : sock) (delta_t_bat : Nat) : Option sock :=
  if sk.ca.suss_gf = 1 then
    (suss_speedup p sk delta_t_bat).bind fun vs =>
      some { vs.2 with ca := { vs.2.ca with suss_gf := vs.1 % 2 } }
  else some sk

/-- Source `suss_measurements`, tail block, the body of the second
`if (ca->suss_gf == 1) { ... }`: previous delta, ceiling, pacing rate and the choice
between pacing and train clocking. -/
def suss_tail_pace (sk : sock) (blue_pkt delta_t_bat acked : Nat) : Option sock :=
  let blue_ack := blue_pkt >>> 1
  let sk : sock :=
    { sk with ca := { sk.ca with suss_perv_delta_t_bat := delta_t_bat % 262144 } }
  (shl32 blue_pkt ((sk.ca.suss_round_no : Int) - 1)).bind fun bp =>
  (shl32 blue_ack ((sk.ca.suss_round_no : Int) - 2)).bind fun ba =>
  (shr32 sk.ca.delay_min ((sk.ca.suss_round_no : Int) - 1)).bind fun dm =>
    let red_pkt := sub32 bp blue_pkt
    let red_ack := sub32 ba blue_ack
    let limit :=
      sub32 (((sk.tp.snd_cwnd + acked) % 4294967296 + red_pkt) % 4294967296) red_ack
    let pacing_duration := sub32 sk.ca.delay_min dm
    (div64 (((red_pkt * sk.tp.mss_cache) % 4294967296) * BW_UNIT)
        pacing_duration).bind fun rate =>
      let rate := (rate * USEC_PER_SEC) % 18446744073709551616
      let rate := rate >>> BW_SCALE
      let sk : sock := { sk with tp := { sk.tp with suss_limit := limit, suss_rate := rate } }
      let temp := sub32 sk.ca.delay_min pacing_duration
      if temp > delta_t_bat then
        let guard := ((temp - delta_t_bat) >>> 1) * NSEC_PER_USEC
        some { sk with
          tp := { sk.tp with
            suss_state := 2,
            suss_pacing_start_ns :=
              (sk.tp.tcp_clock_cache + guard) % 18446744073709551616 },
          ca := { sk.ca with suss_num_of_jump := (sk.ca.suss_num_of_jump + 1) % 8 } }
      else some { sk with tp := { sk.tp with suss_state := 1 } }

/-- Source `suss_measurements`, the statement
`if (ca->suss_is_blue == 2) ca->suss_is_blue = 0;`. -/
def suss_first_red (sk : sock) : sock :=
  if sk.ca.suss_is_blue = 2 then { sk with ca := { sk.ca with suss_is_blue := 0 } } else sk

/-- Source `suss_measurements`, the block `if (ack > ca->suss_head_seq) { ... }` that
starts a round. -/
def suss_round_head (sk : sock) (now ack : Nat) : sock :=
  if ack > sk.ca.suss_head_seq then
    { sk with
      ca := { sk.ca with
        suss_is_blue := 1, suss_blue_cnt := 0,
        suss_round_no := (sk.ca.suss_round_no + 1) % 32,
        suss_round_start_us := now, suss_head_seq := sk.tp.snd_nxt },
      sk_pacing_status :=
        if sk.sk_pacing_status = SK_PACING_NEEDED then SK_PACING_NONE else sk.sk_pacing_status,
      tp := { sk.tp with suss_state := 1 } }
  else sk

/-- Source `suss_measurements`, the last two statements: count the lead ACKs, and take
the acknowledged segments off the window while pacing. -/
def suss_count (sk : sock) (acked : Nat) : Option sock :=
  let sk : sock :=
    if sk.ca.suss_is_blue ≠ 0 then
      { sk with ca := { sk.ca with suss_blue_cnt := (sk.ca.suss_blue_cnt + acked) % 4096 } }
    else sk
  if sk.ca.suss_is_blue = 0 ∧ sk.tp.suss_state = 2 then
    some { sk with tp := { sk.tp with snd_cwnd := sub32 sk.tp.snd_cwnd acked } }
  else some sk

/-- Source `cubictcp_cong_avoid`, the first statement: back to ACK clocking once the
extension has left its active phases. -/
def suss_clocking (sk : sock) : sock :=
  if sk.tp.suss_state > 2 ∧ sk.tp.suss_state < 10 ∧ sk.sk_pacing_status = SK_PACING_NEEDED then
    { sk with sk_pacing_status := SK_PACING_NONE }
  else sk

/-- Source `cubictcp_cong_avoid`, the `u8` local `temp`: the exponent of the floor of the
send window. -/
def suss_wnd_exp (p : Params) (sk : sock) : Nat :=
  if sk.tp.suss_state < 3 ∧
      (sk.ca.suss_round_no : Int) < p.suss_max + (sk.ca.suss_num_of_jump : Int) then
    u32 ((sk.ca.suss_round_no : Int) + (sk.ca.suss_num_of_jump : Int) - 1) % 256
  else 0

/-- Source `cubictcp_cong_avoid` from `if (!tcp_is_cwnd_limited(sk))` to the end. -/
def cong_avoid_grow (K : Kernel) (p : Params) (d : Scales) (jiffies : Nat) (sk : sock)
    (acked : Nat) : Option sock :=
  if !K.tcp_is_cwnd_limited sk then some sk
  else
    let go (sk : sock) (acked : Nat) : Option sock :=
      (bictcp_update K p d jiffies sk.ca (tcp_snd_cwnd sk.tp) acked).bind fun ca =>
        some { sk with ca := ca, tp := K.tcp_cong_avoid_ai sk.tp ca.cnt acked }
    if tcp_in_slow_start sk.tp then
      let tpa := K.tcp_slow_start sk.tp acked
      let sk : sock := { sk with tp := tpa.1 }
      if tpa.2 = 0 then some sk else go sk tpa.2
    else go sk acked

/-! ## Runs, reachability and auxiliary checks -/

/-- States of the growth engine reachable from a reset by calls of `bictcp_update`
with a window of at least 1 and calls of `cubictcp_recalc_ssthresh`. -/
inductive Reachable (K : Kernel) (p : Params) (d : Scales) : bictcp → Prop
  | reset (ca : bictcp) : Reachable K p d (bictcp_reset ca)
  | update (ca ca' : bictcp) (jiffies cwnd acked : Nat) :
      Reachable K p d ca → 1 ≤ cwnd →
      bictcp_update K p d jiffies ca cwnd acked = some ca' → Reachable K p d ca'
  | recalc (sk : sock) :
      Reachable K p d sk.ca → Reachable K p d (cubictcp_recalc_ssthresh p sk).1.ca

/-- Check of one bucket of `cubic_root`, exponent `b` and table index `s`: the
estimate is at least 4, the shift of the table entry fits 32 bits, and the
Newton intermediate at the largest input of the bucket fits 32 bits. -/
def bucket_safe (b s : Nat) : Bool :=
  let x := cubic_root_x0 b (v.getD s 0)
  decide (4 ≤ x) && decide ((v.getD s 0 + 10) <<< b < 4294967296) &&
    decide ((2 * x + ((s + 1) * 2 ^ (3 * b) - 1) / (x * (x - 1))) * 341 < 4294967296)

/-- One RTT sample delivered to `cubictcp_acked`: the sample, the value of
`tcp_jiffies32` at the call, and what the transport did to the socket since the
previous call. -/
structure RttEvent where
  rtt_us : Int
  jiffies : Nat
  env : sock → sock

/-- The socket after a sequence of RTT samples. -/
def acked_run (K : Kernel) (p : Params) : sock → List RttEvent → sock
  | sk, [] => sk
  | sk, e :: es => acked_run K p (cubictcp_acked K p e.jiffies (e.env sk) e.rtt_us) es

/-- Spec side: the minimum of a list of samples, 0 for the empty list. -/
def samples_min : List Nat → Nat
  | [] => 0
  | [d] => d
  | d :: e :: ds => min d (samples_min (e :: ds))

/-- Spec side: a sample is taken into account when it carries a timestamp and does
not arrive within `HZ` jiffies after the start of a set epoch. -/
def sample_accepted (K : Kernel) (epoch_start : Nat) (e : RttEvent) : Bool :=
  decide (0 ≤ e.rtt_us) &&
    !(decide (epoch_start ≠ 0) && decide (s32 (sub32 e.jiffies epoch_start) < (K.HZ : Int)))

/-- Spec side: the delay a sample stands for, at least 1 microsecond. -/
def sample_delay (e : RttEvent) : Nat := max 1 e.rtt_us.toNat

/-- The update of `delay_min` by one accepted delay. -/
def delay_min_step (m d : Nat) : Nat := if m = 0 ∨ m > d then d else m

/-- Spec side: the delays taken into account along a run of RTT samples, in order. Each
sample is judged against the epoch in force when it is delivered, that is after the
steps taken since the previous sample (`cubictcp_acked` itself never changes
`epoch_start`, the other handlers do). -/
def accepted_delays (K : Kernel) (p : Params) : sock → List RttEvent → List Nat
  | _, [] => []
  | sk, e :: es =>
    (if sample_accepted K (e.env sk).ca.epoch_start e then [sample_delay e] else []) ++
      accepted_delays K p (cubictcp_acked K p e.jiffies (e.env sk) e.rtt_us) es

/-- Spec side: the speed-up rule for rounds from 3 on, in exact arithmetic: with
`d = delta << (n - 2)`, `p = prev << (n - 3)`, `mu = (d << 10) / (2 * p)` and
`projected = (mu * d) >> 9`, the rule holds when `projected <= delay_min`,
`n < suss_max + 2` and, with `k = n - r_minupdate`,
`(k + 1) * curr_rtt <= delay_min * (k + 1) + (delay_min * k) / 8`. -/
def speedup_rule (suss_max : Int) (n delta prev delay_min curr_rtt r_minupdate : Nat) : Bool :=
  let d := delta <<< (n - 2)
  let pr := prev <<< (n - 3)
  let mu := (d <<< 10) / (2 * pr)
  let projected := (mu * d) >>> 9
  let k := n - r_minupdate
  decide (projected ≤ delay_min) && decide ((n : Int) < suss_max + 2) &&
    decide ((k + 1) * curr_rtt ≤ delay_min * (k + 1) + (delay_min * k) / 8)

/-- Check of one bucket of `cubic_root` for the bound `1000 * r - 1500 <= 1002 * cbrt(a)`:
with `x` the initial estimate and `D = x * (x - 1)`, the real-valued Newton step
`341 * (2 * x * D + a) / (1024 * D)` less 1.5 has its cube at most `1.002 ^ 3 * a` at both
ends `lo`, `hi` of the bucket (everything multiplied out to integers). -/
def bucket_upper (b s : Nat) : Bool :=
  let x := cubic_root_x0 b (v.getD s 0)
  let D := x * (x - 1)
  let lo := s * 2 ^ (3 * b)
  let hi := (s + 1) * 2 ^ (3 * b)
  decide (1 * ((682000 * x * D - 1536000 * D) + 341000 * lo) ^ 3 ≤
      (1002 ^ 3 * (1024 * D) ^ 3) * lo) &&
    decide (1 * ((682000 * x * D - 1536000 * D) + 341000 * hi) ^ 3 ≤
      (1002 ^ 3 * (1024 * D) ^ 3) * hi)

/-- Check of one bucket of `cubic_root` for the bound `r ^ 3 <= 1.00492 * a`: the
real-valued Newton step `341 * (2 * x * D + a) / (1024 * D)` has its cube at most
`1.00492 * a` at both ends of the bucket. -/
def bucket_upper_rel (b s : Nat) : Bool :=
  let x := cubic_root_x0 b (v.getD s 0)
  let D := x * (x - 1)
  let lo := s * 2 ^ (3 * b)
  let hi := (s + 1) * 2 ^ (3 * b)
  decide (100000 * (682 * x * D + 341 * lo) ^ 3 ≤ (100492 * (1024 * D) ^ 3) * lo) &&
    decide (100000 * (682 * x * D + 341 * hi) ^ 3 ≤ (100492 * (1024 * D) ^ 3) * hi)

/-- Spec side: `r` is within a relative error of 0.2% of the real cube root of `a`,
that is `0.998 * cbrt(a) <= r <= 1.002 * cbrt(a)`, stated on the cubes. -/
def cbrt_rel_ok (r a : Nat) : Prop := 998 ^ 3 * a ≤ (1000 * r) ^ 3 ∧ (1000 * r) ^ 3 ≤ 1002 ^ 3 * a

/-- Spec side: `|r ^ 3 - a|` is below 0.5% of `a`. -/
def cube_err_ok (r a : Nat) : Prop := 200 * (r ^ 3 - a) < a ∧ 200 * (a - r ^ 3) < a

/-- The accuracy that holds on all inputs: `r` is within 0.2% of the real cube root of
`a` up to an absolute error of 1.5, that is
`0.998 * cbrt(a) - 1.5 <= r <= 1.002 * cbrt(a) + 1.5`, stated on the cubes. -/
def cbrt_near (r a : Nat) : Prop :=
  (1000 * r - 1500) ^ 3 ≤ 1002 ^ 3 * a ∧ 998 ^ 3 * a ≤ (1000 * r + 1500) ^ 3

/-- One call into the module: the entries of `struct tcp_congestion_ops cubictcp`
(`init`, `cong_avoid`, `pkts_acked`, `ssthresh`, `set_state`, `cwnd_event`) and the
internal functions `suss_measurements`, `hystart_update` and `suss_cap`, with the
arguments of the call; `jiffies` is the value of `tcp_jiffies32` at the call. -/
inductive Call where
  | init
  | cong_avoid (jiffies ack acked : Nat)
  | measurements (ack acked : Nat)
  | pkts_acked (jiffies : Nat) (rtt_us : Int)
  | hystart (delay : Nat)
  | cap
  | ssthresh
  | set_state (new_state : Nat)
  | cwnd_event (jiffies event : Nat)
  deriving DecidableEq

/-- The socket after one call; `none` when the call does not return. -/
def Call.run (K : Kernel) (p : Params) (d : Scales) : Call → sock → Option sock
  | Call.init, sk => some (cubictcp_init p sk)
  | Call.cong_avoid jiffies ack acked, sk => cubictcp_cong_avoid K p d jiffies sk ack acked
  | Call.measurements ack acked, sk => suss_measurements p sk ack acked
  | Call.pkts_acked jiffies rtt_us, sk => some (cubictcp_acked K p jiffies sk rtt_us)
  | Call.hystart delay, sk => some (hystart_update p sk delay)
  | Call.cap, sk => some (suss_cap p sk)
  | Call.ssthresh, sk => some (cubictcp_recalc_ssthresh p sk).1
  | Call.set_state new_state, sk => some (cubictcp_state sk new_state)
  | Call.cwnd_event jiffies event, sk => some (cubictcp_cwnd_event jiffies sk event)

/-- One step of a run: what the transport did to the socket since the previous call
(it does not write the private area), then a call. -/
structure Step where
  env : sock → sock
  call : Call

/-- The socket after a sequence of steps; `none` when one of the calls does not return. -/
def run_calls (K : Kernel) (p : Params) (d : Scales) : sock → List Step → Option sock
  | sk, [] => some sk
  | sk, e :: es => (e.call.run K p d (e.env sk)).bind fun sk' => run_calls K p d sk' es

/-- The fields of the private area that the tail block of `suss_measurements` and
`bictcp_update` leave alone and that the claims on latching and on the delay detector are
about: minimum delay, exit flag, cap flag, cap value, round number. -/
def ca_core (ca : bictcp) : List Nat :=
  [ca.delay_min, ca.found, ca.suss_flag, ca.suss_cap, ca.suss_round_no]

/-- What the HyStart side of the module keeps: the round number, an armed cap together
with its value, and a set exit flag. -/
def Held (sk sk' : sock) : Prop :=
  sk'.ca.suss_round_no = sk.ca.suss_round_no ∧
  (sk.ca.suss_flag = 1 → sk'.ca.suss_flag = 1 ∧ sk'.ca.suss_cap = sk.ca.suss_cap) ∧
  (sk.ca.found = 1 → sk'.ca.found = 1)

/-- The sub-state of the extension in the private area: round number, growth-factor flag,
colour of the last ACK, lead-ACK count, head and tail of the lead train, cap flag, cap
value and jump count. -/
def ca_ase (ca : bictcp) : List Nat :=
  [ca.suss_round_no, ca.suss_gf, ca.suss_is_blue, ca.suss_blue_cnt, ca.suss_head_seq,
   ca.suss_tail_seq, ca.suss_flag, ca.suss_cap, ca.suss_num_of_jump]

/-- What the file relies on for the kernel's `tcp_slow_start` and `tcp_cong_avoid_ai`
(`net/ipv4/tcp_cong.c`): they write the congestion window and its counter only, so the
phase `suss_state` and the send window `snd_wnd` are as before. -/
def Kernel.window_only (K : Kernel) : Prop :=
  (∀ (tp : tcp_sock) (acked : Nat),
    (K.tcp_slow_start tp acked).1.suss_state = tp.suss_state ∧
    (K.tcp_slow_start tp acked).1.snd_wnd = tp.snd_wnd) ∧
  (∀ (tp : tcp_sock) (w acked : Nat),
    (K.tcp_cong_avoid_ai tp w acked).suss_state = tp.suss_state ∧
    (K.tcp_cong_avoid_ai tp w acked).snd_wnd = tp.snd_wnd)

/-- What the tail block of `suss_measurements` reads after its first two stores
(`suss_is_blue` and `suss_tail_seq`): the transport block, and from the private area the
round number, the growth-factor flag, the lead-ACK count, the minimum delay, the jump
count, the previous train delta, the round of the last minimum update and the round
minimum. -/
def tail_view (sk : sock) : tcp_sock × List Nat :=
  (sk.tp, [sk.ca.suss_round_no, sk.ca.suss_gf, sk.ca.suss_blue_cnt, sk.ca.delay_min,
    sk.ca.suss_num_of_jump, sk.ca.suss_perv_delta_t_bat, sk.ca.suss_r_minupdate,
    sk.ca.curr_rtt])

/-- The two transport fields behind the floor of the send window: `snd_wnd` and
`mss_cache`. -/
def wnd_view (sk : sock) : List Nat := [sk.tp.snd_wnd, sk.tp.mss_cache]

/-! ## Concrete states used in examples -/

/-- A kernel with `HZ = 1000`, a window that is always limited, the slow start
and additive increase of Reno left out. -/
def Kernel.sample : Kernel where
  HZ := 1000
  usecs_to_jiffies := fun u => (u + 999) / 1000
  tcp_is_cwnd_limited := fun _ => true
  tcp_slow_start := fun tp acked => (tp, acked)
  tcp_cong_avoid_ai := fun tp _ _ => tp

/-- The all-zero private area. -/
def bictcp.zero : bictcp :=
  ⟨0, 0, 0, 0, 0, 0, 0, 0, 0, 0, 0, 0, 0, 0, 0, 0, 0, 0, 0, 0, 0, 0, 0, 0, 0, 0, 0, 0, 0, 0⟩

/-- An all-zero transport block. -/
def tcp_sock.zero : tcp_sock := ⟨0, 0, 0, 0, 0, 0, 0, 0, 0, 0, 0, 0, 0, 0, 0⟩

/-- An all-zero socket. -/
def sock.zero : sock := ⟨tcp_sock.zero, bictcp.zero, 0, 0, 0, 0, 0⟩

/-- A socket with window `cwnd` and remembered maximum `last_max`. -/
def sock.withCwnd (cwnd last_max : Nat) : sock :=
  { sock.zero with
    tp := { tcp_sock.zero with snd_cwnd := cwnd },
    ca := { bictcp.zero with last_max_cwnd := last_max } }

/-- The engine state after `bictcp_reset` and one `bictcp_update` with window 10,
10 segments acknowledged, at jiffy 1000 (default parameters, `Kernel.sample`). -/
def bictcp.afterFirstUpdate : bictcp :=
  { bictcp.zero with
    cnt := 20, last_cwnd := 10, last_time := 1000, bic_origin_point := 10,
    epoch_start := 1000, ack_cnt := 10, tcp_cwnd := 10 }

/-- A socket in SUSS round `n` with the extension measuring (`suss_state = 1`),
growth factor armed, minimum delay `delay_min` (also the round minimum and updated in
round `n`) and previous train delta `perv`. -/
def sock.inRound (n delay_min perv : Nat) : sock :=
  { sock.zero with
    tp := { tcp_sock.zero with suss_state := 1 },
    ca := { bictcp.zero with
      suss_round_no := n, suss_gf := 1, delay_min := delay_min, curr_rtt := delay_min,
      suss_r_minupdate := n, suss_perv_delta_t_bat := perv } }

/-- The default parameters with the extension switched on (`suss = 1`). -/
def Params.sussOn : Params := { Params.default with suss := 1 }

/-- A connection to port 80 (`inet_dport = htons(80) = 20480`) before `cubictcp_init`:
zeroed private area, `snd_nxt = 1000`, segments of 1000 bytes, initial window 10,
no pacing. -/
def sock.fresh : sock :=
  { sock.zero with
    inet_dport := 20480,
    tp := { tcp_sock.zero with
      snd_nxt := 1000, snd_una := 1000, snd_isn := 999, mss_cache := 1000, snd_cwnd := 10,
      snd_ssthresh := 2147483647, snd_wnd := 65535 } }

/-- The connection `sock.fresh` after `cubictcp_init` and after the transport has sent
the initial window of 10 segments: `snd_nxt = 11000`, all of it acknowledged by one
cumulative ACK at time 50000 us. -/
def sock.firstAck : sock :=
  let sk := cubictcp_init Params.sussOn sock.fresh
  { sk with tp := { sk.tp with
      snd_nxt := 11000, snd_una := 11000, tcp_mstamp := 50000, tcp_clock_cache := 50000000,
      packets_in_flight := 0 } }

/-- The kernel `Kernel.sample` for an application-limited flow: the window is never the
limit, so `cubictcp_cong_avoid` returns after the block of the extension. -/
def Kernel.idle : Kernel := { Kernel.sample with tcp_is_cwnd_limited := fun _ => false }

/-- Step `i` of a flow that sends one segment of 100 bytes per round trip on the
connection `sock.fresh`: the segment is sent (`snd_nxt = 1000 + 100 * i`), then
acknowledged 50 ms later by the ACK that `cubictcp_cong_avoid` receives. -/
def trickle_step (i : Nat) : Step where
  env := fun sk => { sk with tp := { sk.tp with
    snd_nxt := 1000 + 100 * i, snd_una := 1000 + 100 * i, tcp_mstamp := 50000 * i,
    tcp_clock_cache := 50000000 * i } }
  call := Call.cong_avoid (1000 + 50 * i) (1000 + 100 * i) 1

/-- The first `n` steps of that flow. -/
def trickle (n : Nat) : List Step := (List.range n).map fun i => trickle_step (i + 1)

/-- A flow with the extension measuring in round 12 on a path with a large
bandwidth-delay product: window 20000, 100 lead ACKs counted, one jump, minimum delay
30 ms, the round started 10 ms ago and the last close ACK came 1 ms ago. -/
def sock.wideWindow : sock :=
  { sock.zero with
    tp := { tcp_sock.zero with
      snd_cwnd := 20000, snd_ssthresh := 2147483647, suss_state := 1, tcp_mstamp := 100000 },
    ca := { bictcp.zero with
      suss_is_blue := 1, suss_blue_cnt := 100, suss_num_of_jump := 1, suss_round_no := 12,
      last_ack := 99000, round_start := 90000, delay_min := 30000 } }

/-- A flow with the cap armed at 300, window 400, 350 segments in flight, two jumps. -/
def sock.overCap : sock :=
  { sock.zero with
    tp := { tcp_sock.zero with
      snd_cwnd := 400, snd_ssthresh := 2147483647, packets_in_flight := 350, suss_state := 1,
      tcp_mstamp := 100000 },
    ca := { bictcp.zero with
      suss_flag := 1, suss_cap := 300, suss_num_of_jump := 2, suss_round_no := 4,
      suss_is_blue := 1, delay_min := 30000, last_ack := 99000, round_start := 90000 } }

/-- A flow in slow start with the extension disabled (`suss_state = 10`), window 20, in a
HyStart round that started 5 ms ago (`round_start = 100000`, clock 105000), the last
close ACK 0.5 ms ago, minimum delay 8 ms, pacing rate unset, three delay samples taken;
`status` is `sk_pacing_status`. -/
def sock.trainRound (status : Nat) : sock :=
  { sock.zero with
    sk_pacing_status := status, sk_gso_max_size := 65536,
    tp := { tcp_sock.zero with
      snd_cwnd := 20, snd_ssthresh := 2147483647, snd_una := 5000, snd_nxt := 9000,
      suss_state := 10, tcp_mstamp := 105000 },
    ca := { bictcp.zero with
      delay_min := 8000, round_start := 100000, last_ack := 104500, end_seq := 9000,
      curr_rtt := 8000, sample_cnt := 3 } }

/-- A flow in slow start with the extension disabled, window 20, minimum delay 20 ms, in
a HyStart round with `cnt` delay samples taken and round minimum 30 ms; the last close
ACK is 10 ms old, so that the ACK-train check does not apply. -/
def sock.delayRound (cnt : Nat) : sock :=
  { sock.zero with
    tp := { tcp_sock.zero with
      snd_cwnd := 20, snd_ssthresh := 2147483647, snd_una := 5000, snd_nxt := 9000,
      suss_state := 10, tcp_mstamp := 105000 },
    ca := { bictcp.zero with
      delay_min := 20000, round_start := 100000, last_ack := 95000, end_seq := 9000,
      curr_rtt := 30000, sample_cnt := cnt } }

/-- A flow whose epoch started at jiffy 1000 and that last sent at jiffy 4000. -/
def sock.idle : sock :=
  { sock.zero with
    tp := { tcp_sock.zero with lsndtime := 4000 },
    ca := { bictcp.zero with epoch_start := 1000 } }

/-- What follows the tail ACK of `sock.tailAck` on a flow whose extension was disabled:
an RTT sample of 21 ms, the ACK of two more segments, a loss, the retransmission after
an idle gap, and the recomputation of the threshold. -/
def disabled_steps : List Step :=
  [⟨fun sk => { sk with tp := { sk.tp with tcp_mstamp := 77000, snd_una := 11000 } },
      Call.pkts_acked 2000 21000⟩,
   ⟨fun sk => { sk with tp := { sk.tp with tcp_mstamp := 78000, snd_una := 13000 } },
      Call.cong_avoid 2001 13000 2⟩,
   ⟨fun sk => sk, Call.ssthresh⟩,
   ⟨fun sk => { sk with tp := { sk.tp with snd_cwnd := 13, snd_ssthresh := 13 } },
      Call.set_state TCP_CA_Loss⟩,
   ⟨fun sk => { sk with tp := { sk.tp with lsndtime := 2100 } },
      Call.cwnd_event 2500 CA_EVENT_TX_START⟩]

/-- A flow with the extension measuring in round 2 at the ACK that passes the tail of the
lead train: segments of 1000 bytes, window 19, head of the train at 11000 and tail at
10999, nine lead ACKs counted, minimum delay 20 ms, the round started at 70000 us and the
clock is `elapsed` us later. -/
def sock.tailAck (elapsed : Nat) : sock :=
  { sock.zero with
    tp := { tcp_sock.zero with
      snd_cwnd := 19, snd_ssthresh := 2147483647, snd_nxt := 30000, snd_una := 11000,
      mss_cache := 1000, suss_state := 1, tcp_mstamp := 70000 + elapsed,
      tcp_clock_cache := 1000 * (70000 + elapsed), packets_in_flight := 19 },
    ca := { bictcp.zero with
      suss_round_no := 2, suss_gf := 1, suss_is_blue := 1, suss_blue_cnt := 9,
      suss_head_seq := 11000, suss_tail_seq := 10999, suss_round_start_us := 70000,
      delay_min := 20000, curr_rtt := 20000, suss_r_minupdate := 1, round_start := 70000,
      last_ack := 70000, end_seq := 30000 } }

/-- A flow with the extension measuring in round 9 after seven jumps, segments of 52429
bytes and an advertised window of 0; the lead train runs from 5000 to 9000. -/
def sock.lateRound : sock :=
  { sock.zero with
    tp := { tcp_sock.zero with
      snd_cwnd := 5000, snd_ssthresh := 2147483647, snd_nxt := 5000, snd_una := 4000,
      mss_cache := 52429, suss_state := 1, tcp_mstamp := 100000 },
    ca := { bictcp.zero with
      suss_round_no := 9, suss_num_of_jump := 7, suss_is_blue := 1, suss_blue_cnt := 3,
      suss_head_seq := 5000, suss_tail_seq := 9000, delay_min := 30000 } }

/-- A call of `cubictcp_cong_avoid` between two RTT samples, as a step of the
environment of `cubictcp_acked`; the state stays as it is where the call has no result. -/
def cong_avoid_env (K : Kernel) (p : Params) (d : Scales) (jiffies ack acked : Nat) :
    sock → sock :=
  fun sk => (cubictcp_cong_avoid K p d jiffies sk ack acked).getD sk

/-- Three RTT samples on the connection `sock.fresh` after `cubictcp_init`: 30 ms at
jiffy 1000, then 20 ms at jiffy 1002 after the ACK was handed to `cubictcp_cong_avoid`
at jiffy 1001 (which starts the epoch), then 25 ms at jiffy 2100. -/
def epoch_samples : List RttEvent :=
  [⟨30000, 1000, id⟩,
   ⟨20000, 1002, cong_avoid_env Kernel.sample Params.default Scales.default 1001 2000 1⟩,
   ⟨25000, 2100, id⟩]

/-! # Theorems -/

/-! ## Machine arithmetic -/

theorem u32_natCast (n : Nat) (h : n < 4294967296) : u32 (n : Int) = n := by
  unfold u32; omega

theorem sub32_eq (a b : Nat) (hb : b ≤ a) (ha : a < 4294967296) : sub32 a b = a - b := by
  unfold sub32; omega

theorem flsAux_zero (fuel : Nat) : flsAux fuel 0 = 0 := by
  cases fuel <;> simp [flsAux]

theorem flsAux_spec (fuel : Nat) : ∀ a : Nat, a < 2 ^ fuel → a ≠ 0 →
    1 ≤ flsAux fuel a ∧ flsAux fuel a ≤ fuel ∧
      2 ^ (flsAux fuel a - 1) ≤ a ∧ a < 2 ^ (flsAux fuel a) := by
  induction fuel with
  | zero => intro a h h0; simp at h; exact absurd h h0
  | succ f ih =>
    intro a h h0
    have hstep : flsAux (f + 1) a = flsAux f (a / 2) + 1 := by
      simp [flsAux, h0]
    rw [hstep]
    by_cases h2 : a / 2 = 0
    · have ha : a = 1 := by omega
      rw [h2, flsAux_zero]
      subst ha
      simp
    · have hlt : a / 2 < 2 ^ f := by
        rw [Nat.pow_succ] at h; omega
      obtain ⟨k1, k2, k3, k4⟩ := ih (a / 2) hlt h2
      refine ⟨by omega, by omega, ?_, ?_⟩
      · have e : flsAux f (a / 2) + 1 - 1 = (flsAux f (a / 2) - 1) + 1 := by omega
        rw [e, Nat.pow_succ]; omega
      · rw [Nat.pow_succ]; omega

theorem fls64_spec (a : Nat) (h : a < 18446744073709551616) (h0 : a ≠ 0) :
    1 ≤ fls64 a ∧ fls64 a ≤ 64 ∧ 2 ^ (fls64 a - 1) ≤ a ∧ a < 2 ^ (fls64 a) :=
  flsAux_spec 64 a (by norm_num; exact h) h0

theorem fls64_lt_seven (a : Nat) (h : a < 64) : fls64 a < 7 := by
  by_cases h0 : a = 0
  · subst h0; decide
  · obtain ⟨_, _, k3, _⟩ := fls64_spec a (by omega) h0
    by_contra hc
    have : 2 ^ 6 ≤ 2 ^ (fls64 a - 1) := Nat.pow_le_pow_right (by norm_num) (by omega)
    norm_num at this
    omega

theorem fls64_ge_seven (a : Nat) (h : 64 ≤ a) (h64 : a < 18446744073709551616) :
    7 ≤ fls64 a := by
  obtain ⟨_, _, _, k4⟩ := fls64_spec a h64 (by omega)
  by_contra hc
  have : 2 ^ (fls64 a) ≤ 2 ^ 6 := Nat.pow_le_pow_right (by norm_num) (by omega)
  norm_num at this
  omega

/-! ## Cube root: buckets -/

/-- Every input from 64 on falls in a bucket with exponent in `[1, 20]` and table
index in `[8, 63]`. -/
theorem cubic_root_bucket (a : Nat) (h : 64 ≤ a) (h64 : a < 18446744073709551616) :
    1 ≤ cubic_root_b a ∧ cubic_root_b a ≤ 20 ∧
    8 ≤ cubic_root_shift a ∧ cubic_root_shift a ≤ 63 ∧
    cubic_root_shift a * 2 ^ (3 * cubic_root_b a) ≤ a ∧
    a < (cubic_root_shift a + 1) * 2 ^ (3 * cubic_root_b a) := by
  obtain ⟨_, k2, k3, k4⟩ := fls64_spec a h64 (by omega)
  have k7 := fls64_ge_seven a h h64
  have hb : cubic_root_b a = fls64 a * 84 / 256 - 1 := by
    unfold cubic_root_b sub32
    rw [Nat.shiftRight_eq_div_pow]
    norm_num
    omega
  have hsh : cubic_root_shift a = (a / 2 ^ (3 * cubic_root_b a)) % 4294967296 := by
    unfold cubic_root_shift
    rw [Nat.shiftRight_eq_div_pow, Nat.mul_comm]
  rw [hsh]
  generalize fls64 a = k at *
  generalize cubic_root_b a = b at *
  have hk1 : 3 * b + 4 ≤ k := by omega
  have hk2 : k ≤ 3 * b + 6 := by omega
  have hb1 : 1 ≤ b := by omega
  have hb2 : b ≤ 20 := by omega
  clear hb
  have hlo : 2 ^ (3 * b + 3) ≤ a :=
    le_trans (Nat.pow_le_pow_right (by norm_num) (by omega)) k3
  have hhi : a < 2 ^ (3 * b + 6) :=
    lt_of_lt_of_le k4 (Nat.pow_le_pow_right (by norm_num) (by omega))
  have hpos : 0 < 2 ^ (3 * b) := Nat.pow_pos (by norm_num)
  have e3 : 2 ^ (3 * b + 3) = 8 * 2 ^ (3 * b) := by rw [Nat.pow_add]; ring
  have e6 : 2 ^ (3 * b + 6) = 64 * 2 ^ (3 * b) := by rw [Nat.pow_add]; ring
  rw [e3] at hlo
  rw [e6] at hhi
  clear k3 k4 e3 e6 hk1 hk2 k2 k7
  generalize 2 ^ (3 * b) = P at *
  have hs1 : 8 ≤ a / P := by
    rw [Nat.le_div_iff_mul_le hpos]; omega
  have hs2 : a / P < 64 := by
    rw [Nat.div_lt_iff_lt_mul hpos]; omega
  have hmod : a / P % 4294967296 = a / P := Nat.mod_eq_of_lt (by omega)
  rw [hmod]
  refine ⟨hb1, hb2, hs1, by omega, Nat.div_mul_le_self a _, ?_⟩
  exact Nat.lt_mul_of_div_lt (Nat.lt_succ_self _) hpos

set_option maxRecDepth 100000 in
theorem all_buckets_safe :
    ∀ b < 21, ∀ s < 64, 1 ≤ b → 8 ≤ s → bucket_safe b s = true := by
  decide

theorem v_lookup : ∀ s < 64, v[s]? = some (v.getD s 0) := by
  decide

/-! ## Cube root: safety -/

theorem cubic_root_x0_lt (b t : Nat) : cubic_root_x0 b t < 4294967296 := by
  unfold cubic_root_x0
  rw [Nat.shiftRight_eq_div_pow]
  have : ((t + 10) <<< b) % 4294967296 < 4294967296 := Nat.mod_lt _ (by norm_num)
  exact lt_of_le_of_lt (Nat.div_le_self _ _) this

/-- The Newton step on a bucket that passes `bucket_safe`. -/
theorem cubic_root_newton_eq (b s a : Nat) (hsafe : bucket_safe b s = true)
    (hhi : a < (s + 1) * 2 ^ (3 * b)) :
    4 ≤ cubic_root_x0 b (v.getD s 0) ∧
    0 < cubic_root_x0 b (v.getD s 0) * (cubic_root_x0 b (v.getD s 0) - 1) ∧
    (v.getD s 0 + 10) <<< b < 4294967296 ∧
    (2 * cubic_root_x0 b (v.getD s 0) +
      a / (cubic_root_x0 b (v.getD s 0) * (cubic_root_x0 b (v.getD s 0) - 1))) * 341
        < 4294967296 ∧
    cubic_root_newton (cubic_root_x0 b (v.getD s 0)) a =
      some ((2 * cubic_root_x0 b (v.getD s 0) +
        a / (cubic_root_x0 b (v.getD s 0) * (cubic_root_x0 b (v.getD s 0) - 1))) * 341 / 1024) := by
  unfold bucket_safe at hsafe
  simp only [Bool.and_eq_true, decide_eq_true_eq] at hsafe
  obtain ⟨⟨h4, hsh⟩, hov⟩ := hsafe
  have hxlt := cubic_root_x0_lt b (v.getD s 0)
  generalize cubic_root_x0 b (v.getD s 0) = x at *
  have hD : 0 < x * (x - 1) := Nat.mul_pos (by omega) (by omega)
  have hq : a / (x * (x - 1)) ≤ ((s + 1) * 2 ^ (3 * b) - 1) / (x * (x - 1)) :=
    Nat.div_le_div_right (by omega)
  generalize ((s + 1) * 2 ^ (3 * b) - 1) / (x * (x - 1)) = Q at *
  have hov2 : (2 * x + a / (x * (x - 1))) * 341 < 4294967296 := by
    have : (2 * x + a / (x * (x - 1))) * 341 ≤ (2 * x + Q) * 341 :=
      Nat.mul_le_mul_right _ (by omega)
    omega
  refine ⟨h4, hD, hsh, hov2, ?_⟩
  have e1 : sub32 x 1 = x - 1 := sub32_eq x 1 (by omega) hxlt
  have e2 : div64 a (x * (x - 1)) = some (a / (x * (x - 1))) := by
    unfold div64; rw [if_neg (by omega)]
  unfold cubic_root_newton
  rw [e1, e2]
  simp only [Option.some_bind]
  generalize a / (x * (x - 1)) = q at *
  rw [Nat.mod_eq_of_lt (by omega : q < 4294967296),
    Nat.mod_eq_of_lt (by omega : 2 * x + q < 4294967296),
    Nat.mod_eq_of_lt hov2, Nat.shiftRight_eq_div_pow]

/-- Value of `cubic_root` on inputs from 64 on. -/
theorem cubic_root_eq (a : Nat) (h : 64 ≤ a) (h64 : a < 18446744073709551616) :
    cubic_root a =
      cubic_root_newton (cubic_root_x0 (cubic_root_b a) (v.getD (cubic_root_shift a) 0)) a := by
  obtain ⟨_, _, _, hs2, _, _⟩ := cubic_root_bucket a h h64
  have h7 : ¬ fls64 a < 7 := by have := fls64_ge_seven a h h64; omega
  have hv := v_lookup (cubic_root_shift a) (by omega)
  unfold cubic_root
  rw [if_neg h7]
  rw [hv]
  rw [Option.some_bind]

theorem cubic_root_small (a : Nat) (h : a < 64) :
    cubic_root a = some ((v.getD a 0 + 35) / 64) := by
  unfold cubic_root
  rw [if_pos (fls64_lt_seven a h), Nat.mod_eq_of_lt (by omega), v_lookup a h]
  simp only [Option.some_bind, Nat.shiftRight_eq_div_pow]

theorem cubic_root_isSome (a : Nat) (h64 : a < 18446744073709551616) :
    ∃ r, cubic_root a = some r := by
  by_cases h : a < 64
  · exact ⟨_, cubic_root_small a h⟩
  · obtain ⟨hb1, hb2, hs1, hs2, _, hhi⟩ := cubic_root_bucket a (by omega) h64
    have hsafe := all_buckets_safe _ (by omega : cubic_root_b a < 21) _
      (by omega : cubic_root_shift a < 64) hb1 hs1
    obtain ⟨_, _, _, _, e⟩ := cubic_root_newton_eq _ _ a hsafe hhi
    exact ⟨_, (cubic_root_eq a (by omega) h64).trans e⟩

/-- C5: for every 64-bit input `cubic_root` neither reads the table out of range nor
divides by zero: below 64 the index is the input itself; from 64 on the index
`a >> (3 * b)` lies in `[8, 63]`, the initial estimate is at least 4, the Newton
divisor `x * (x - 1)` is positive and the 32-bit intermediate
`(2 * x + a / (x * (x - 1))) * 341` does not overflow; the function returns a value. -/
theorem cubic_root_safe (a : Nat) (h64 : a < 18446744073709551616) :
    (a < 64 → fls64 a < 7 ∧ a % 4294967296 = a ∧ a < v.length) ∧
    (64 ≤ a → 7 ≤ fls64 a ∧ 8 ≤ cubic_root_shift a ∧ cubic_root_shift a ≤ 63 ∧
      cubic_root_shift a < v.length ∧
      4 ≤ cubic_root_x0 (cubic_root_b a) (v.getD (cubic_root_shift a) 0) ∧
      0 < cubic_root_x0 (cubic_root_b a) (v.getD (cubic_root_shift a) 0) *
          (cubic_root_x0 (cubic_root_b a) (v.getD (cubic_root_shift a) 0) - 1) ∧
      (2 * cubic_root_x0 (cubic_root_b a) (v.getD (cubic_root_shift a) 0) +
          a / (cubic_root_x0 (cubic_root_b a) (v.getD (cubic_root_shift a) 0) *
            (cubic_root_x0 (cubic_root_b a) (v.getD (cubic_root_shift a) 0) - 1))) * 341
        < 4294967296) ∧
    (∃ r, cubic_root a = some r) := by
  refine ⟨fun h => ⟨fls64_lt_seven a h, Nat.mod_eq_of_lt (by omega), ?_⟩, fun h => ?_,
    cubic_root_isSome a h64⟩
  · have : v.length = 64 := by decide
    omega
  · obtain ⟨hb1, hb2, hs1, hs2, _, hhi⟩ := cubic_root_bucket a h h64
    have hsafe := all_buckets_safe _ (by omega : cubic_root_b a < 21) _
      (by omega : cubic_root_shift a < 64) hb1 hs1
    obtain ⟨h4, hD, _, hov, _⟩ := cubic_root_newton_eq _ _ a hsafe hhi
    have : v.length = 64 := by decide
    exact ⟨fls64_ge_seven a h h64, hs1, hs2, by omega, h4, hD, hov⟩

theorem cubic_root_safe_witness :
    (1000000 : Nat) < 18446744073709551616 ∧ (64 : Nat) ≤ 1000000 ∧
    8 ≤ cubic_root_shift 1000000 ∧ cubic_root_shift 1000000 ≤ 63 ∧
    ∃ r, cubic_root 1000000 = some r :=
  ⟨by decide, by decide, ((cubic_root_safe 1000000 (by decide)).2.1 (by decide)).2.1,
    ((cubic_root_safe 1000000 (by decide)).2.1 (by decide)).2.2.1,
    (cubic_root_safe 1000000 (by decide)).2.2⟩

/-! ## Growth engine: the floor of the credit -/

theorem tcp_friendly_loop_terminates (delta : Nat) (hd : 1 ≤ delta) :
    ∀ fuel ack_cnt tcp_cwnd : Nat, ack_cnt ≤ fuel →
      ∃ r, tcp_friendly_loop delta fuel ack_cnt tcp_cwnd = some r := by
  intro fuel
  induction fuel with
  | zero =>
    intro ack_cnt tcp_cwnd h
    exact ⟨_, by rw [tcp_friendly_loop, if_neg (by omega)]⟩
  | succ f ih =>
    intro ack_cnt tcp_cwnd h
    by_cases hc : ack_cnt > delta
    · obtain ⟨r, hr⟩ := ih (ack_cnt - delta) ((tcp_cwnd + 1) % 4294967296) (by omega)
      exact ⟨r, by rw [tcp_friendly_loop, if_pos hc]; exact hr⟩
    · exact ⟨_, by rw [tcp_friendly_loop, if_neg hc]⟩

theorem tcp_friendly_loop_diverges (fuel : Nat) :
    ∀ ack_cnt tcp_cwnd : Nat, 0 < ack_cnt →
      tcp_friendly_loop 0 fuel ack_cnt tcp_cwnd = none := by
  induction fuel with
  | zero =>
    intro ack_cnt tcp_cwnd h
    rw [tcp_friendly_loop, if_pos h]
  | succ f ih =>
    intro ack_cnt tcp_cwnd h
    rw [tcp_friendly_loop, if_pos h]
    exact ih _ _ (by omega)

theorem friendliness_cnt (p : Params) (d : Scales) (ca ca' : bictcp) (cwnd : Nat)
    (h : bictcp_friendliness p d ca cwnd = some ca') : 2 ≤ ca'.cnt := by
  unfold bictcp_friendliness at h
  split at h
  · simp only [Option.bind_eq_some] at h
    obtain ⟨r, _, hr⟩ := h
    simp only [Option.some.injEq] at hr
    rw [← hr]
    exact Nat.le_max_right _ _
  · simp only [Option.some.injEq] at h
    rw [← h]
    exact Nat.le_max_right _ _

theorem friendliness_isSome (p : Params) (d : Scales) (ca : bictcp) (cwnd : Nat)
    (hd : 1 ≤ ((cwnd * d.beta_scale) % 4294967296) >>> 3) :
    ∃ ca', bictcp_friendliness p d ca cwnd = some ca' := by
  unfold bictcp_friendliness
  split
  · obtain ⟨r, hr⟩ := tcp_friendly_loop_terminates _ hd ca.ack_cnt ca.ack_cnt ca.tcp_cwnd
      (Nat.le_refl _)
    simp only [hr, Option.some_bind]
    exact ⟨_, rfl⟩
  · exact ⟨_, rfl⟩

theorem epoch_isSome (d : Scales) (jiffies : Nat) (ca : bictcp) (cwnd acked : Nat) :
    ∃ ca', bictcp_epoch d jiffies ca cwnd acked = some ca' := by
  unfold bictcp_epoch
  split
  · simp only
    split
    · exact ⟨_, rfl⟩
    · obtain ⟨k, hk⟩ := cubic_root_isSome
        ((d.cube_factor * (ca.last_max_cwnd - cwnd)) % 18446744073709551616)
        (Nat.mod_lt _ (by norm_num))
      rw [hk]
      exact ⟨_, rfl⟩
  · exact ⟨_, rfl⟩

theorem update_cnt (K : Kernel) (p : Params) (d : Scales) (jiffies : Nat) (ca ca' : bictcp)
    (cwnd acked : Nat) (hinv : 2 ≤ ca.cnt ∨ ca.last_cwnd = 0) (hc : 1 ≤ cwnd)
    (h : bictcp_update K p d jiffies ca cwnd acked = some ca') : 2 ≤ ca'.cnt := by
  unfold bictcp_update at h
  simp only at h
  split at h
  · rename_i hco
    simp only [Option.some.injEq] at h
    rw [← h]
    simp only
    rcases hinv with h2 | h0
    · exact h2
    · omega
  · split at h
    · exact friendliness_cnt _ _ _ _ _ h
    · simp only [Option.bind_eq_some] at h
      obtain ⟨c, _, hc⟩ := h
      exact friendliness_cnt _ _ _ _ _ hc

theorem update_isSome (K : Kernel) (p : Params) (d : Scales) (jiffies : Nat) (ca : bictcp)
    (cwnd acked : Nat) (hd : 1 ≤ ((cwnd * d.beta_scale) % 4294967296) >>> 3) :
    ∃ ca', bictcp_update K p d jiffies ca cwnd acked = some ca' := by
  unfold bictcp_update
  simp only
  split
  · exact ⟨_, rfl⟩
  · split
    · exact friendliness_isSome p d _ cwnd hd
    · obtain ⟨c, hc⟩ := epoch_isSome d jiffies
        { ca with ack_cnt := (ca.ack_cnt + acked) % 4294967296, last_cwnd := cwnd,
                  last_time := jiffies } cwnd acked
      rw [hc]
      exact friendliness_isSome p d _ cwnd hd

theorem reachable_inv (K : Kernel) (p : Params) (d : Scales) (ca : bictcp)
    (h : Reachable K p d ca) : 2 ≤ ca.cnt ∨ ca.last_cwnd = 0 := by
  induction h with
  | reset ca => right; rfl
  | update ca ca' jiffies cwnd acked _ hc hu ih =>
    left; exact update_cnt K p d jiffies ca ca' cwnd acked ih hc hu
  | recalc sk _ ih =>
    have e1 : (cubictcp_recalc_ssthresh p sk).1.ca.cnt = sk.ca.cnt := by
      simp only [cubictcp_recalc_ssthresh]; split <;> rfl
    have e2 : (cubictcp_recalc_ssthresh p sk).1.ca.last_cwnd = sk.ca.last_cwnd := by
      simp only [cubictcp_recalc_ssthresh]; split <;> rfl
    rw [e1, e2]; exact ih

theorem friendly_step_pos (cwnd : Nat) (h1 : 1 ≤ cwnd) (h2 : cwnd < 2290649225) :
    1 ≤ (cwnd * 15 % 4294967296) / 8 := by
  have hc : cwnd * 15 / 4294967296 ≤ 7 := by omega
  have hm : cwnd * 15 % 4294967296 = cwnd * 15 - 4294967296 * (cwnd * 15 / 4294967296) := by
    omega
  have hle : 4294967296 * (cwnd * 15 / 4294967296) ≤ cwnd * 15 := by omega
  rw [hm]
  generalize cwnd * 15 / 4294967296 = c at *
  interval_cases c <;> omega

/-- C1: in every state reachable from a reset by `bictcp_update` calls with a window of
at least 1 and `cubictcp_recalc_ssthresh` calls, a `bictcp_update` call with a window of
at least 1 leaves a credit `cnt` of at least 2, whichever path it takes (coalescing
return, once-per-jiffy shortcut or full recomputation); with the default `beta_scale`
of 15 the call returns for every window below 2290649225, which covers every window
that fits a C `int`. -/
theorem bictcp_update_cnt_floor (K : Kernel) (p : Params) (d : Scales) (ca : bictcp)
    (hr : Reachable K p d ca) (jiffies cwnd acked : Nat) (hc : 1 ≤ cwnd) :
    (∀ ca', bictcp_update K p d jiffies ca cwnd acked = some ca' → 2 ≤ ca'.cnt) ∧
    (d.beta_scale = 15 → cwnd < 2290649225 →
      ∃ ca', bictcp_update K p d jiffies ca cwnd acked = some ca' ∧ 2 ≤ ca'.cnt) := by
  have hinv := reachable_inv K p d ca hr
  refine ⟨fun ca' h => update_cnt K p d jiffies ca ca' cwnd acked hinv hc h, fun hb hw => ?_⟩
  have hd : 1 ≤ ((cwnd * d.beta_scale) % 4294967296) >>> 3 := by
    have e : (2 : Nat) ^ 3 = 8 := by norm_num
    rw [hb, Nat.shiftRight_eq_div_pow, e]
    exact friendly_step_pos cwnd hc hw
  obtain ⟨ca', h⟩ := update_isSome K p d jiffies ca cwnd acked hd
  exact ⟨ca', h, update_cnt K p d jiffies ca ca' cwnd acked hinv hc h⟩

theorem reachable_afterFirstUpdate :
    Reachable Kernel.sample Params.default Scales.default bictcp.afterFirstUpdate :=
  Reachable.update (bictcp_reset bictcp.zero) bictcp.afterFirstUpdate 1000 10 10
    (Reachable.reset bictcp.zero) (by decide) (by decide)

theorem bictcp_update_cnt_floor_witness :
    Reachable Kernel.sample Params.default Scales.default bictcp.afterFirstUpdate ∧
    (1 : Nat) ≤ 10 ∧
    ∃ ca', bictcp_update Kernel.sample Params.default Scales.default 1000
        bictcp.afterFirstUpdate 10 10 = some ca' ∧ 2 ≤ ca'.cnt :=
  ⟨reachable_afterFirstUpdate, by decide,
    (bictcp_update_cnt_floor Kernel.sample Params.default Scales.default
      bictcp.afterFirstUpdate reachable_afterFirstUpdate 1000 10 10 (by decide)).2
      rfl (by decide)⟩

/-! ## Loss response: `cubictcp_recalc_ssthresh` -/

/-- C2 (as stated, refuted): at a window of 6,000,000 segments and `beta = 717` the
32-bit product `cwnd * beta` wraps, and the returned threshold is 6867, not
`max(6000000 * 717 / 1024, 2) = 4201171`. -/
theorem recalc_ssthresh_wraps :
    (cubictcp_recalc_ssthresh Params.default (sock.withCwnd 6000000 0)).2 = 6867 ∧
    max (6000000 * 717 / 1024) 2 = 4201171 := by
  decide

/-- C2 (amended): `cubictcp_recalc_ssthresh` always leaves `epoch_start = 0`; for a
non-negative `beta` and a window with `cwnd * beta < 2 ^ 32`, which at `beta = 717` is
every window up to 5,990,191, it returns `max(cwnd * beta / 1024, 2)` with integer
division, which is 700 for `cwnd = 1000` and `beta = 717`. -/
theorem recalc_ssthresh_value (p : Params) (sk : sock) (b : Nat) (hb : p.beta = (b : Int)) :
    (cubictcp_recalc_ssthresh p sk).1.ca.epoch_start = 0 ∧
    (sk.tp.snd_cwnd * b < 4294967296 →
      (cubictcp_recalc_ssthresh p sk).2 = max (sk.tp.snd_cwnd * b / 1024) 2) ∧
    (sk.tp.snd_cwnd = 1000 → b = 717 → (cubictcp_recalc_ssthresh p sk).2 = 700) ∧
    (b = 717 → sk.tp.snd_cwnd ≤ 5990191 →
      (cubictcp_recalc_ssthresh p sk).2 = max (sk.tp.snd_cwnd * 717 / 1024) 2) := by
  have key : sk.tp.snd_cwnd * b < 4294967296 →
      (cubictcp_recalc_ssthresh p sk).2 = max (sk.tp.snd_cwnd * b / 1024) 2 := by
    intro h
    simp only [cubictcp_recalc_ssthresh, tcp_snd_cwnd, BICTCP_BETA_SCALE, hb]
    by_cases hc : sk.tp.snd_cwnd = 0
    · simp [hc]
    · have hb' : b < 4294967296 := by
        have : 1 * b ≤ sk.tp.snd_cwnd * b := Nat.mul_le_mul_right b (by omega)
        omega
      rw [u32_natCast b hb', Nat.mod_eq_of_lt h]
  refine ⟨?_, key, ?_, ?_⟩
  · simp only [cubictcp_recalc_ssthresh]
    split <;> rfl
  · intro h1 h2
    rw [key (by rw [h1, h2]; decide), h1, h2]
    decide
  · intro h2 hc
    subst h2
    exact key (by omega)

theorem recalc_ssthresh_value_witness :
    Params.default.beta = ((717 : Nat) : Int) ∧
    (sock.withCwnd 1000 0).tp.snd_cwnd * 717 < 4294967296 ∧
    (cubictcp_recalc_ssthresh Params.default (sock.withCwnd 1000 0)).2 =
      max ((sock.withCwnd 1000 0).tp.snd_cwnd * 717 / 1024) 2 :=
  ⟨rfl, by decide,
    (recalc_ssthresh_value Params.default (sock.withCwnd 1000 0) 717 rfl).2.1 (by decide)⟩

/-- C3 (as stated, refuted): with fast convergence on, a window of 3,000,000 below a
remembered maximum of 4,000,000 and `beta = 717`, the 32-bit product
`cwnd * (1024 + beta)` wraps and `last_max_cwnd` becomes 453140, not
`3000000 * 1741 / 2048 = 2550292`. -/
theorem recalc_last_max_wraps :
    (cubictcp_recalc_ssthresh Params.default
      (sock.withCwnd 3000000 4000000)).1.ca.last_max_cwnd = 453140 ∧
    3000000 * (1024 + 717) / 2048 = 2550292 := by
  decide

/-- C3 (amended): with fast convergence on and `cwnd < last_max_cwnd`,
`cubictcp_recalc_ssthresh` sets `last_max_cwnd` to `cwnd * (1024 + beta) / 2048` whenever
`cwnd * (1024 + beta) < 2 ^ 32`, and in any case to a value strictly below `cwnd` for
`cwnd >= 1` and `beta < 1024` (850 for `cwnd = 1000`, `beta = 717`); with fast
convergence on and `last_max_cwnd <= cwnd`, or with fast convergence off, it sets
`last_max_cwnd` to `cwnd`. -/
theorem recalc_last_max (p : Params) (sk : sock) (b : Nat) (hb : p.beta = (b : Int)) :
    (p.fast_convergence ≠ 0 → sk.tp.snd_cwnd < sk.ca.last_max_cwnd →
      sk.tp.snd_cwnd * (1024 + b) < 4294967296 →
      (cubictcp_recalc_ssthresh p sk).1.ca.last_max_cwnd = sk.tp.snd_cwnd * (1024 + b) / 2048) ∧
    (p.fast_convergence ≠ 0 → sk.tp.snd_cwnd < sk.ca.last_max_cwnd →
      1 ≤ sk.tp.snd_cwnd → b < 1024 →
      (cubictcp_recalc_ssthresh p sk).1.ca.last_max_cwnd < sk.tp.snd_cwnd) ∧
    (p.fast_convergence ≠ 0 → sk.ca.last_max_cwnd ≤ sk.tp.snd_cwnd →
      (cubictcp_recalc_ssthresh p sk).1.ca.last_max_cwnd = sk.tp.snd_cwnd) ∧
    (p.fast_convergence = 0 →
      (cubictcp_recalc_ssthresh p sk).1.ca.last_max_cwnd = sk.tp.snd_cwnd) ∧
    (p.fast_convergence ≠ 0 → sk.tp.snd_cwnd = 1000 → 1000 < sk.ca.last_max_cwnd → b = 717 →
      (cubictcp_recalc_ssthresh p sk).1.ca.last_max_cwnd = 850) := by
  have hcast : ((BICTCP_BETA_SCALE : Nat) : Int) + p.beta = ((1024 + b : Nat) : Int) := by
    rw [hb]; simp [BICTCP_BETA_SCALE]
  have key : p.fast_convergence ≠ 0 → sk.tp.snd_cwnd < sk.ca.last_max_cwnd →
      (cubictcp_recalc_ssthresh p sk).1.ca.last_max_cwnd =
        ((sk.tp.snd_cwnd * u32 ((1024 + b : Nat) : Int)) % 4294967296) / 2048 := by
    intro hf hlt
    simp only [cubictcp_recalc_ssthresh, tcp_snd_cwnd, hcast]
    rw [if_pos ⟨hlt, hf⟩]
    simp [BICTCP_BETA_SCALE]
  have exact : p.fast_convergence ≠ 0 → sk.tp.snd_cwnd < sk.ca.last_max_cwnd →
      sk.tp.snd_cwnd * (1024 + b) < 4294967296 →
      (cubictcp_recalc_ssthresh p sk).1.ca.last_max_cwnd = sk.tp.snd_cwnd * (1024 + b) / 2048 := by
    intro hf hlt hno
    rw [key hf hlt]
    by_cases hc : sk.tp.snd_cwnd = 0
    · simp [hc]
    · have hb' : 1024 + b < 4294967296 := by
        have : 1 * (1024 + b) ≤ sk.tp.snd_cwnd * (1024 + b) := Nat.mul_le_mul_right _ (by omega)
        omega
      rw [u32_natCast _ hb', Nat.mod_eq_of_lt hno]
  refine ⟨exact, ?_, ?_, ?_, ?_⟩
  · intro hf hlt h1 hb1
    rw [key hf hlt, u32_natCast _ (by omega)]
    have h2 : sk.tp.snd_cwnd * (1024 + b) % 4294967296 ≤ sk.tp.snd_cwnd * (1024 + b) :=
      Nat.mod_le _ _
    have h3 : sk.tp.snd_cwnd * (1024 + b) ≤ sk.tp.snd_cwnd * 2047 :=
      Nat.mul_le_mul_left _ (by omega)
    omega
  · intro hf hle
    simp only [cubictcp_recalc_ssthresh, tcp_snd_cwnd]
    rw [if_neg (by omega)]
  · intro hf
    simp only [cubictcp_recalc_ssthresh, tcp_snd_cwnd]
    rw [if_neg (by simp [hf])]
  · intro hf h1 hlt h2
    rw [exact hf (by omega) (by rw [h1, h2]; decide), h1, h2]

theorem recalc_last_max_witness :
    Params.default.beta = ((717 : Nat) : Int) ∧ Params.default.fast_convergence ≠ 0 ∧
    (sock.withCwnd 1000 1200).tp.snd_cwnd < (sock.withCwnd 1000 1200).ca.last_max_cwnd ∧
    (sock.withCwnd 1000 1200).tp.snd_cwnd * (1024 + 717) < 4294967296 ∧
    (cubictcp_recalc_ssthresh Params.default (sock.withCwnd 1000 1200)).1.ca.last_max_cwnd =
      (sock.withCwnd 1000 1200).tp.snd_cwnd * (1024 + 717) / 2048 :=
  ⟨rfl, by decide, by decide, by decide,
    (recalc_last_max Params.default (sock.withCwnd 1000 1200) 717 rfl).1
      (by decide) (by decide) (by decide)⟩

/-! ## RTT samples without timestamp -/

/-- C7: `cubictcp_acked` called with a sample without timestamp (`rtt_us < 0`) returns
the socket unchanged: the whole flow state and every transport field stay as they
were. -/
theorem acked_no_timestamp (K : Kernel) (p : Params) (jiffies : Nat) (sk : sock) (rtt_us : Int)
    (h : rtt_us < 0) : cubictcp_acked K p jiffies sk rtt_us = sk := by
  unfold cubictcp_acked
  rw [if_pos h]

theorem acked_no_timestamp_witness :
    (-1 : Int) < 0 ∧
    cubictcp_acked Kernel.sample Params.default 1000 (sock.inRound 2 20000 0) (-1) =
      sock.inRound 2 20000 0 :=
  ⟨by decide, acked_no_timestamp Kernel.sample Params.default 1000 (sock.inRound 2 20000 0) (-1)
    (by decide)⟩

/-! ## Speed-up rule -/

/-- C8: in round 2 `suss_speedup` returns 1 and leaves the socket unchanged when
`delay_min > 10000` and the lead-train delta is below `delay_min / 4`; in every other
case it returns 0 and sets `suss_state` to 10, changing nothing else. With
`delay_min = 20000` a delta of 4000 continues and a delta of 6000 disables. -/
theorem suss_speedup_round2 (p : Params) (sk : sock) (delta : Nat)
    (h : sk.ca.suss_round_no = 2) :
    (sk.ca.delay_min > 10000 ∧ delta < sk.ca.delay_min / 4 →
      suss_speedup p sk delta = some (1, sk)) ∧
    (¬ (sk.ca.delay_min > 10000 ∧ delta < sk.ca.delay_min / 4) →
      suss_speedup p sk delta =
        some (0, { sk with tp := { sk.tp with suss_state := 10 } })) ∧
    (sk.ca.delay_min = 20000 →
      suss_speedup p sk 4000 = some (1, sk) ∧
      suss_speedup p sk 6000 = some (0, { sk with tp := { sk.tp with suss_state := 10 } })) := by
  have e : ∀ x : Nat, x >>> 2 = x / 4 := fun x => by
    rw [Nat.shiftRight_eq_div_pow]
  have pos : ∀ dl : Nat, sk.ca.delay_min > 10000 ∧ dl < sk.ca.delay_min / 4 →
      suss_speedup p sk dl = some (1, sk) := by
    intro dl c
    unfold suss_speedup
    simp only [h, if_true, e]
    rw [if_pos c]
  have neg : ∀ dl : Nat, ¬ (sk.ca.delay_min > 10000 ∧ dl < sk.ca.delay_min / 4) →
      suss_speedup p sk dl = some (0, { sk with tp := { sk.tp with suss_state := 10 } }) := by
    intro dl c
    unfold suss_speedup
    simp only [h, if_true, e]
    rw [if_neg c]
  refine ⟨pos delta, neg delta, fun hd => ⟨pos 4000 ?_, neg 6000 ?_⟩⟩
  · rw [hd]; decide
  · rw [hd]; decide

theorem suss_speedup_round2_witness :
    (sock.inRound 2 20000 0).ca.suss_round_no = 2 ∧
    suss_speedup Params.default (sock.inRound 2 20000 0) 4000 =
      some (1, sock.inRound 2 20000 0) ∧
    suss_speedup Params.default (sock.inRound 2 20000 0) 6000 =
      some (0, { sock.inRound 2 20000 0 with
        tp := { (sock.inRound 2 20000 0).tp with suss_state := 10 } }) :=
  ⟨rfl, (suss_speedup_round2 Params.default (sock.inRound 2 20000 0) 4000 rfl).2.2 rfl⟩

/-! ## Minimum delay -/

theorem suss_cap_keeps (p : Params) (sk : sock) :
    (suss_cap p sk).ca.delay_min = sk.ca.delay_min ∧
    (suss_cap p sk).ca.epoch_start = sk.ca.epoch_start := by
  unfold suss_cap suss_cap_enforce suss_cap_arm
  dsimp only
  split_ifs <;> exact ⟨rfl, rfl⟩

theorem hystart_plain_train_keeps (p : Params) (sk : sock) (now : Nat) :
    (hystart_plain_train p sk now).ca.delay_min = sk.ca.delay_min ∧
    (hystart_plain_train p sk now).ca.epoch_start = sk.ca.epoch_start := by
  unfold hystart_plain_train
  dsimp only
  split_ifs <;> exact ⟨rfl, rfl⟩

theorem hystart_ack_train_keeps (p : Params) (sk : sock) :
    (hystart_ack_train p sk).ca.delay_min = sk.ca.delay_min ∧
    (hystart_ack_train p sk).ca.epoch_start = sk.ca.epoch_start := by
  unfold hystart_ack_train
  dsimp only
  split_ifs
  · rw [(hystart_plain_train_keeps p _ _).1, (hystart_plain_train_keeps p _ _).2]
    exact suss_cap_keeps p sk
  · exact suss_cap_keeps p sk

theorem hystart_delay_keeps (sk : sock) (delay : Nat) :
    (hystart_delay sk delay).ca.delay_min = sk.ca.delay_min ∧
    (hystart_delay sk delay).ca.epoch_start = sk.ca.epoch_start := by
  unfold hystart_delay
  dsimp only
  split_ifs <;> exact ⟨rfl, rfl⟩

theorem hystart_update_keeps (p : Params) (sk : sock) (delay : Nat) :
    (hystart_update p sk delay).ca.delay_min = sk.ca.delay_min ∧
    (hystart_update p sk delay).ca.epoch_start = sk.ca.epoch_start := by
  unfold hystart_update
  dsimp only
  split_ifs <;>
    simp only [hystart_delay_keeps, hystart_ack_train_keeps, bictcp_hystart_reset, and_self]

theorem acked_step (K : Kernel) (p : Params) (sk : sock) (e : RttEvent)
    (hr : e.rtt_us < 2147483648) :
    (cubictcp_acked K p e.jiffies sk e.rtt_us).ca.epoch_start = sk.ca.epoch_start ∧
    (cubictcp_acked K p e.jiffies sk e.rtt_us).ca.delay_min =
      if sample_accepted K sk.ca.epoch_start e = true then
        delay_min_step sk.ca.delay_min (sample_delay e)
      else sk.ca.delay_min := by
  unfold cubictcp_acked sample_accepted
  by_cases h1 : e.rtt_us < 0
  · rw [if_pos h1]
    have : ¬ (0 ≤ e.rtt_us) := by omega
    simp [this]
  · rw [if_neg h1]
    have h1' : 0 ≤ e.rtt_us := by omega
    by_cases h2 : sk.ca.epoch_start ≠ 0 ∧ s32 (sub32 e.jiffies sk.ca.epoch_start) < (K.HZ : Int)
    · rw [if_pos h2]
      simp [h2.1, h2.2]
    · rw [if_neg h2]
      have hacc : (decide (0 ≤ e.rtt_us) &&
          !(decide (sk.ca.epoch_start ≠ 0) &&
            decide (s32 (sub32 e.jiffies sk.ca.epoch_start) < (K.HZ : Int)))) = true := by
        simp only [Bool.and_eq_true, decide_eq_true_eq, Bool.not_eq_true', Bool.and_eq_false_imp]
        refine ⟨h1', ?_⟩
        intro h3
        simp only [decide_eq_false_iff_not]
        exact fun h4 => h2 ⟨h3, h4⟩
      rw [if_pos hacc]
      have hd : (if u32 e.rtt_us = 0 then 1 else u32 e.rtt_us) = sample_delay e := by
        unfold sample_delay u32
        split_ifs <;> omega
      dsimp only
      rw [hd]
      unfold delay_min_step
      split_ifs <;> simp only [hystart_update_keeps, and_self]

theorem accepted_delays_pos (K : Kernel) (p : Params) (es : List RttEvent) :
    ∀ sk : sock, ∀ x ∈ accepted_delays K p sk es, 1 ≤ x := by
  induction es with
  | nil => intro sk x hx; simp [accepted_delays] at hx
  | cons e es ih =>
    intro sk x hx
    rw [accepted_delays, List.mem_append] at hx
    rcases hx with hx | hx
    · split_ifs at hx
      · rw [List.mem_singleton] at hx
        rw [hx]
        exact Nat.le_max_left _ _
      · simp at hx
    · exact ih _ x hx

theorem acked_run_steps (K : Kernel) (p : Params) (es : List RttEvent) :
    ∀ sk : sock, (∀ e ∈ es, ∀ s : sock, (e.env s).ca.delay_min = s.ca.delay_min) →
      (∀ e ∈ es, e.rtt_us < 2147483648) →
      (acked_run K p sk es).ca.delay_min =
        (accepted_delays K p sk es).foldl delay_min_step sk.ca.delay_min := by
  induction es with
  | nil => intro sk _ _; rfl
  | cons e es ih =>
    intro sk henv hr
    have he := henv e (List.mem_cons_self _ _) sk
    obtain ⟨_, s2⟩ := acked_step K p (e.env sk) e (hr e (List.mem_cons_self _ _))
    rw [he] at s2
    rw [acked_run, accepted_delays, ih _ (fun e' h' => henv e' (List.mem_cons_of_mem _ h'))
      (fun e' h' => hr e' (List.mem_cons_of_mem _ h')), s2, List.foldl_append]
    by_cases hacc : sample_accepted K (e.env sk).ca.epoch_start e = true
    · rw [if_pos hacc, if_pos hacc]
      rfl
    · rw [if_neg hacc, if_neg hacc]
      rfl

theorem accepted_delays_fixed (K : Kernel) (p : Params) (es : List RttEvent) :
    ∀ sk : sock, (∀ e ∈ es, ∀ s : sock, (e.env s).ca.epoch_start = s.ca.epoch_start) →
      (∀ e ∈ es, e.rtt_us < 2147483648) →
      accepted_delays K p sk es =
        (es.filter (sample_accepted K sk.ca.epoch_start)).map sample_delay := by
  induction es with
  | nil => intro sk _ _; rfl
  | cons e es ih =>
    intro sk henv hr
    have he := henv e (List.mem_cons_self _ _) sk
    obtain ⟨s1, _⟩ := acked_step K p (e.env sk) e (hr e (List.mem_cons_self _ _))
    rw [he] at s1
    rw [accepted_delays, ih _ (fun e' h' => henv e' (List.mem_cons_of_mem _ h'))
      (fun e' h' => hr e' (List.mem_cons_of_mem _ h')), s1, he]
    by_cases hacc : sample_accepted K sk.ca.epoch_start e = true
    · rw [if_pos hacc, List.filter_cons_of_pos hacc, List.map_cons]
      rfl
    · rw [if_neg hacc, List.filter_cons_of_neg hacc]
      rfl

theorem delay_min_step_pos (m d : Nat) (hm : 1 ≤ m) :
    delay_min_step m d = min m d := by
  unfold delay_min_step
  split_ifs <;> omega

theorem foldl_step_min (ds : List Nat) :
    ∀ m : Nat, 1 ≤ m → (∀ d ∈ ds, 1 ≤ d) →
      ds.foldl delay_min_step m = samples_min (m :: ds) := by
  induction ds with
  | nil => intro m _ _; rfl
  | cons d ds ih =>
    intro m hm hd
    have hd1 := hd d (List.mem_cons_self _ _)
    rw [List.foldl_cons, delay_min_step_pos m d hm,
      ih (min m d) (by omega) (fun x hx => hd x (List.mem_cons_of_mem _ hx))]
    cases ds with
    | nil => rfl
    | cons d' ds' =>
      show min (min m d) (samples_min (d' :: ds')) = min m (min d (samples_min (d' :: ds')))
      omega

theorem foldl_step_zero (ds : List Nat) (hd : ∀ d ∈ ds, 1 ≤ d) :
    ds.foldl delay_min_step 0 = samples_min ds := by
  cases ds with
  | nil => rfl
  | cons d ds =>
    have e : delay_min_step 0 d = d := by unfold delay_min_step; simp
    rw [List.foldl_cons, e, foldl_step_min ds d (hd d (List.mem_cons_self _ _))
      (fun x hx => hd x (List.mem_cons_of_mem _ hx))]

/-- C6 (as stated, refuted): after a reset, a single sample of 0 microseconds leaves
`delay_min = 1`, not the minimum 0 of the samples; and a sample of 5000 microseconds
delivered 500 jiffies after the start of an epoch (`HZ = 1000`) is discarded, so that
`delay_min` stays 0. -/
theorem delay_min_not_min_of_all :
    (acked_run Kernel.sample Params.default
      { sock.zero with ca := bictcp_reset bictcp.zero } [⟨0, 1000, id⟩]).ca.delay_min = 1 ∧
    samples_min [0] = 0 ∧
    (acked_run Kernel.sample Params.default
      { sock.zero with ca := { bictcp_reset bictcp.zero with epoch_start := 1000 } }
      [⟨5000, 1500, id⟩]).ca.delay_min = 0 ∧
    samples_min [5000] = 5000 := by
  decide

/-! ## Speed-up rule from round 3 on -/

theorem shl32_sub (x n c : Nat) (hc : c ≤ n) (h : n - c < 32) :
    shl32 x ((n : Int) - (c : Int)) = some ((x <<< (n - c)) % 4294967296) := by
  unfold shl32
  have e : ((n : Int) - (c : Int)).toNat = n - c := by omega
  rw [if_pos (by omega), e]

theorem suss_speedup_eq (p : Params) (sk : sock) (delta : Nat)
    (h3 : 3 ≤ sk.ca.suss_round_no) (h32 : sk.ca.suss_round_no < 32)
    (hdv : (((sk.ca.suss_perv_delta_t_bat <<< (sk.ca.suss_round_no - 3)) % 4294967296) <<< 1)
      % 4294967296 ≠ 0) :
    suss_speedup p sk delta =
      some
        (if (((((delta <<< (sk.ca.suss_round_no - 2)) % 4294967296) <<< 10) /
                ((((sk.ca.suss_perv_delta_t_bat <<< (sk.ca.suss_round_no - 3)) % 4294967296)
                  <<< 1) % 4294967296) *
              ((delta <<< (sk.ca.suss_round_no - 2)) % 4294967296)) % 18446744073709551616)
              >>> 9 ≤ sk.ca.delay_min ∧
            (sk.ca.suss_round_no : Int) < p.suss_max + 2 ∧
            ¬ (((u32 ((sk.ca.suss_round_no : Int) - (sk.ca.suss_r_minupdate : Int)) + 1)
                % 4294967296) * sk.ca.curr_rtt >
              (sk.ca.delay_min *
                ((u32 ((sk.ca.suss_round_no : Int) - (sk.ca.suss_r_minupdate : Int)) + 1)
                  % 4294967296)) % 4294967296 +
              (((sk.ca.delay_min *
                u32 ((sk.ca.suss_round_no : Int) - (sk.ca.suss_r_minupdate : Int)))
                  % 4294967296) >>> 3))
          then 1 else 0, sk) := by
  unfold suss_speedup
  rw [if_neg (by omega)]
  have e2 := shl32_sub delta sk.ca.suss_round_no 2 (by omega) (by omega)
  have e3 := shl32_sub sk.ca.suss_perv_delta_t_bat sk.ca.suss_round_no 3 (by omega) (by omega)
  simp only [Nat.cast_ofNat] at e2 e3
  rw [e2, Option.some_bind, e3, Option.some_bind]
  unfold div64
  rw [if_neg hdv, Option.some_bind]
  simp only [SUSS_SCALE]
  congr 1
  split_ifs <;> simp_all
theorem speedup_exact_aux (p : Params) (sk : sock) (delta : Nat)
    (h3 : 3 ≤ sk.ca.suss_round_no) (h32 : sk.ca.suss_round_no < 32)
    (hd : delta <<< (sk.ca.suss_round_no - 2) < 4294967296)
    (hp : sk.ca.suss_perv_delta_t_bat <<< (sk.ca.suss_round_no - 2) < 4294967296)
    (hp0 : sk.ca.suss_perv_delta_t_bat ≠ 0)
    (hm : ((delta <<< (sk.ca.suss_round_no - 2)) <<< 10) /
        (2 * (sk.ca.suss_perv_delta_t_bat <<< (sk.ca.suss_round_no - 3))) *
        (delta <<< (sk.ca.suss_round_no - 2)) < 18446744073709551616)
    (hr : sk.ca.suss_r_minupdate ≤ sk.ca.suss_round_no)
    (hk : sk.ca.delay_min * (sk.ca.suss_round_no - sk.ca.suss_r_minupdate + 1) < 4294967296) :
    suss_speedup p sk delta =
      some (if speedup_rule p.suss_max sk.ca.suss_round_no delta sk.ca.suss_perv_delta_t_bat
          sk.ca.delay_min sk.ca.curr_rtt sk.ca.suss_r_minupdate = true then 1 else 0, sk) := by
  have hB2 : (sk.ca.suss_perv_delta_t_bat <<< (sk.ca.suss_round_no - 3)) <<< 1 =
      sk.ca.suss_perv_delta_t_bat <<< (sk.ca.suss_round_no - 2) := by
    rw [← Nat.shiftLeft_add]
    congr 1
    omega
  have hB0 : sk.ca.suss_perv_delta_t_bat <<< (sk.ca.suss_round_no - 3) ≠ 0 := by
    rw [Nat.shiftLeft_eq]
    exact Nat.mul_ne_zero hp0 (Nat.pos_iff_ne_zero.mp (Nat.pow_pos (by norm_num)))
  have hk' : u32 ((sk.ca.suss_round_no : Int) - (sk.ca.suss_r_minupdate : Int)) =
      sk.ca.suss_round_no - sk.ca.suss_r_minupdate := by
    unfold u32; omega
  unfold speedup_rule
  generalize hA : delta <<< (sk.ca.suss_round_no - 2) = A at *
  generalize hB : sk.ca.suss_perv_delta_t_bat <<< (sk.ca.suss_round_no - 3) = B at *
  have hB1 : B <<< 1 = 2 * B := by rw [Nat.shiftLeft_eq]; omega
  have hBlt : 2 * B < 4294967296 := by rw [← hB1, hB2]; exact hp
  have hdv : ((B % 4294967296) <<< 1) % 4294967296 = 2 * B := by
    rw [Nat.mod_eq_of_lt (by omega : B < 4294967296), hB1, Nat.mod_eq_of_lt hBlt]
  rw [suss_speedup_eq p sk delta h3 h32 (by rw [hB, hdv]; omega)]
  rw [hA, hB, hdv, Nat.mod_eq_of_lt hd, Nat.mod_eq_of_lt hm, hk']
  have hkb : sk.ca.suss_round_no - sk.ca.suss_r_minupdate < 32 := by omega
  generalize sk.ca.suss_round_no - sk.ca.suss_r_minupdate = k at *
  have hk1 : (k + 1) % 4294967296 = k + 1 := Nat.mod_eq_of_lt (by omega)
  have hk2 : sk.ca.delay_min * k < 4294967296 :=
    lt_of_le_of_lt (Nat.mul_le_mul_left _ (by omega)) hk
  rw [hk1, Nat.mod_eq_of_lt hk, Nat.mod_eq_of_lt hk2]
  have e8 : ∀ x : Nat, x >>> 3 = x / 8 := fun x => by rw [Nat.shiftRight_eq_div_pow]
  rw [e8]
  simp only [Bool.and_eq_true, decide_eq_true_eq, not_lt, and_assoc]
/-- C9 (as stated, refuted). First: in round 31 with `suss_max = 30`, a previous delta
of 8 and a measured delta of 0, the three conditions hold in exact arithmetic, but
`8 << 28` doubled is 0 in 32 bits and the division traps. Second: in round 3 with the
default parameters, a measured delta of `2 ^ 30` and a previous delta of 1, the 64-bit
product `mu * d = 2 ^ 71` wraps to 0, so the code returns 1 although the exact projected
value `2 ^ 62` exceeds `delay_min = 20000`. -/
theorem suss_speedup_rule_wraps :
    (suss_speedup { Params.default with suss_max := 30 } (sock.inRound 31 20000 8) 0 = none ∧
      speedup_rule 30 31 0 8 20000 20000 31 = true) ∧
    (suss_speedup Params.default (sock.inRound 3 20000 1) 1073741824 =
        some (1, sock.inRound 3 20000 1) ∧
      speedup_rule 3 3 1073741824 1 20000 20000 3 = false) := by
  decide

/-- C9 (amended): for a round number `n` with `3 <= n <= 31`: whenever the divisor
`2 * p` is non-zero as a 32-bit value, `suss_speedup` returns 0 or 1, returns 0 at every
round `n >= suss_max + 2`, and leaves the socket (the ASE phase included) unchanged; and
when no intermediate value wraps (`delta << (n - 2)` and `prev << (n - 2)` below `2 ^ 32`
with `prev` non-zero, `mu * d` below `2 ^ 64`, `suss_r_minupdate <= n` and
`delay_min * (k + 1)` below `2 ^ 32`) it returns 1 exactly when the three conditions of
`speedup_rule` hold, and 0 otherwise. -/
theorem suss_speedup_rule (p : Params) (sk : sock) (delta : Nat)
    (h3 : 3 ≤ sk.ca.suss_round_no) (h32 : sk.ca.suss_round_no < 32) :
    ((((sk.ca.suss_perv_delta_t_bat <<< (sk.ca.suss_round_no - 3)) % 4294967296) <<< 1)
        % 4294967296 ≠ 0 →
      ∃ v, suss_speedup p sk delta = some (v, sk) ∧ (v = 0 ∨ v = 1) ∧
        (p.suss_max + 2 ≤ (sk.ca.suss_round_no : Int) → v = 0)) ∧
    (delta <<< (sk.ca.suss_round_no - 2) < 4294967296 →
      sk.ca.suss_perv_delta_t_bat <<< (sk.ca.suss_round_no - 2) < 4294967296 →
      sk.ca.suss_perv_delta_t_bat ≠ 0 →
      ((delta <<< (sk.ca.suss_round_no - 2)) <<< 10) /
          (2 * (sk.ca.suss_perv_delta_t_bat <<< (sk.ca.suss_round_no - 3))) *
          (delta <<< (sk.ca.suss_round_no - 2)) < 18446744073709551616 →
      sk.ca.suss_r_minupdate ≤ sk.ca.suss_round_no →
      sk.ca.delay_min * (sk.ca.suss_round_no - sk.ca.suss_r_minupdate + 1) < 4294967296 →
      suss_speedup p sk delta =
        some (if speedup_rule p.suss_max sk.ca.suss_round_no delta sk.ca.suss_perv_delta_t_bat
            sk.ca.delay_min sk.ca.curr_rtt sk.ca.suss_r_minupdate = true then 1 else 0, sk)) := by
  refine ⟨fun hdv => ?_, speedup_exact_aux p sk delta h3 h32⟩
  rw [suss_speedup_eq p sk delta h3 h32 hdv]
  refine ⟨_, rfl, ?_, ?_⟩
  · split_ifs
    · right; rfl
    · left; rfl
  · intro hmax
    rw [if_neg]
    intro hc
    omega

theorem suss_speedup_rule_witness :
    3 ≤ (sock.inRound 3 20000 1000).ca.suss_round_no ∧
    (sock.inRound 3 20000 1000).ca.suss_round_no < 32 ∧
    suss_speedup Params.default (sock.inRound 3 20000 1000) 1000 =
      some (1, sock.inRound 3 20000 1000) ∧
    suss_speedup Params.default (sock.inRound 3 20000 1000) 5000 =
      some (0, sock.inRound 3 20000 1000) :=
  ⟨by decide, by decide,
    ((suss_speedup_rule Params.default (sock.inRound 3 20000 1000) 1000
      (by decide) (by decide)).2 (by decide) (by decide) (by decide) (by decide) (by decide)
      (by decide)).trans (by decide),
    ((suss_speedup_rule Params.default (sock.inRound 3 20000 1000) 5000
      (by decide) (by decide)).2 (by decide) (by decide) (by decide) (by decide) (by decide)
      (by decide)).trans (by decide)⟩

/-! ## Divisions of the extension -/

/-- C10 (the code traps): on a connection with the extension on, when the first ACK
after `cubictcp_init` acknowledges the whole initial window (`ack = 11000` passes both
the head 1000 and the tail 10999 of the lead train), `suss_measurements` has just reset
`suss_blue_cnt` to 0, the train-delta divisor `2 * suss_blue_cnt` is 0 and the division
traps: `cubictcp_cong_avoid` does not return. -/
theorem suss_train_divisor_zero :
    sock.firstAck.tp.suss_state = 1 ∧ sock.firstAck.ca.suss_flag = 0 ∧
    sock.firstAck.ca.suss_head_seq = 1000 ∧ sock.firstAck.ca.suss_tail_seq = 10999 ∧
    suss_measurements Params.sussOn sock.firstAck 11000 10 = none ∧
    cubictcp_cong_avoid Kernel.sample Params.sussOn Scales.default 50 sock.firstAck 11000 10 =
      none ∧
    suss_measurements Params.sussOn sock.firstAck 3000 2 ≠ none := by
  decide

/-! ## Cube root: accuracy -/

theorem cube_chord_int (P Q α β lo hi a : ℤ) (hP : 0 ≤ P) (hα : 0 ≤ α) (hβ : 0 ≤ β)
    (h0 : 0 ≤ lo) (hlo : lo ≤ a) (hhi : a ≤ hi)
    (h1 : P * (α + β * lo) ^ 3 ≤ Q * lo) (h2 : P * (α + β * hi) ^ 3 ≤ Q * hi) :
    P * (α + β * a) ^ 3 ≤ Q * a := by
  rcases eq_or_lt_of_le (le_trans hlo hhi) with hEq | hLt
  · have : a = lo := le_antisymm (by rw [hEq]; exact hhi) hlo
    rw [this]; exact h1
  · set l := hi - a with hl
    set m := a - lo with hm
    set u := α + β * lo with hu
    set w := α + β * hi with hw
    have hl0 : 0 ≤ l := by omega
    have hm0 : 0 ≤ m := by omega
    have hn : 0 < l + m := by omega
    have hu0 : 0 ≤ u := add_nonneg hα (mul_nonneg hβ h0)
    have hw0 : 0 ≤ w := add_nonneg hα (mul_nonneg hβ (by omega))
    have e1 : (l + m) * (α + β * a) = l * u + m * w := by
      rw [hl, hm, hu, hw]; ring
    have e2 : (l + m) * a = l * lo + m * hi := by
      rw [hl, hm]; ring
    have conv : (l * u + m * w) ^ 3 ≤ (l + m) ^ 2 * (l * u ^ 3 + m * w ^ 3) := by
      have id1 : (l + m) ^ 2 * (l * u ^ 3 + m * w ^ 3) - (l * u + m * w) ^ 3 =
          l * m * (u - w) ^ 2 * ((2 * l + m) * u + (l + 2 * m) * w) := by ring
      have : 0 ≤ l * m * (u - w) ^ 2 * ((2 * l + m) * u + (l + 2 * m) * w) := by positivity
      linarith
    have key : (l + m) ^ 3 * (P * (α + β * a) ^ 3) ≤ (l + m) ^ 3 * (Q * a) := by
      calc (l + m) ^ 3 * (P * (α + β * a) ^ 3)
          = P * ((l + m) * (α + β * a)) ^ 3 := by ring
        _ = P * (l * u + m * w) ^ 3 := by rw [e1]
        _ ≤ P * ((l + m) ^ 2 * (l * u ^ 3 + m * w ^ 3)) := mul_le_mul_of_nonneg_left conv hP
        _ = (l + m) ^ 2 * (l * (P * u ^ 3) + m * (P * w ^ 3)) := by ring
        _ ≤ (l + m) ^ 2 * (l * (Q * lo) + m * (Q * hi)) := by
            apply mul_le_mul_of_nonneg_left _ (by positivity)
            have := mul_le_mul_of_nonneg_left h1 hl0
            have := mul_le_mul_of_nonneg_left h2 hm0
            linarith
        _ = (l + m) ^ 2 * (Q * ((l + m) * a)) := by rw [e2]; ring
        _ = (l + m) ^ 3 * (Q * a) := by ring
    exact le_of_mul_le_mul_left key (by positivity)

theorem cube_chord (P Q α β lo hi a : ℕ) (hlo : lo ≤ a) (hhi : a ≤ hi)
    (h1 : P * (α + β * lo) ^ 3 ≤ Q * lo) (h2 : P * (α + β * hi) ^ 3 ≤ Q * hi) :
    P * (α + β * a) ^ 3 ≤ Q * a := by
  have := cube_chord_int P Q α β lo hi a (by positivity) (by positivity) (by positivity)
    (by positivity) (by exact_mod_cast hlo) (by exact_mod_cast hhi)
    (by exact_mod_cast h1) (by exact_mod_cast h2)
  exact_mod_cast this

theorem am_gm_cube (x D a : ℕ) (hD : D ≤ x * x) : 27 * a * D ^ 3 ≤ (2 * x * D + a) ^ 3 := by
  have h1 : 27 * (x * D) ^ 2 * a ≤ (2 * x * D + a) ^ 3 := by
    have : ((27 * (x * D) ^ 2 * a : ℕ) : ℤ) ≤ (((2 * x * D + a) ^ 3 : ℕ) : ℤ) := by
      push_cast
      nlinarith [mul_nonneg (sq_nonneg ((x : ℤ) * D - a)) (by positivity : (0 : ℤ) ≤ 8 * x * D + a)]
    exact_mod_cast this
  have h2 : 27 * a * D ^ 3 ≤ 27 * (x * D) ^ 2 * a := by
    have : D ^ 3 ≤ (x * D) ^ 2 := by
      calc D ^ 3 = D * D ^ 2 := by ring
        _ ≤ (x * x) * D ^ 2 := Nat.mul_le_mul_right _ hD
        _ = (x * D) ^ 2 := by ring
    calc 27 * a * D ^ 3 ≤ 27 * a * (x * D) ^ 2 := Nat.mul_le_mul_left _ this
      _ = 27 * (x * D) ^ 2 * a := by ring
  exact le_trans h2 h1

theorem newton_sandwich (x a : Nat) (hx : 2 ≤ x) :
    1024 * (x * (x - 1)) * ((2 * x + a / (x * (x - 1))) * 341 / 1024) ≤
      682 * x * (x * (x - 1)) + 341 * a ∧
    682 * x * (x * (x - 1)) + 341 * a <
      (1024 * ((2 * x + a / (x * (x - 1))) * 341 / 1024) + 1364) * (x * (x - 1)) := by
  have hD : 0 < x * (x - 1) := Nat.mul_pos (by omega) (by omega)
  generalize x * (x - 1) = D at *
  have hq1 : a / D * D ≤ a := Nat.div_mul_le_self a D
  have hq2 : a < (a / D + 1) * D := by
    rw [Nat.mul_comm]; exact Nat.lt_mul_div_succ a hD
  generalize a / D = q at *
  have hr1 : (2 * x + q) * 341 / 1024 * 1024 ≤ (2 * x + q) * 341 := Nat.div_mul_le_self _ _
  have hr2 : (2 * x + q) * 341 < ((2 * x + q) * 341 / 1024 + 1) * 1024 := by omega
  generalize (2 * x + q) * 341 / 1024 = r at *
  have m1 : r * 1024 * D ≤ (2 * x + q) * 341 * D := Nat.mul_le_mul_right D hr1
  have m2 : ((2 * x + q) * 341 + 1) * D ≤ (r + 1) * 1024 * D := Nat.mul_le_mul_right D hr2
  have e1 : r * 1024 * D = 1024 * (r * D) := by ring
  have e2 : (2 * x + q) * 341 * D = 682 * (x * D) + 341 * (q * D) := by ring
  have e3 : ((2 * x + q) * 341 + 1) * D = 682 * (x * D) + 341 * (q * D) + D := by ring
  have e4 : (r + 1) * 1024 * D = 1024 * (r * D) + 1024 * D := by ring
  have e5 : (q + 1) * D = q * D + D := by ring
  have e6 : 1024 * D * r = 1024 * (r * D) := by ring
  have e7 : 682 * x * D = 682 * (x * D) := by ring
  have e8 : (1024 * r + 1364) * D = 1024 * (r * D) + 1364 * D := by ring
  rw [e1, e2] at m1
  rw [e3, e4] at m2
  rw [e5] at hq2
  rw [e6, e7, e8]
  generalize r * D = rD at *
  generalize x * D = xD at *
  generalize q * D = qD at *
  constructor <;> omega

theorem rel_from_chord (x a r lo hi : Nat) (hx : 2 ≤ x) (hlo : lo ≤ a) (hhi : a ≤ hi)
    (c1 : 100000 * (682 * x * (x * (x - 1)) + 341 * lo) ^ 3 ≤
      (100492 * (1024 * (x * (x - 1))) ^ 3) * lo)
    (c2 : 100000 * (682 * x * (x * (x - 1)) + 341 * hi) ^ 3 ≤
      (100492 * (1024 * (x * (x - 1))) ^ 3) * hi)
    (hu : 1024 * (x * (x - 1)) * r ≤ 682 * x * (x * (x - 1)) + 341 * a) :
    100000 * r ^ 3 ≤ 100492 * a := by
  have hD : 0 < x * (x - 1) := Nat.mul_pos (by omega) (by omega)
  generalize x * (x - 1) = D at *
  have hc := cube_chord 100000 (100492 * (1024 * D) ^ 3) (682 * x * D) 341 lo hi a hlo hhi c1 c2
  have h3 : (1024 * D * r) ^ 3 ≤ (682 * x * D + 341 * a) ^ 3 := Nat.pow_le_pow_left hu 3
  have key : (1024 * D) ^ 3 * (100000 * r ^ 3) ≤ (1024 * D) ^ 3 * (100492 * a) := by
    calc (1024 * D) ^ 3 * (100000 * r ^ 3) = 100000 * (1024 * D * r) ^ 3 := by ring
      _ ≤ 100000 * (682 * x * D + 341 * a) ^ 3 := Nat.mul_le_mul_left _ h3
      _ ≤ (100492 * (1024 * D) ^ 3) * a := hc
      _ = (1024 * D) ^ 3 * (100492 * a) := by ring
  exact Nat.le_of_mul_le_mul_left key (by positivity)

theorem abs_from_chord (x a r lo hi : Nat) (hx : 4 ≤ x) (hlo : lo ≤ a) (hhi : a ≤ hi)
    (c1 : 1 * ((682000 * x * (x * (x - 1)) - 1536000 * (x * (x - 1))) + 341000 * lo) ^ 3 ≤
      (1002 ^ 3 * (1024 * (x * (x - 1))) ^ 3) * lo)
    (c2 : 1 * ((682000 * x * (x * (x - 1)) - 1536000 * (x * (x - 1))) + 341000 * hi) ^ 3 ≤
      (1002 ^ 3 * (1024 * (x * (x - 1))) ^ 3) * hi)
    (hu : 1024 * (x * (x - 1)) * r ≤ 682 * x * (x * (x - 1)) + 341 * a) :
    (1000 * r - 1500) ^ 3 ≤ 1002 ^ 3 * a := by
  have hD : 0 < x * (x - 1) := Nat.mul_pos (by omega) (by omega)
  generalize x * (x - 1) = D at *
  have hc := cube_chord 1 (1002 ^ 3 * (1024 * D) ^ 3) (682000 * x * D - 1536000 * D) 341000
    lo hi a hlo hhi c1 c2
  have hu' : 1024 * D * (1000 * r - 1500) ≤ (682000 * x * D - 1536000 * D) + 341000 * a := by
    have hx4 : 4 * D ≤ x * D := Nat.mul_le_mul_right D hx
    by_cases hr : 1000 * r ≤ 1500
    · have : 1000 * r - 1500 = 0 := by omega
      rw [this]; simp
    · obtain ⟨z, hz⟩ : ∃ z, 1000 * r = z + 1500 := ⟨1000 * r - 1500, by omega⟩
      have e0 : 1000 * r - 1500 = z := by omega
      rw [e0]
      have e1 : 1000 * (1024 * D * r) = 1024 * (D * z) + 1536000 * D := by
        calc 1000 * (1024 * D * r) = 1024 * D * (1000 * r) := by ring
          _ = 1024 * D * (z + 1500) := by rw [hz]
          _ = 1024 * (D * z) + 1536000 * D := by ring
      have e2 : 1024 * D * z = 1024 * (D * z) := by ring
      have e3 : 682000 * x * D = 682000 * (x * D) := by ring
      have e4 : 682 * x * D = 682 * (x * D) := by ring
      rw [e2, e3]
      rw [e4] at hu
      generalize 1024 * D * r = Dr at *
      generalize D * z = Dz at *
      generalize x * D = xD at *
      omega
  have h3 : (1024 * D * (1000 * r - 1500)) ^ 3 ≤
      ((682000 * x * D - 1536000 * D) + 341000 * a) ^ 3 := Nat.pow_le_pow_left hu' 3
  have key : (1024 * D) ^ 3 * (1000 * r - 1500) ^ 3 ≤ (1024 * D) ^ 3 * (1002 ^ 3 * a) := by
    calc (1024 * D) ^ 3 * (1000 * r - 1500) ^ 3 = (1024 * D * (1000 * r - 1500)) ^ 3 := by ring
      _ ≤ ((682000 * x * D - 1536000 * D) + 341000 * a) ^ 3 := h3
      _ = 1 * ((682000 * x * D - 1536000 * D) + 341000 * a) ^ 3 := by ring
      _ ≤ (1002 ^ 3 * (1024 * D) ^ 3) * a := hc
      _ = (1024 * D) ^ 3 * (1002 ^ 3 * a) := by ring
  exact Nat.le_of_mul_le_mul_left key (by positivity)

theorem lower_cube (x a r : Nat) (hx : 2 ≤ x)
    (hl : 682 * x * (x * (x - 1)) + 341 * a < (1024 * r + 1364) * (x * (x - 1))) :
    1023 ^ 3 * a < (1024 * r + 1364) ^ 3 := by
  have hD : 0 < x * (x - 1) := Nat.mul_pos (by omega) (by omega)
  have hDx : x * (x - 1) ≤ x * x := Nat.mul_le_mul_left x (by omega)
  generalize x * (x - 1) = D at *
  have hag := am_gm_cube x D a hDx
  have h3 : (682 * x * D + 341 * a) ^ 3 < ((1024 * r + 1364) * D) ^ 3 :=
    Nat.pow_lt_pow_left hl (by norm_num)
  have key : D ^ 3 * (1023 ^ 3 * a) < D ^ 3 * (1024 * r + 1364) ^ 3 := by
    calc D ^ 3 * (1023 ^ 3 * a) = 341 ^ 3 * (27 * a * D ^ 3) := by ring
      _ ≤ 341 ^ 3 * (2 * x * D + a) ^ 3 := Nat.mul_le_mul_left _ hag
      _ = (682 * x * D + 341 * a) ^ 3 := by ring
      _ < ((1024 * r + 1364) * D) ^ 3 := h3
      _ = D ^ 3 * (1024 * r + 1364) ^ 3 := by ring
  exact Nat.lt_of_mul_lt_mul_left key

theorem lower_abs (a r : Nat) (h : 1023 ^ 3 * a < (1024 * r + 1364) ^ 3) :
    998 ^ 3 * a ≤ (1000 * r + 1500) ^ 3 := by
  have h1 : 1000 * (1024 * r + 1364) ≤ 1024 * (1000 * r + 1500) := by omega
  have h2 : (1000 * (1024 * r + 1364)) ^ 3 ≤ (1024 * (1000 * r + 1500)) ^ 3 :=
    Nat.pow_le_pow_left h1 3
  have e1 : (1000 * (1024 * r + 1364)) ^ 3 = 1000000000 * (1024 * r + 1364) ^ 3 := by ring
  have e2 : (1024 * (1000 * r + 1500)) ^ 3 = 1073741824 * (1000 * r + 1500) ^ 3 := by ring
  rw [e1, e2] at h2
  norm_num at h ⊢
  generalize (1024 * r + 1364) ^ 3 = U at *
  generalize (1000 * r + 1500) ^ 3 = W at *
  omega

theorem lower_rel (a r : Nat) (ha : 8589934592 ≤ a)
    (h : 1023 ^ 3 * a < (1024 * r + 1364) ^ 3) : 199 * a < 200 * r ^ 3 := by
  have hr : 2045 ≤ r := by
    by_contra hc
    have h1 : 1024 * r + 1364 ≤ 2094420 := by omega
    have h2 : (1024 * r + 1364) ^ 3 ≤ 2094420 ^ 3 := Nat.pow_le_pow_left h1 3
    norm_num at h h2
    omega
  have h1 : 1000 * (1024 * r + 1364) ≤ 1024667 * r := by omega
  have h2 : (1000 * (1024 * r + 1364)) ^ 3 ≤ (1024667 * r) ^ 3 := Nat.pow_le_pow_left h1 3
  have e1 : (1000 * (1024 * r + 1364)) ^ 3 = 1000000000 * (1024 * r + 1364) ^ 3 := by ring
  have e2 : (1024667 * r) ^ 3 = 1024667 ^ 3 * r ^ 3 := by ring
  rw [e1, e2] at h2
  norm_num at h h2
  generalize (1024 * r + 1364) ^ 3 = U at *
  generalize r ^ 3 = R at *
  omega

set_option maxRecDepth 100000 in
theorem all_buckets_upper :
    ∀ b < 21, ∀ s < 64, 1 ≤ b → 8 ≤ s → bucket_upper b s = true := by
  decide

set_option maxRecDepth 100000 in
theorem all_buckets_upper_rel :
    ∀ b < 21, ∀ s < 64, 10 ≤ b → 8 ≤ s → bucket_upper_rel b s = true := by
  decide

set_option maxRecDepth 100000 in
theorem cubic_root_small_bounds : ∀ a < 64,
    (1000 * ((v.getD a 0 + 35) / 64) - 1500) ^ 3 ≤ 1002 ^ 3 * a ∧
    998 ^ 3 * a ≤ (1000 * ((v.getD a 0 + 35) / 64) + 1500) ^ 3 := by
  decide

theorem cubic_root_b_large (a : Nat) (h : 8589934592 ≤ a) (h64 : a < 18446744073709551616) :
    10 ≤ cubic_root_b a := by
  obtain ⟨_, _, _, hs2, _, hhi⟩ := cubic_root_bucket a (by omega) h64
  by_contra hc
  have hb : 3 * cubic_root_b a ≤ 27 := by omega
  have hp : 2 ^ (3 * cubic_root_b a) ≤ 2 ^ 27 := Nat.pow_le_pow_right (by norm_num) hb
  have hm : (cubic_root_shift a + 1) * 2 ^ (3 * cubic_root_b a) ≤ 64 * 2 ^ 27 :=
    Nat.mul_le_mul (by omega) hp
  norm_num at hm
  generalize (cubic_root_shift a + 1) * 2 ^ (3 * cubic_root_b a) = M at *
  clear hp hb hc
  omega

/-- Accuracy of `cubic_root` stated on integer cubes. -/
theorem cubic_root_accuracy_cubes (a : Nat) (h64 : a < 18446744073709551616) :
    ∃ r, cubic_root a = some r ∧ cbrt_near r a ∧
      (8589934592 ≤ a → cbrt_rel_ok r a ∧ cube_err_ok r a) := by
  unfold cbrt_near cbrt_rel_ok cube_err_ok
  by_cases hsm : a < 64
  · refine ⟨_, cubic_root_small a hsm, cubic_root_small_bounds a hsm, fun h => ?_⟩
    omega
  · have h : 64 ≤ a := by omega
    obtain ⟨hb1, hb2, hs1, hs2, hlo, hhi⟩ := cubic_root_bucket a h h64
    have hsafe := all_buckets_safe _ (by omega : cubic_root_b a < 21) _
      (by omega : cubic_root_shift a < 64) hb1 hs1
    have hup := all_buckets_upper _ (by omega : cubic_root_b a < 21) _
      (by omega : cubic_root_shift a < 64) hb1 hs1
    obtain ⟨h4, _, _, _, e⟩ := cubic_root_newton_eq _ _ a hsafe hhi
    have hval := (cubic_root_eq a h h64).trans e
    unfold bucket_upper at hup
    simp only [Bool.and_eq_true, decide_eq_true_eq] at hup
    obtain ⟨sw1, sw2⟩ := newton_sandwich
      (cubic_root_x0 (cubic_root_b a) (v.getD (cubic_root_shift a) 0)) a (by omega)
    have hlow := lower_cube _ a _ (by omega) sw2
    refine ⟨_, hval, ⟨abs_from_chord _ a _ _ _ h4 hlo (le_of_lt hhi) hup.1 hup.2 sw1,
      lower_abs a _ hlow⟩, fun hbig => ?_⟩
    have hb10 := cubic_root_b_large a hbig h64
    have hur := all_buckets_upper_rel _ (by omega : cubic_root_b a < 21) _
      (by omega : cubic_root_shift a < 64) hb10 hs1
    unfold bucket_upper_rel at hur
    simp only [Bool.and_eq_true, decide_eq_true_eq] at hur
    have hrel := rel_from_chord _ a _ _ _ (by omega) hlo (le_of_lt hhi) hur.1 hur.2 sw1
    have hlr := lower_rel a _ hbig hlow
    generalize (2 * cubic_root_x0 (cubic_root_b a) (v.getD (cubic_root_shift a) 0) +
      a / (cubic_root_x0 (cubic_root_b a) (v.getD (cubic_root_shift a) 0) *
        (cubic_root_x0 (cubic_root_b a) (v.getD (cubic_root_shift a) 0) - 1))) * 341 / 1024 = r
      at hrel hlr ⊢
    have e3 : (1000 * r) ^ 3 = 1000000000 * r ^ 3 := by ring
    rw [e3]
    norm_num
    generalize r ^ 3 = R at *
    clear hlow sw1 sw2 hup hur hval e hlo hhi hsafe
    refine ⟨⟨?_, ?_⟩, ?_, ?_⟩ <;> omega

theorem cbrt_cube (a : ℕ) : ((a : ℝ) ^ ((1 : ℝ) / 3)) ^ 3 = (a : ℝ) := by
  have h0 : (0 : ℝ) ≤ (a : ℝ) := Nat.cast_nonneg a
  rw [← Real.rpow_natCast, ← Real.rpow_mul h0]
  norm_num

theorem cbrt_nonneg (a : ℕ) : (0 : ℝ) ≤ (a : ℝ) ^ ((1 : ℝ) / 3) :=
  Real.rpow_nonneg (Nat.cast_nonneg a) _

theorem le_of_cube_le (x y : ℝ) (hy : 0 ≤ y) (h : x ^ 3 ≤ y ^ 3) : x ≤ y := by
  by_contra hc
  push_neg at hc
  have := pow_lt_pow_left₀ hc hy (by norm_num : (3 : ℕ) ≠ 0)
  linarith

theorem cbrt_near_real (r a : ℕ) (h : cbrt_near r a) :
    |(r : ℝ) - (a : ℝ) ^ ((1 : ℝ) / 3)| ≤ 0.002 * (a : ℝ) ^ ((1 : ℝ) / 3) + 1.5 := by
  obtain ⟨h1, h2⟩ := h
  have hc3 := cbrt_cube a
  have hc0 := cbrt_nonneg a
  generalize (a : ℝ) ^ ((1 : ℝ) / 3) = c at *
  have u : (1000 : ℝ) * r - 1500 ≤ 1002 * c := by
    by_cases hr : 1500 ≤ 1000 * r
    · apply le_of_cube_le _ _ (by positivity)
      have h1' : (((1000 * r - 1500) ^ 3 : ℕ) : ℝ) ≤ ((1002 ^ 3 * a : ℕ) : ℝ) := by
        exact_mod_cast h1
      rw [Nat.cast_pow, Nat.cast_sub hr] at h1'
      push_cast at h1'
      calc ((1000 : ℝ) * r - 1500) ^ 3 ≤ 1006012008 * (a : ℝ) := h1'
        _ = (1002 * c) ^ 3 := by rw [mul_pow, hc3]; norm_num
    · have : ((1000 * r : ℕ) : ℝ) < ((1500 : ℕ) : ℝ) := by exact_mod_cast (by omega : 1000 * r < 1500)
      push_cast at this
      nlinarith
  have l : (998 : ℝ) * c ≤ 1000 * r + 1500 := by
    apply le_of_cube_le _ _ (by positivity)
    have h2' : ((998 ^ 3 * a : ℕ) : ℝ) ≤ (((1000 * r + 1500) ^ 3 : ℕ) : ℝ) := by
      exact_mod_cast h2
    push_cast at h2'
    calc ((998 : ℝ) * c) ^ 3 = 994011992 * (a : ℝ) := by rw [mul_pow, hc3]; norm_num
      _ ≤ (1000 * (r : ℝ) + 1500) ^ 3 := h2'
  rw [abs_le]
  constructor <;> linarith

theorem cbrt_rel_real (r a : ℕ) (h : cbrt_rel_ok r a) :
    |(r : ℝ) - (a : ℝ) ^ ((1 : ℝ) / 3)| ≤ 0.002 * (a : ℝ) ^ ((1 : ℝ) / 3) := by
  obtain ⟨h1, h2⟩ := h
  have hc3 := cbrt_cube a
  have hc0 := cbrt_nonneg a
  generalize (a : ℝ) ^ ((1 : ℝ) / 3) = c at *
  have u : (1000 : ℝ) * r ≤ 1002 * c := by
    apply le_of_cube_le _ _ (by positivity)
    have h' : (((1000 * r) ^ 3 : ℕ) : ℝ) ≤ ((1002 ^ 3 * a : ℕ) : ℝ) := by exact_mod_cast h2
    push_cast at h'
    calc ((1000 : ℝ) * r) ^ 3 ≤ 1006012008 * (a : ℝ) := h'
      _ = (1002 * c) ^ 3 := by rw [mul_pow, hc3]; norm_num
  have l : (998 : ℝ) * c ≤ 1000 * r := by
    apply le_of_cube_le _ _ (by positivity)
    have h' : ((998 ^ 3 * a : ℕ) : ℝ) ≤ (((1000 * r) ^ 3 : ℕ) : ℝ) := by exact_mod_cast h1
    push_cast at h'
    calc ((998 : ℝ) * c) ^ 3 = 994011992 * (a : ℝ) := by rw [mul_pow, hc3]; norm_num
      _ ≤ (1000 * (r : ℝ)) ^ 3 := h'
  rw [abs_le]
  constructor <;> linarith

theorem cube_err_real (r a : ℕ) (h : cube_err_ok r a) :
    |(r : ℝ) ^ 3 - (a : ℝ)| < 0.005 * (a : ℝ) := by
  obtain ⟨h1, h2⟩ := h
  rw [abs_lt]
  by_cases hr : a ≤ r ^ 3
  · have h1' : 200 * r ^ 3 < 201 * a := by omega
    have h1r : ((200 * r ^ 3 : ℕ) : ℝ) < ((201 * a : ℕ) : ℝ) := by exact_mod_cast h1'
    have hrr : ((a : ℕ) : ℝ) ≤ ((r ^ 3 : ℕ) : ℝ) := by exact_mod_cast hr
    push_cast at h1r hrr
    constructor <;> linarith
  · have h2' : 199 * a < 200 * r ^ 3 := by omega
    have h2r : ((199 * a : ℕ) : ℝ) < ((200 * r ^ 3 : ℕ) : ℝ) := by exact_mod_cast h2'
    have hrr : ((r ^ 3 : ℕ) : ℝ) < ((a : ℕ) : ℝ) := by exact_mod_cast (by omega : r ^ 3 < a)
    push_cast at h2r hrr
    constructor <;> linarith
/-- C4 (as stated, refuted): `cubic_root 42 = 4`, while the real cube root of 42 is
nearer to 3 than to 4; the relative error of 4 exceeds 0.2% and `|4 ^ 3 - 42| = 22` is
not below 0.5% of 42. -/
theorem cubic_root_not_nearest :
    cubic_root 42 = some 4 ∧
    |(3 : ℝ) - (42 : ℝ) ^ ((1 : ℝ) / 3)| < |(4 : ℝ) - (42 : ℝ) ^ ((1 : ℝ) / 3)| ∧
    ¬ (|(4 : ℝ) - (42 : ℝ) ^ ((1 : ℝ) / 3)| ≤ 0.002 * (42 : ℝ) ^ ((1 : ℝ) / 3)) ∧
    ¬ (|(4 : ℝ) ^ 3 - 42| < 0.005 * 42) := by
  have hc3 : ((42 : ℝ) ^ ((1 : ℝ) / 3)) ^ 3 = 42 := by
    have := cbrt_cube 42
    push_cast at this
    exact this
  have hc0 : (0 : ℝ) ≤ (42 : ℝ) ^ ((1 : ℝ) / 3) := by
    have := cbrt_nonneg 42
    push_cast at this
    exact this
  generalize (42 : ℝ) ^ ((1 : ℝ) / 3) = c at *
  have hlt : c < 3.5 := by
    by_contra hh
    push_neg at hh
    have : (3.5 : ℝ) ^ 3 ≤ c ^ 3 := pow_le_pow_left₀ (by norm_num) hh 3
    norm_num at this
    linarith
  have hgt : 3 < c := by
    by_contra hh
    push_neg at hh
    have : c ^ 3 ≤ (3 : ℝ) ^ 3 := pow_le_pow_left₀ hc0 hh 3
    norm_num at this
    linarith
  refine ⟨by decide, ?_, ?_, ?_⟩
  · rw [abs_of_nonpos (by linarith), abs_of_nonneg (by linarith)]
    linarith
  · rw [abs_of_nonneg (by linarith)]
    intro h
    linarith
  · norm_num [abs_of_nonneg]

/-- C4 (amended): for every 64-bit input `a`, `cubic_root` returns a value `r` within
0.2% of the real cube root of `a` up to an absolute error of 1.5, that is
`|r - cbrt(a)| <= 0.002 * cbrt(a) + 1.5`; for `a >= 2 ^ 33` the relative error is at most
0.2% and `|r ^ 3 - a|` is below 0.5% of `a`. -/
theorem cubic_root_accuracy (a : Nat) (h64 : a < 18446744073709551616) :
    ∃ r : Nat, cubic_root a = some r ∧
      |(r : ℝ) - (a : ℝ) ^ ((1 : ℝ) / 3)| ≤ 0.002 * (a : ℝ) ^ ((1 : ℝ) / 3) + 1.5 ∧
      (8589934592 ≤ a →
        |(r : ℝ) - (a : ℝ) ^ ((1 : ℝ) / 3)| ≤ 0.002 * (a : ℝ) ^ ((1 : ℝ) / 3) ∧
        |(r : ℝ) ^ 3 - (a : ℝ)| < 0.005 * (a : ℝ)) := by
  obtain ⟨r, hr, hnear, hbig⟩ := cubic_root_accuracy_cubes a h64
  exact ⟨r, hr, cbrt_near_real r a hnear,
    fun h => ⟨cbrt_rel_real r a (hbig h).1, cube_err_real r a (hbig h).2⟩⟩

theorem cubic_root_accuracy_witness :
    (10000000000 : Nat) < 18446744073709551616 ∧ (8589934592 : Nat) ≤ 10000000000 ∧
    ∃ r : Nat, cubic_root 10000000000 = some r ∧
      |(r : ℝ) - ((10000000000 : Nat) : ℝ) ^ ((1 : ℝ) / 3)| ≤
        0.002 * ((10000000000 : Nat) : ℝ) ^ ((1 : ℝ) / 3) ∧
      |(r : ℝ) ^ 3 - ((10000000000 : Nat) : ℝ)| < 0.005 * ((10000000000 : Nat) : ℝ) := by
  obtain ⟨r, h1, _, h3⟩ := cubic_root_accuracy 10000000000 (by decide)
  exact ⟨by decide, by decide, r, h1, (h3 (by decide)).1, (h3 (by decide)).2⟩

/-! ## The per-ACK functions as compositions of their blocks -/

theorem suss_measurements_tail_eq (p : Params) (sk : sock) (now acked : Nat) :
    suss_measurements_tail p sk now acked =
      (let elapsed := sub32 now sk.ca.suss_round_start_us
       let sk : sock := { sk with ca := { sk.ca with suss_is_blue := 2 } }
       (shl32 TCP_INIT_CWND ((sk.ca.suss_round_no : Int) - 1)).bind fun blue_pkt =>
         let sk : sock := { sk with ca := { sk.ca with
           suss_tail_seq :=
             sub32 ((sk.ca.suss_head_seq + (blue_pkt * sk.tp.mss_cache) % 4294967296)
               % 4294967296) 1 } }
         (div64 ((blue_pkt * elapsed) % 4294967296) (sk.ca.suss_blue_cnt <<< 1)).bind fun q =>
           (suss_tail_speedup p sk (q % 4294967296)).bind fun sk =>
             if sk.ca.suss_gf = 1 then suss_tail_pace sk blue_pkt (q % 4294967296) acked
             else some sk) :=
  rfl

theorem suss_measurements_eq (p : Params) (sk : sock) (ack acked : Nat) :
    suss_measurements p sk ack acked =
      (if ack > (suss_round_head (suss_first_red sk) (bictcp_clock_us sk) ack).ca.suss_tail_seq then
          suss_measurements_tail p (suss_round_head (suss_first_red sk) (bictcp_clock_us sk) ack)
            (bictcp_clock_us sk) acked
        else some (suss_round_head (suss_first_red sk) (bictcp_clock_us sk) ack)).bind
        fun s => suss_count s acked :=
  rfl

theorem cubictcp_cong_avoid_eq (K : Kernel) (p : Params) (d : Scales) (jiffies : Nat)
    (sk : sock) (ack acked : Nat) :
    cubictcp_cong_avoid K p d jiffies sk ack acked =
      (if (suss_clocking sk).tp.suss_state < 3 ∧ (suss_clocking sk).ca.suss_flag = 0 then
          suss_measurements p (suss_clocking sk) ack acked
        else some (suss_clocking sk)).bind fun s =>
        cong_avoid_grow K p d jiffies
          { s with tp := { s.tp with
              snd_wnd := max s.tp.snd_wnd
                (shl32_u8 ((10 * s.tp.mss_cache) % 4294967296) (suss_wnd_exp p s)) } } acked :=
  rfl

/-! ## What the per-ACK functions leave alone -/

theorem suss_speedup_frame (p : Params) (sk : sock) (delta : Nat) (r : Nat × sock)
    (h : suss_speedup p sk delta = some r) :
    r.2 = sk ∨ r.2 = { sk with tp := { sk.tp with suss_state := 10 } } := by
  unfold suss_speedup at h
  dsimp only at h
  by_cases h2 : sk.ca.suss_round_no = 2
  · rw [if_pos h2] at h
    split_ifs at h
    · simp only [Option.some.injEq] at h; rw [← h]; left; rfl
    · simp only [Option.some.injEq] at h; rw [← h]; right; rfl
  · rw [if_neg h2] at h
    rw [Option.bind_eq_some] at h
    obtain ⟨_, _, h⟩ := h
    rw [Option.bind_eq_some] at h
    obtain ⟨_, _, h⟩ := h
    rw [Option.bind_eq_some] at h
    obtain ⟨_, _, h⟩ := h
    simp only [Option.some.injEq] at h
    rw [← h]; left; rfl

theorem suss_speedup_ca (p : Params) (sk : sock) (delta : Nat) (r : Nat × sock)
    (h : suss_speedup p sk delta = some r) : r.2.ca = sk.ca := by
  rcases suss_speedup_frame p sk delta r h with e | e <;> rw [e]

theorem suss_tail_speedup_core (p : Params) (sk sk' : sock) (d : Nat)
    (h : suss_tail_speedup p sk d = some sk') : ca_core sk'.ca = ca_core sk.ca := by
  unfold suss_tail_speedup at h
  split_ifs at h
  · rw [Option.bind_eq_some] at h
    obtain ⟨vs, hv, h⟩ := h
    have e := suss_speedup_ca _ _ _ _ hv
    simp only [Option.some.injEq] at h
    rw [← h, ← e]
    rfl
  · simp only [Option.some.injEq] at h
    rw [h]

theorem suss_tail_pace_core (sk sk' : sock) (bp d acked : Nat)
    (h : suss_tail_pace sk bp d acked = some sk') : ca_core sk'.ca = ca_core sk.ca := by
  unfold suss_tail_pace at h
  dsimp only at h
  rw [Option.bind_eq_some] at h
  obtain ⟨_, _, h⟩ := h
  rw [Option.bind_eq_some] at h
  obtain ⟨_, _, h⟩ := h
  rw [Option.bind_eq_some] at h
  obtain ⟨_, _, h⟩ := h
  rw [Option.bind_eq_some] at h
  obtain ⟨_, _, h⟩ := h
  split_ifs at h <;>
  · simp only [Option.some.injEq] at h
    rw [← h]
    rfl

theorem upd_tail_seq_core (s : sock) (v : Nat) :
    ca_core ({ s with ca := { s.ca with suss_tail_seq := v } } : sock).ca = ca_core s.ca := rfl

theorem upd_is_blue_core (s : sock) (v : Nat) :
    ca_core ({ s with ca := { s.ca with suss_is_blue := v } } : sock).ca = ca_core s.ca := rfl

theorem suss_measurements_tail_core (p : Params) (sk sk' : sock) (now acked : Nat)
    (h : suss_measurements_tail p sk now acked = some sk') :
    ca_core sk'.ca = ca_core sk.ca := by
  rw [suss_measurements_tail_eq] at h
  conv at h => zeta
  rw [Option.bind_eq_some] at h
  obtain ⟨bp, _, h⟩ := h
  rw [Option.bind_eq_some] at h
  obtain ⟨q, _, h⟩ := h
  rw [Option.bind_eq_some] at h
  obtain ⟨s3, h3, h⟩ := h
  have e3 := suss_tail_speedup_core _ _ _ _ h3
  have e4 : ca_core sk'.ca = ca_core s3.ca := by
    split_ifs at h
    · exact suss_tail_pace_core _ _ _ _ _ h
    · simp only [Option.some.injEq] at h
      rw [h]
  exact e4.trans ((e3.trans (upd_tail_seq_core _ _)).trans (upd_is_blue_core _ _))

theorem suss_first_red_core (sk : sock) : ca_core (suss_first_red sk).ca = ca_core sk.ca := by
  unfold suss_first_red
  split_ifs
  · exact upd_is_blue_core _ _
  · rfl

theorem suss_round_head_frame (sk : sock) (now ack : Nat) :
    (suss_round_head sk now ack).ca.found = sk.ca.found ∧
    (suss_round_head sk now ack).ca.suss_flag = sk.ca.suss_flag ∧
    (suss_round_head sk now ack).ca.suss_cap = sk.ca.suss_cap ∧
    ((suss_round_head sk now ack).ca.suss_round_no = sk.ca.suss_round_no ∨
      (suss_round_head sk now ack).ca.suss_round_no = (sk.ca.suss_round_no + 1) % 32) := by
  unfold suss_round_head
  by_cases hc : ack > sk.ca.suss_head_seq
  · rw [if_pos hc]
    exact ⟨rfl, rfl, rfl, Or.inr rfl⟩
  · rw [if_neg hc]
    exact ⟨rfl, rfl, rfl, Or.inl rfl⟩

theorem upd_blue_cnt_core (s : sock) (v : Nat) :
    ca_core ({ s with ca := { s.ca with suss_blue_cnt := v } } : sock).ca = ca_core s.ca := rfl

theorem upd_snd_cwnd_core (s : sock) (v : Nat) :
    ca_core ({ s with tp := { s.tp with snd_cwnd := v } } : sock).ca = ca_core s.ca := rfl

theorem suss_count_core (sk sk' : sock) (acked : Nat) (h : suss_count sk acked = some sk') :
    ca_core sk'.ca = ca_core sk.ca := by
  unfold suss_count at h
  conv at h => zeta
  by_cases hb : sk.ca.suss_is_blue ≠ 0
  · rw [if_pos hb] at h
    split_ifs at h
    · simp only [Option.some.injEq] at h
      subst h
      exact (upd_snd_cwnd_core _ _).trans (upd_blue_cnt_core _ _)
    · simp only [Option.some.injEq] at h
      subst h
      exact upd_blue_cnt_core _ _
  · rw [if_neg hb] at h
    split_ifs at h
    · simp only [Option.some.injEq] at h
      subst h
      exact upd_snd_cwnd_core _ _
    · simp only [Option.some.injEq] at h
      rw [h]

theorem ca_core_fields (a b : bictcp) (h : ca_core a = ca_core b) :
    a.found = b.found ∧ a.suss_flag = b.suss_flag ∧ a.suss_cap = b.suss_cap ∧
      a.suss_round_no = b.suss_round_no := by
  unfold ca_core at h
  simp only [List.cons.injEq, and_true] at h
  exact h.2

theorem ca_core_delay_min (a b : bictcp) (h : ca_core a = ca_core b) :
    a.delay_min = b.delay_min := by
  unfold ca_core at h
  simp only [List.cons.injEq, and_true] at h
  exact h.1

theorem suss_measurements_frame (p : Params) (sk sk' : sock) (ack acked : Nat)
    (h : suss_measurements p sk ack acked = some sk') :
    sk'.ca.found = sk.ca.found ∧ sk'.ca.suss_flag = sk.ca.suss_flag ∧
    sk'.ca.suss_cap = sk.ca.suss_cap ∧
    (sk'.ca.suss_round_no = sk.ca.suss_round_no ∨
      sk'.ca.suss_round_no = (sk.ca.suss_round_no + 1) % 32) := by
  rw [suss_measurements_eq, Option.bind_eq_some] at h
  obtain ⟨s, hs, h⟩ := h
  have e1 := ca_core_fields _ _ (suss_count_core _ _ _ h)
  have e2 : ca_core s.ca =
      ca_core (suss_round_head (suss_first_red sk) (bictcp_clock_us sk) ack).ca := by
    split_ifs at hs
    · exact suss_measurements_tail_core _ _ _ _ _ hs
    · simp only [Option.some.injEq] at hs
      rw [hs]
  have e2 := ca_core_fields _ _ e2
  have e3 := suss_round_head_frame (suss_first_red sk) (bictcp_clock_us sk) ack
  have e4 := ca_core_fields _ _ (suss_first_red_core sk)
  rw [e1.1, e1.2.1, e1.2.2.1, e1.2.2.2, e2.1, e2.2.1, e2.2.2.1, e2.2.2.2, e3.1, e3.2.1, e3.2.2.1,
    e4.1, e4.2.1, e4.2.2.1]
  refine ⟨rfl, rfl, rfl, ?_⟩
  rw [← e4.2.2.2]
  exact e3.2.2.2

theorem bictcp_friendliness_core (p : Params) (d : Scales) (ca ca' : bictcp) (cwnd : Nat)
    (h : bictcp_friendliness p d ca cwnd = some ca') : ca_core ca' = ca_core ca := by
  unfold bictcp_friendliness at h
  dsimp only at h
  split_ifs at h
  · rw [Option.bind_eq_some] at h
    obtain ⟨r, _, h⟩ := h
    simp only [Option.some.injEq] at h
    subst h
    split_ifs <;> rfl
  · simp only [Option.some.injEq] at h
    subst h
    rfl

theorem bictcp_epoch_core (d : Scales) (jiffies : Nat) (ca ca' : bictcp) (cwnd acked : Nat)
    (h : bictcp_epoch d jiffies ca cwnd acked = some ca') : ca_core ca' = ca_core ca := by
  unfold bictcp_epoch at h
  dsimp only at h
  split_ifs at h
  · simp only [Option.some.injEq] at h
    subst h
    rfl
  · rw [Option.bind_eq_some] at h
    obtain ⟨k, _, h⟩ := h
    simp only [Option.some.injEq] at h
    subst h
    rfl
  · simp only [Option.some.injEq] at h
    subst h
    rfl

theorem bictcp_cubic_core (K : Kernel) (d : Scales) (jiffies : Nat) (ca : bictcp) (cwnd : Nat) :
    ca_core (bictcp_cubic K d jiffies ca cwnd) = ca_core ca := rfl

theorem upd_ack_cnt_core (ca : bictcp) (v : Nat) :
    ca_core { ca with ack_cnt := v } = ca_core ca := rfl

theorem upd_last_core (ca : bictcp) (v w : Nat) :
    ca_core { ca with last_cwnd := v, last_time := w } = ca_core ca := rfl

theorem bictcp_update_core (K : Kernel) (p : Params) (d : Scales) (jiffies : Nat)
    (ca ca' : bictcp) (cwnd acked : Nat)
    (h : bictcp_update K p d jiffies ca cwnd acked = some ca') : ca_core ca' = ca_core ca := by
  unfold bictcp_update at h
  conv at h => zeta
  split_ifs at h
  · simp only [Option.some.injEq] at h
    subst h
    exact upd_ack_cnt_core _ _
  · exact (bictcp_friendliness_core _ _ _ _ _ h).trans (upd_ack_cnt_core _ _)
  · rw [Option.bind_eq_some] at h
    obtain ⟨c, hc, h⟩ := h
    exact (bictcp_friendliness_core _ _ _ _ _ h).trans
      ((bictcp_cubic_core _ _ _ _ _).trans
        ((bictcp_epoch_core _ _ _ _ _ _ hc).trans
          ((upd_last_core _ _ _).trans (upd_ack_cnt_core _ _))))

theorem cong_avoid_grow_core (K : Kernel) (p : Params) (d : Scales) (jiffies : Nat)
    (sk sk' : sock) (acked : Nat) (h : cong_avoid_grow K p d jiffies sk acked = some sk') :
    ca_core sk'.ca = ca_core sk.ca := by
  unfold cong_avoid_grow at h
  conv at h => zeta
  split_ifs at h
  · simp only [Option.some.injEq] at h
    subst h
    rfl
  · simp only [Option.some.injEq] at h
    subst h
    rfl
  · rw [Option.bind_eq_some] at h
    obtain ⟨c, hc, h⟩ := h
    simp only [Option.some.injEq] at h
    subst h
    exact bictcp_update_core _ _ _ _ _ _ _ _ hc
  · rw [Option.bind_eq_some] at h
    obtain ⟨c, hc, h⟩ := h
    simp only [Option.some.injEq] at h
    subst h
    exact bictcp_update_core _ _ _ _ _ _ _ _ hc

theorem suss_clocking_ca (sk : sock) : (suss_clocking sk).ca = sk.ca := by
  unfold suss_clocking
  split_ifs <;> rfl

theorem upd_snd_wnd_core (s : sock) (v : Nat) :
    ca_core ({ s with tp := { s.tp with snd_wnd := v } } : sock).ca = ca_core s.ca := rfl

theorem cong_avoid_frame (K : Kernel) (p : Params) (d : Scales) (jiffies : Nat)
    (sk sk' : sock) (ack acked : Nat)
    (h : cubictcp_cong_avoid K p d jiffies sk ack acked = some sk') :
    sk'.ca.found = sk.ca.found ∧ sk'.ca.suss_flag = sk.ca.suss_flag ∧
    sk'.ca.suss_cap = sk.ca.suss_cap ∧
    (sk'.ca.suss_round_no = sk.ca.suss_round_no ∨
      sk'.ca.suss_round_no = (sk.ca.suss_round_no + 1) % 32) := by
  rw [cubictcp_cong_avoid_eq, Option.bind_eq_some] at h
  obtain ⟨s, hs, h⟩ := h
  have e1 := ca_core_fields _ _ ((cong_avoid_grow_core _ _ _ _ _ _ _ h).trans
    (upd_snd_wnd_core _ _))
  have e2 : s.ca.found = (suss_clocking sk).ca.found ∧
      s.ca.suss_flag = (suss_clocking sk).ca.suss_flag ∧
      s.ca.suss_cap = (suss_clocking sk).ca.suss_cap ∧
      (s.ca.suss_round_no = (suss_clocking sk).ca.suss_round_no ∨
        s.ca.suss_round_no = ((suss_clocking sk).ca.suss_round_no + 1) % 32) := by
    split_ifs at hs
    · exact suss_measurements_frame _ _ _ _ _ hs
    · simp only [Option.some.injEq] at hs
      rw [hs]
      exact ⟨rfl, rfl, rfl, Or.inl rfl⟩
  rw [suss_clocking_ca] at e2
  rw [e1.1, e1.2.1, e1.2.2.1, e1.2.2.2]
  exact e2

/-! ## What the HyStart side leaves alone -/

theorem Held.refl (sk : sock) : Held sk sk := ⟨rfl, fun h => ⟨h, rfl⟩, fun h => h⟩

theorem Held.trans (a b c : sock) (h1 : Held a b) (h2 : Held b c) : Held a c := by
  obtain ⟨r1, f1, d1⟩ := h1
  obtain ⟨r2, f2, d2⟩ := h2
  refine ⟨r2.trans r1, fun h => ?_, fun h => d2 (d1 h)⟩
  obtain ⟨x, y⟩ := f1 h
  obtain ⟨x', y'⟩ := f2 x
  exact ⟨x', y'.trans y⟩

theorem suss_cap_enforce_held (sk : sock) : Held sk (suss_cap_enforce sk) := by
  unfold suss_cap_enforce
  dsimp only
  split_ifs <;> exact ⟨rfl, fun h => ⟨h, rfl⟩, fun _ => rfl⟩

theorem suss_cap_arm_held (p : Params) (sk : sock) (now : Nat) (h0 : sk.ca.suss_flag = 0) :
    Held sk (suss_cap_arm p sk now) := by
  unfold suss_cap_arm
  dsimp only
  split_ifs <;> exact ⟨rfl, fun h => absurd h (by omega), fun h => h⟩

theorem suss_cap_held (p : Params) (sk : sock) : Held sk (suss_cap p sk) := by
  unfold suss_cap
  dsimp only
  split_ifs with h1 h2
  · exact suss_cap_enforce_held sk
  · exact suss_cap_arm_held p sk _ h2.1
  · exact Held.refl sk

theorem hystart_plain_train_held (p : Params) (sk : sock) (now : Nat) :
    Held sk (hystart_plain_train p sk now) := by
  unfold hystart_plain_train
  dsimp only
  split_ifs <;>
    first
    | exact Held.refl sk
    | exact ⟨rfl, fun h => ⟨h, rfl⟩, fun h => h⟩
    | exact ⟨rfl, fun h => ⟨h, rfl⟩, fun _ => rfl⟩

theorem hystart_ack_train_held (p : Params) (sk : sock) : Held sk (hystart_ack_train p sk) := by
  unfold hystart_ack_train
  dsimp only
  split_ifs
  · exact Held.trans _ _ _ (suss_cap_held p sk) (hystart_plain_train_held p _ _)
  · exact suss_cap_held p sk

theorem hystart_delay_held (sk : sock) (delay : Nat) : Held sk (hystart_delay sk delay) := by
  unfold hystart_delay
  dsimp only
  split_ifs <;>
    first
    | exact ⟨rfl, fun h => ⟨h, rfl⟩, fun h => h⟩
    | exact ⟨rfl, fun h => ⟨h, rfl⟩, fun _ => rfl⟩

theorem bictcp_hystart_reset_held (sk : sock) : Held sk (bictcp_hystart_reset sk) :=
  ⟨rfl, fun h => ⟨h, rfl⟩, fun h => h⟩

theorem hystart_update_held (p : Params) (sk : sock) (delay : Nat) :
    Held sk (hystart_update p sk delay) := by
  unfold hystart_update
  dsimp only
  have h0 : Held sk (if after sk.tp.snd_una sk.ca.end_seq then bictcp_hystart_reset sk else sk) := by
    split_ifs
    · exact bictcp_hystart_reset_held sk
    · exact Held.refl sk
  generalize (if after sk.tp.snd_una sk.ca.end_seq then bictcp_hystart_reset sk else sk) = s0 at *
  split_ifs <;>
    first
    | exact h0
    | exact Held.trans _ _ _ h0
        (Held.trans _ _ _ (hystart_ack_train_held p s0) (hystart_delay_held _ delay))
    | exact Held.trans _ _ _ h0 (hystart_ack_train_held p s0)
    | exact Held.trans _ _ _ h0 (hystart_delay_held _ delay)

theorem delay_min_update_held (sk : sock) (v : Nat) :
    Held sk
      (if sk.ca.delay_min = 0 ∨ sk.ca.delay_min > v then
        { sk with ca := { sk.ca with delay_min := v, suss_r_minupdate := sk.ca.suss_round_no } }
      else sk) := by
  split_ifs
  · exact ⟨rfl, fun h => ⟨h, rfl⟩, fun h => h⟩
  · exact Held.refl sk

theorem cubictcp_acked_held (K : Kernel) (p : Params) (jiffies : Nat) (sk : sock) (rtt_us : Int) :
    Held sk (cubictcp_acked K p jiffies sk rtt_us) := by
  unfold cubictcp_acked
  by_cases h1 : rtt_us < 0
  · rw [if_pos h1]
    exact Held.refl sk
  · rw [if_neg h1]
    by_cases h2 : sk.ca.epoch_start ≠ 0 ∧ s32 (sub32 jiffies sk.ca.epoch_start) < (K.HZ : Int)
    · rw [if_pos h2]
      exact Held.refl sk
    · rw [if_neg h2]
      dsimp only
      generalize (if u32 rtt_us = 0 then 1 else u32 rtt_us) = v
      have hm := delay_min_update_held sk v
      generalize (if sk.ca.delay_min = 0 ∨ sk.ca.delay_min > v then
        ({ sk with ca := { sk.ca with delay_min := v, suss_r_minupdate := sk.ca.suss_round_no } }
          : sock)
      else sk) = s1 at hm ⊢
      split_ifs
      · exact Held.trans _ _ _ hm (hystart_update_held p s1 v)
      · exact hm

theorem recalc_ssthresh_held (p : Params) (sk : sock) :
    Held sk (cubictcp_recalc_ssthresh p sk).1 := by
  unfold cubictcp_recalc_ssthresh
  dsimp only
  split_ifs <;> exact ⟨rfl, fun h => ⟨h, rfl⟩, fun h => h⟩

theorem cwnd_event_held (jiffies : Nat) (sk : sock) (event : Nat) :
    Held sk (cubictcp_cwnd_event jiffies sk event) := by
  unfold cubictcp_cwnd_event
  dsimp only
  split_ifs <;> exact ⟨rfl, fun h => ⟨h, rfl⟩, fun h => h⟩

theorem cubictcp_state_keeps (sk : sock) (new_state : Nat) :
    (cubictcp_state sk new_state).ca.suss_round_no = sk.ca.suss_round_no ∧
    (cubictcp_state sk new_state).ca.suss_flag = sk.ca.suss_flag ∧
    (cubictcp_state sk new_state).ca.suss_cap = sk.ca.suss_cap ∧
    (new_state ≠ TCP_CA_Loss → cubictcp_state sk new_state = sk) := by
  unfold cubictcp_state
  split_ifs with h
  · exact ⟨rfl, rfl, rfl, fun hn => absurd h hn⟩
  · exact ⟨rfl, rfl, rfl, fun _ => rfl⟩

/-! ## Round number -/

theorem call_round_no (K : Kernel) (p : Params) (d : Scales) (c : Call) (hc : c ≠ Call.init)
    (sk sk' : sock) (h : c.run K p d sk = some sk') :
    sk'.ca.suss_round_no = sk.ca.suss_round_no ∨
      sk'.ca.suss_round_no = (sk.ca.suss_round_no + 1) % 32 := by
  cases c with
  | init => exact absurd rfl hc
  | cong_avoid j a k => exact (cong_avoid_frame K p d j sk sk' a k h).2.2.2
  | measurements a k => exact (suss_measurements_frame p sk sk' a k h).2.2.2
  | pkts_acked j r =>
    simp only [Call.run, Option.some.injEq] at h
    subst h
    exact Or.inl (cubictcp_acked_held K p j sk r).1
  | hystart dl =>
    simp only [Call.run, Option.some.injEq] at h
    subst h
    exact Or.inl (hystart_update_held p sk dl).1
  | cap =>
    simp only [Call.run, Option.some.injEq] at h
    subst h
    exact Or.inl (suss_cap_held p sk).1
  | ssthresh =>
    simp only [Call.run, Option.some.injEq] at h
    subst h
    exact Or.inl (recalc_ssthresh_held p sk).1
  | set_state n =>
    simp only [Call.run, Option.some.injEq] at h
    subst h
    exact Or.inl (cubictcp_state_keeps sk n).1
  | cwnd_event j ev =>
    simp only [Call.run, Option.some.injEq] at h
    subst h
    exact Or.inl (cwnd_event_held j sk ev).1

theorem run_calls_append (K : Kernel) (p : Params) (d : Scales) (es1 es2 : List Step) :
    ∀ sk : sock, run_calls K p d sk (es1 ++ es2) =
      (run_calls K p d sk es1).bind fun s => run_calls K p d s es2 := by
  induction es1 with
  | nil => intro sk; rfl
  | cons e es ih =>
    intro sk
    show (e.call.run K p d (e.env sk)).bind (fun s => run_calls K p d s (es ++ es2)) = _
    cases hrun : e.call.run K p d (e.env sk) with
    | none => simp only [run_calls, hrun, Option.none_bind]
    | some s1 => simp only [run_calls, hrun, Option.some_bind, ih]

theorem run_round_no (K : Kernel) (p : Params) (d : Scales) (es : List Step) :
    ∀ sk sk' : sock, (∀ e ∈ es, ∀ s : sock, (e.env s).ca = s.ca) →
      (∀ e ∈ es, e.call ≠ Call.init) → sk.ca.suss_round_no < 32 →
      run_calls K p d sk es = some sk' →
      ∃ k, k ≤ es.length ∧ sk'.ca.suss_round_no = (sk.ca.suss_round_no + k) % 32 := by
  induction es with
  | nil =>
    intro sk sk' _ _ hr h
    simp only [run_calls, Option.some.injEq] at h
    subst h
    exact ⟨0, Nat.le_refl _, by omega⟩
  | cons e es ih =>
    intro sk sk' henv hcall hr h
    rw [run_calls, Option.bind_eq_some] at h
    obtain ⟨s1, h1, h⟩ := h
    have hstep := call_round_no K p d e.call (hcall e (List.mem_cons_self _ _)) _ _ h1
    rw [henv e (List.mem_cons_self _ _) sk] at hstep
    have hr1 : s1.ca.suss_round_no < 32 := by omega
    obtain ⟨k, hk, e2⟩ := ih s1 sk' (fun e' h' => henv e' (List.mem_cons_of_mem _ h'))
      (fun e' h' => hcall e' (List.mem_cons_of_mem _ h')) hr1 h
    rcases hstep with e1 | e1
    · exact ⟨k, by simp only [List.length_cons]; omega, by omega⟩
    · exact ⟨k + 1, by simp only [List.length_cons]; omega, by omega⟩

/-- C11 (as stated, refuted): on a connection with the extension on and the default
`suss_max = 3`, a flow that sends one small segment per round trip is in round 4 after
three ACKs, with no jump made, so that the round number exceeds `suss_max` plus the jump
count; after 30 ACKs it is in round 31, and the next call of `suss_measurements` wraps the
5-bit round number to 0: the 31st call of `cubictcp_cong_avoid` returns in round 0, below
the round 31 of the call before. -/
theorem round_no_exceeds_max :
    Params.sussOn.suss_max = 3 ∧
    (run_calls Kernel.idle Params.sussOn Scales.default (cubictcp_init Params.sussOn sock.fresh)
      (trickle 3)).map (fun s => (s.ca.suss_round_no, s.ca.suss_num_of_jump)) = some (4, 0) ∧
    (run_calls Kernel.idle Params.sussOn Scales.default (cubictcp_init Params.sussOn sock.fresh)
      (trickle 30)).map (fun s => s.ca.suss_round_no) = some 31 ∧
    ((run_calls Kernel.idle Params.sussOn Scales.default (cubictcp_init Params.sussOn sock.fresh)
      (trickle 30)).bind fun s =>
        (suss_measurements Params.sussOn ((trickle_step 31).env s) 4100 1).map
          fun s' => s'.ca.suss_round_no) = some 0 ∧
    (run_calls Kernel.idle Params.sussOn Scales.default (cubictcp_init Params.sussOn sock.fresh)
      (trickle 31)).map (fun s => s.ca.suss_round_no) = some 0 := by
  decide

/-- C11 (amended): across every sequence of calls other than `cubictcp_init`, with the
transport leaving the private area alone between calls, each call leaves `suss_round_no`
unchanged or adds one to it modulo 32 (the field has 5 bits): after a run of `n` calls
from round `r` the round number is `(r + k) mod 32` for some `k <= n`; while `r + n < 32`
it lies between `r` and `r + n`, and it is at least the round number at any earlier
point of the run. It is not bounded by `suss_max + suss_num_of_jump`. -/
theorem round_no_run (K : Kernel) (p : Params) (d : Scales) (sk sk' : sock) (es : List Step)
    (henv : ∀ e ∈ es, ∀ s : sock, (e.env s).ca = s.ca)
    (hcall : ∀ e ∈ es, e.call ≠ Call.init) (hr : sk.ca.suss_round_no < 32)
    (h : run_calls K p d sk es = some sk') :
    (∃ k, k ≤ es.length ∧ sk'.ca.suss_round_no = (sk.ca.suss_round_no + k) % 32) ∧
    (sk.ca.suss_round_no + es.length < 32 →
      sk.ca.suss_round_no ≤ sk'.ca.suss_round_no ∧
      sk'.ca.suss_round_no ≤ sk.ca.suss_round_no + es.length) ∧
    (sk.ca.suss_round_no + es.length < 32 →
      ∀ (es1 es2 : List Step) (sk1 : sock), es = es1 ++ es2 →
        run_calls K p d sk es1 = some sk1 → sk1.ca.suss_round_no ≤ sk'.ca.suss_round_no) := by
  have main := run_round_no K p d es sk sk' henv hcall hr h
  refine ⟨main, fun hlt => ?_, fun hlt es1 es2 sk1 hsplit h1 => ?_⟩
  · obtain ⟨k, hk, e⟩ := main
    rw [e]
    omega
  · subst hsplit
    rw [run_calls_append, h1, Option.some_bind] at h
    have henv1 : ∀ e ∈ es1, ∀ s : sock, (e.env s).ca = s.ca :=
      fun e he => henv e (List.mem_append_left _ he)
    have henv2 : ∀ e ∈ es2, ∀ s : sock, (e.env s).ca = s.ca :=
      fun e he => henv e (List.mem_append_right _ he)
    have hc1 : ∀ e ∈ es1, e.call ≠ Call.init := fun e he => hcall e (List.mem_append_left _ he)
    have hc2 : ∀ e ∈ es2, e.call ≠ Call.init := fun e he => hcall e (List.mem_append_right _ he)
    obtain ⟨k1, hk1, e1⟩ := run_round_no K p d es1 sk sk1 henv1 hc1 hr h1
    rw [List.length_append] at hlt
    have hr1 : sk1.ca.suss_round_no < 32 := by omega
    obtain ⟨k2, hk2, e2⟩ := run_round_no K p d es2 sk1 sk' henv2 hc2 hr1 h
    omega

theorem round_no_run_witness :
    ∃ sk' : sock,
      run_calls Kernel.idle Params.sussOn Scales.default (cubictcp_init Params.sussOn sock.fresh)
        [trickle_step 1, trickle_step 2, trickle_step 3] = some sk' ∧
      (cubictcp_init Params.sussOn sock.fresh).ca.suss_round_no ≤ sk'.ca.suss_round_no ∧
      sk'.ca.suss_round_no ≤ (cubictcp_init Params.sussOn sock.fresh).ca.suss_round_no + 3 := by
  have hs : (run_calls Kernel.idle Params.sussOn Scales.default
      (cubictcp_init Params.sussOn sock.fresh)
      [trickle_step 1, trickle_step 2, trickle_step 3]).isSome = true := by decide
  obtain ⟨sk', h⟩ := Option.isSome_iff_exists.mp hs
  refine ⟨sk', h, (round_no_run Kernel.idle Params.sussOn Scales.default _ sk' _ ?_ ?_ ?_ h).2.1
    (by decide)⟩
  · intro e he s
    simp only [List.mem_cons, List.mem_singleton, List.not_mem_nil, or_false] at he
    rcases he with rfl | rfl | rfl <;> rfl
  · intro e he
    simp only [List.mem_cons, List.mem_singleton, List.not_mem_nil, or_false] at he
    rcases he with rfl | rfl | rfl <;> decide
  · decide

/-! ## The cap -/

/-- C12 (the code truncates): when `suss_cap` arms the cap, the value it stores is
`snd_cwnd + suss_blue_cnt * (2 ^ suss_num_of_jump - 1)` reduced modulo `2 ^ 14`, the
width of the bit-field `suss_cap`; it is the value itself only while that is below
16384. For the flow `sock.wideWindow` (window 20000, 100 lead ACKs, one jump) the cap
should be 20100 and the stored cap is 3716. -/
theorem suss_cap_arm_truncates (p : Params) (sk : sock) (h0 : sk.ca.suss_flag = 0)
    (h1 : (suss_cap p sk).ca.suss_flag = 1) :
    (suss_cap p sk).ca.suss_cap =
      (sk.tp.snd_cwnd + sk.ca.suss_blue_cnt * (2 ^ sk.ca.suss_num_of_jump - 1)) % 16384 ∧
    (sk.tp.snd_cwnd + sk.ca.suss_blue_cnt * (2 ^ sk.ca.suss_num_of_jump - 1) < 16384 →
      (suss_cap p sk).ca.suss_cap =
        sk.tp.snd_cwnd + sk.ca.suss_blue_cnt * (2 ^ sk.ca.suss_num_of_jump - 1)) := by
  have key : (suss_cap p sk).ca.suss_cap =
      (sk.tp.snd_cwnd + sk.ca.suss_blue_cnt * (2 ^ sk.ca.suss_num_of_jump - 1)) % 16384 := by
    have e : ∀ x y : Nat, ((x + y % 4294967296) % 4294967296) % 16384 = (x + y) % 16384 := by
      intro x y
      omega
    unfold suss_cap at h1 ⊢
    dsimp only at h1 ⊢
    split_ifs at h1 ⊢ with c1 c2
    · exact absurd (h0.symm.trans c1.1) (by decide)
    · unfold suss_cap_arm at h1 ⊢
      dsimp only at h1 ⊢
      split_ifs at h1 ⊢
      · dsimp only
        rw [e, Nat.shiftLeft_eq, Nat.one_mul]
      · exact absurd (h0.symm.trans h1) (by decide)
      · exact absurd (h0.symm.trans h1) (by decide)
    · exact absurd (h0.symm.trans h1) (by decide)
  exact ⟨key, fun hlt => by rw [key, Nat.mod_eq_of_lt hlt]⟩

theorem suss_cap_arm_truncates_witness :
    sock.wideWindow.ca.suss_flag = 0 ∧
    (suss_cap Params.sussOn sock.wideWindow).ca.suss_flag = 1 ∧
    sock.wideWindow.tp.snd_cwnd +
      sock.wideWindow.ca.suss_blue_cnt * (2 ^ sock.wideWindow.ca.suss_num_of_jump - 1) = 20100 ∧
    (suss_cap Params.sussOn sock.wideWindow).ca.suss_cap = 3716 :=
  ⟨by decide, by decide, by decide,
    ((suss_cap_arm_truncates Params.sussOn sock.wideWindow (by decide) (by decide)).1).trans
      (by decide)⟩

/-- C13: once the cap is armed (`suss_flag = 1`), every call other than `cubictcp_init`
(the per-ACK entry point, `suss_measurements`, an RTT sample, `hystart_update`,
`suss_cap`, `cubictcp_recalc_ssthresh`, a state change, a window event) that returns
leaves `suss_flag = 1` and the cap value unchanged. -/
theorem cap_stays_armed (K : Kernel) (p : Params) (d : Scales) (c : Call)
    (hc : c ≠ Call.init) (sk sk' : sock) (hf : sk.ca.suss_flag = 1)
    (h : c.run K p d sk = some sk') :
    sk'.ca.suss_flag = 1 ∧ sk'.ca.suss_cap = sk.ca.suss_cap := by
  cases c with
  | init => exact absurd rfl hc
  | cong_avoid j a k =>
    have e := cong_avoid_frame K p d j sk sk' a k h
    exact ⟨e.2.1.trans hf, e.2.2.1⟩
  | measurements a k =>
    have e := suss_measurements_frame p sk sk' a k h
    exact ⟨e.2.1.trans hf, e.2.2.1⟩
  | pkts_acked j r =>
    simp only [Call.run, Option.some.injEq] at h
    subst h
    exact (cubictcp_acked_held K p j sk r).2.1 hf
  | hystart dl =>
    simp only [Call.run, Option.some.injEq] at h
    subst h
    exact (hystart_update_held p sk dl).2.1 hf
  | cap =>
    simp only [Call.run, Option.some.injEq] at h
    subst h
    exact (suss_cap_held p sk).2.1 hf
  | ssthresh =>
    simp only [Call.run, Option.some.injEq] at h
    subst h
    exact (recalc_ssthresh_held p sk).2.1 hf
  | set_state n =>
    simp only [Call.run, Option.some.injEq] at h
    subst h
    exact ⟨(cubictcp_state_keeps sk n).2.1.trans hf, (cubictcp_state_keeps sk n).2.2.1⟩
  | cwnd_event j ev =>
    simp only [Call.run, Option.some.injEq] at h
    subst h
    exact (cwnd_event_held j sk ev).2.1 hf

theorem cap_stays_armed_witness :
    Call.pkts_acked 5000 30000 ≠ Call.init ∧ sock.overCap.ca.suss_flag = 1 ∧
    (cubictcp_acked Kernel.sample Params.sussOn 5000 sock.overCap 30000).ca.found = 1 ∧
    (cubictcp_acked Kernel.sample Params.sussOn 5000 sock.overCap 30000).ca.suss_flag = 1 ∧
    (cubictcp_acked Kernel.sample Params.sussOn 5000 sock.overCap 30000).ca.suss_cap = 300 :=
  ⟨by decide, by decide, by decide,
    cap_stays_armed Kernel.sample Params.sussOn Scales.default (Call.pkts_acked 5000 30000)
      (by decide) sock.overCap _ (by decide) rfl⟩

/-- C14: when the cap is armed (`suss_flag = 1`) and the window exceeds it, `suss_cap`
sets `found = 1` and `suss_state = 3`, replaces `snd_cwnd` by the number of segments in
flight when more than one jump was made and leaves it otherwise, sets `snd_ssthresh` to
the resulting `snd_cwnd`, and changes nothing else; when the cap is armed and the window
does not exceed it, `suss_cap` changes nothing. -/
theorem suss_cap_enforces (p : Params) (sk : sock) (hf : sk.ca.suss_flag = 1) :
    (sk.tp.snd_cwnd > sk.ca.suss_cap →
      suss_cap p sk =
        { sk with
          ca := { sk.ca with found := 1 },
          tp := { sk.tp with
            suss_state := 3,
            snd_cwnd :=
              if sk.ca.suss_num_of_jump > 1 then tcp_packets_in_flight sk.tp else sk.tp.snd_cwnd,
            snd_ssthresh :=
              if sk.ca.suss_num_of_jump > 1 then tcp_packets_in_flight sk.tp
              else sk.tp.snd_cwnd } }) ∧
    (sk.tp.snd_cwnd ≤ sk.ca.suss_cap → suss_cap p sk = sk) := by
  constructor
  · intro hgt
    unfold suss_cap
    dsimp only
    rw [if_pos ⟨hf, hgt⟩]
    unfold suss_cap_enforce
    dsimp only
    split_ifs <;> rfl
  · intro hle
    unfold suss_cap
    dsimp only
    rw [if_neg (by omega), if_neg (by omega)]

theorem suss_cap_enforces_witness :
    sock.overCap.ca.suss_flag = 1 ∧ sock.overCap.tp.snd_cwnd > sock.overCap.ca.suss_cap ∧
    (suss_cap Params.sussOn sock.overCap).ca.found = 1 ∧
    (suss_cap Params.sussOn sock.overCap).tp.suss_state = 3 ∧
    (suss_cap Params.sussOn sock.overCap).tp.snd_cwnd = 350 ∧
    (suss_cap Params.sussOn sock.overCap).tp.snd_ssthresh = 350 :=
  ⟨by decide, by decide,
    by rw [(suss_cap_enforces Params.sussOn sock.overCap (by decide)).1 (by decide)]; decide⟩

/-! ## Loss reset and the exit flag -/

/-- C15 (as stated, refuted): on the connection `sock.firstAck`, after the first ACK for
two segments the extension is in round 2 with `suss_is_blue = 1`, two lead ACKs counted
and the head of the train at 11000; a loss-state transition leaves all of these as they
are, while their values after `cubictcp_init` are round 1 and head `snd_nxt`. -/
theorem loss_keeps_ase :
    ((suss_measurements Params.sussOn sock.firstAck 3000 2).map fun s =>
      ((cubictcp_state s TCP_CA_Loss).ca.suss_round_no,
        (cubictcp_state s TCP_CA_Loss).ca.suss_is_blue,
        (cubictcp_state s TCP_CA_Loss).ca.suss_blue_cnt,
        (cubictcp_state s TCP_CA_Loss).ca.suss_head_seq)) = some (2, 1, 2, 11000) ∧
    ((suss_measurements Params.sussOn sock.firstAck 3000 2).map fun s =>
      ((cubictcp_init Params.sussOn s).ca.suss_round_no,
        (cubictcp_init Params.sussOn s).ca.suss_head_seq)) = some (1, 11000) ∧
    sock.firstAck.ca.suss_round_no = 1 ∧ sock.firstAck.ca.suss_head_seq = 1000 := by
  decide

/-- C15 (amended): a loss-state transition (`cubictcp_state` with `TCP_CA_Loss`) zeroes
the growth state (`cnt`, `last_max_cwnd`, `last_cwnd`, `last_time`, `bic_origin_point`,
`bic_K`, `delay_min`, `epoch_start`, `ack_cnt`, `tcp_cwnd`) and the exit flag, and
restarts the HyStart round (`round_start = last_ack =` clock, `end_seq = snd_nxt`,
`curr_rtt = 0xffffffff`, `sample_cnt = 0`); it leaves the ASE sub-state as it is: round
number, `suss_gf`, `suss_is_blue`, cap flag and cap value, lead-ACK count, previous train
delta, jump count, head and tail bounds, round start, `suss_r_minupdate`, and the whole
transport block with `suss_state`. -/
theorem loss_reset_keeps_ase (sk : sock) :
    cubictcp_state sk TCP_CA_Loss =
      { sk with ca := { sk.ca with
          cnt := 0, last_max_cwnd := 0, last_cwnd := 0, last_time := 0, bic_origin_point := 0,
          bic_K := 0, delay_min := 0, epoch_start := 0, ack_cnt := 0, tcp_cwnd := 0, found := 0,
          round_start := bictcp_clock_us sk, last_ack := bictcp_clock_us sk,
          end_seq := sk.tp.snd_nxt, curr_rtt := 4294967295, sample_cnt := 0 } } ∧
    (cubictcp_state sk TCP_CA_Loss).ca.suss_round_no = sk.ca.suss_round_no ∧
    (cubictcp_state sk TCP_CA_Loss).ca.suss_gf = sk.ca.suss_gf ∧
    (cubictcp_state sk TCP_CA_Loss).ca.suss_is_blue = sk.ca.suss_is_blue ∧
    (cubictcp_state sk TCP_CA_Loss).ca.suss_flag = sk.ca.suss_flag ∧
    (cubictcp_state sk TCP_CA_Loss).ca.suss_cap = sk.ca.suss_cap ∧
    (cubictcp_state sk TCP_CA_Loss).ca.suss_blue_cnt = sk.ca.suss_blue_cnt ∧
    (cubictcp_state sk TCP_CA_Loss).ca.suss_perv_delta_t_bat = sk.ca.suss_perv_delta_t_bat ∧
    (cubictcp_state sk TCP_CA_Loss).ca.suss_num_of_jump = sk.ca.suss_num_of_jump ∧
    (cubictcp_state sk TCP_CA_Loss).ca.suss_head_seq = sk.ca.suss_head_seq ∧
    (cubictcp_state sk TCP_CA_Loss).ca.suss_tail_seq = sk.ca.suss_tail_seq ∧
    (cubictcp_state sk TCP_CA_Loss).tp = sk.tp := by
  have e : cubictcp_state sk TCP_CA_Loss =
      bictcp_hystart_reset { sk with ca := bictcp_reset sk.ca } := by
    unfold cubictcp_state
    rw [if_pos rfl]
  rw [e]
  exact ⟨rfl, rfl, rfl, rfl, rfl, rfl, rfl, rfl, rfl, rfl, rfl, rfl⟩

/-- C16: the exit flag is latched. From a state with `found = 1`, every call other than
`cubictcp_init` and the loss reset that returns leaves `found = 1`; an RTT sample
delivered while `found = 1` does not run the HyStart detector: the HyStart round
(`round_start`, `end_seq`, `last_ack`, `curr_rtt`, `sample_cnt`) and the whole transport
block, `snd_ssthresh` and `snd_cwnd` included, are unchanged; the loss reset sets
`found = 0` and restarts the HyStart round. -/
theorem found_latched (K : Kernel) (p : Params) (d : Scales) (sk : sock)
    (hf : sk.ca.found = 1) :
    (∀ (c : Call) (sk' : sock), c ≠ Call.init → c ≠ Call.set_state TCP_CA_Loss →
      c.run K p d sk = some sk' → sk'.ca.found = 1) ∧
    (∀ (jiffies : Nat) (rtt_us : Int),
      (cubictcp_acked K p jiffies sk rtt_us).ca.round_start = sk.ca.round_start ∧
      (cubictcp_acked K p jiffies sk rtt_us).ca.end_seq = sk.ca.end_seq ∧
      (cubictcp_acked K p jiffies sk rtt_us).ca.last_ack = sk.ca.last_ack ∧
      (cubictcp_acked K p jiffies sk rtt_us).ca.curr_rtt = sk.ca.curr_rtt ∧
      (cubictcp_acked K p jiffies sk rtt_us).ca.sample_cnt = sk.ca.sample_cnt ∧
      (cubictcp_acked K p jiffies sk rtt_us).tp = sk.tp) ∧
    ((cubictcp_state sk TCP_CA_Loss).ca.found = 0 ∧
      (cubictcp_state sk TCP_CA_Loss).ca.round_start = bictcp_clock_us sk ∧
      (cubictcp_state sk TCP_CA_Loss).ca.last_ack = bictcp_clock_us sk ∧
      (cubictcp_state sk TCP_CA_Loss).ca.end_seq = sk.tp.snd_nxt ∧
      (cubictcp_state sk TCP_CA_Loss).ca.curr_rtt = 4294967295 ∧
      (cubictcp_state sk TCP_CA_Loss).ca.sample_cnt = 0) := by
  refine ⟨fun c sk' hc hl h => ?_, fun jiffies rtt_us => ?_, ?_⟩
  · cases c with
    | init => exact absurd rfl hc
    | cong_avoid j a k => exact (cong_avoid_frame K p d j sk sk' a k h).1.trans hf
    | measurements a k => exact (suss_measurements_frame p sk sk' a k h).1.trans hf
    | pkts_acked j r =>
      simp only [Call.run, Option.some.injEq] at h
      subst h
      exact (cubictcp_acked_held K p j sk r).2.2 hf
    | hystart dl =>
      simp only [Call.run, Option.some.injEq] at h
      subst h
      exact (hystart_update_held p sk dl).2.2 hf
    | cap =>
      simp only [Call.run, Option.some.injEq] at h
      subst h
      exact (suss_cap_held p sk).2.2 hf
    | ssthresh =>
      simp only [Call.run, Option.some.injEq] at h
      subst h
      exact (recalc_ssthresh_held p sk).2.2 hf
    | set_state n =>
      simp only [Call.run, Option.some.injEq] at h
      subst h
      have hn : n ≠ TCP_CA_Loss := fun e => hl (by rw [e])
      rw [(cubictcp_state_keeps sk n).2.2.2 hn]
      exact hf
    | cwnd_event j ev =>
      simp only [Call.run, Option.some.injEq] at h
      subst h
      exact (cwnd_event_held j sk ev).2.2 hf
  · unfold cubictcp_acked
    by_cases h1 : rtt_us < 0
    · rw [if_pos h1]
      exact ⟨rfl, rfl, rfl, rfl, rfl, rfl⟩
    · rw [if_neg h1]
      by_cases h2 : sk.ca.epoch_start ≠ 0 ∧ s32 (sub32 jiffies sk.ca.epoch_start) < (K.HZ : Int)
      · rw [if_pos h2]
        exact ⟨rfl, rfl, rfl, rfl, rfl, rfl⟩
      · rw [if_neg h2]
        dsimp only
        generalize (if u32 rtt_us = 0 then 1 else u32 rtt_us) = v
        by_cases h3 : sk.ca.delay_min = 0 ∨ sk.ca.delay_min > v
        · rw [if_pos h3, if_neg (by dsimp only; omega)]
          exact ⟨rfl, rfl, rfl, rfl, rfl, rfl⟩
        · rw [if_neg h3, if_neg (by omega)]
          exact ⟨rfl, rfl, rfl, rfl, rfl, rfl⟩
  · have e : cubictcp_state sk TCP_CA_Loss =
        bictcp_hystart_reset { sk with ca := bictcp_reset sk.ca } := by
      unfold cubictcp_state
      rw [if_pos rfl]
    rw [e]
    exact ⟨rfl, rfl, rfl, rfl, rfl, rfl⟩

theorem found_latched_witness :
    sock.overCap.ca.found = 0 ∧ (suss_cap Params.sussOn sock.overCap).ca.found = 1 ∧
    (cubictcp_acked Kernel.sample Params.sussOn 5000 (suss_cap Params.sussOn sock.overCap)
      50000).ca.found = 1 ∧
    (cubictcp_acked Kernel.sample Params.sussOn 5000 (suss_cap Params.sussOn sock.overCap)
      50000).tp = (suss_cap Params.sussOn sock.overCap).tp ∧
    (cubictcp_state (suss_cap Params.sussOn sock.overCap) TCP_CA_Loss).ca.found = 0 :=
  ⟨by decide, by decide,
    (found_latched Kernel.sample Params.sussOn Scales.default
      (suss_cap Params.sussOn sock.overCap) (by decide)).1 (Call.pkts_acked 5000 50000) _
      (by decide) (by decide) rfl,
    ((found_latched Kernel.sample Params.sussOn Scales.default
      (suss_cap Params.sussOn sock.overCap) (by decide)).2.1 5000 50000).2.2.2.2.2,
    (found_latched Kernel.sample Params.sussOn Scales.default
      (suss_cap Params.sussOn sock.overCap) (by decide)).2.2.1⟩

theorem acked_delay_min_fits (K : Kernel) (p : Params) (jiffies : Nat) (sk : sock) (rtt_us : Int)
    (hr : rtt_us < 2147483648) (h : sk.ca.delay_min < 2147483648) :
    (cubictcp_acked K p jiffies sk rtt_us).ca.delay_min < 2147483648 := by
  have hs := (acked_step K p sk ⟨rtt_us, jiffies, id⟩ hr).2
  dsimp only at hs
  rw [hs]
  unfold delay_min_step sample_delay
  dsimp only
  split_ifs <;> omega

/-! ## HyStart detectors -/

theorem hystart_thresh_clamp (x : Nat) : HYSTART_DELAY_THRESH x = min (max x 4000) 16000 := by
  unfold HYSTART_DELAY_THRESH HYSTART_DELAY_MIN HYSTART_DELAY_MAX
  split_ifs <;> omega

theorem hystart_delay_spec (s : sock) (delay : Nat) (hdm : s.ca.delay_min < 2147483648) :
    (hystart_delay s delay).ca.curr_rtt = min s.ca.curr_rtt delay ∧
    (s.ca.sample_cnt < 8 →
      hystart_delay s delay =
        { s with ca := { s.ca with
            curr_rtt := min s.ca.curr_rtt delay, sample_cnt := s.ca.sample_cnt + 1 } }) ∧
    (8 ≤ s.ca.sample_cnt →
      min s.ca.curr_rtt delay > s.ca.delay_min + min (max (s.ca.delay_min / 8) 4000) 16000 →
      (hystart_delay s delay).ca.found = 1 ∧
      (hystart_delay s delay).tp.snd_ssthresh = (hystart_delay s delay).tp.snd_cwnd) ∧
    (8 ≤ s.ca.sample_cnt →
      ¬ min s.ca.curr_rtt delay > s.ca.delay_min + min (max (s.ca.delay_min / 8) 4000) 16000 →
      hystart_delay s delay = { s with ca := { s.ca with curr_rtt := min s.ca.curr_rtt delay } }) := by
  have e8 : s.ca.delay_min >>> 3 = s.ca.delay_min / 8 := by rw [Nat.shiftRight_eq_div_pow]
  have ht : (s.ca.delay_min + HYSTART_DELAY_THRESH (s.ca.delay_min >>> 3)) % 4294967296 =
      s.ca.delay_min + min (max (s.ca.delay_min / 8) 4000) 16000 := by
    rw [hystart_thresh_clamp, e8]
    omega
  have hmin : (if s.ca.curr_rtt > delay then delay else s.ca.curr_rtt) = min s.ca.curr_rtt delay := by
    split_ifs <;> omega
  unfold hystart_delay
  dsimp only
  by_cases hc : s.ca.curr_rtt > delay
  · rw [if_pos hc] at hmin
    rw [if_pos hc]
    dsimp only
    rw [ht, ← hmin]
    refine ⟨?_, fun h8 => ?_, fun h8 hgt => ?_, fun h8 hle => ?_⟩
    · split_ifs <;> rfl
    · rw [if_pos (by unfold HYSTART_MIN_SAMPLES; omega), Nat.mod_eq_of_lt (by omega)]
    · rw [if_neg (by unfold HYSTART_MIN_SAMPLES; omega), if_pos hgt]
      split_ifs <;> exact ⟨rfl, rfl⟩
    · rw [if_neg (by unfold HYSTART_MIN_SAMPLES; omega), if_neg hle]
  · rw [if_neg hc] at hmin
    rw [if_neg hc]
    rw [ht, ← hmin]
    refine ⟨?_, fun h8 => ?_, fun h8 hgt => ?_, fun h8 hle => ?_⟩
    · split_ifs <;> rfl
    · rw [if_pos (by unfold HYSTART_MIN_SAMPLES; omega), Nat.mod_eq_of_lt (by omega)]
    · rw [if_neg (by unfold HYSTART_MIN_SAMPLES; omega), if_pos hgt]
      split_ifs <;> exact ⟨rfl, rfl⟩
    · rw [if_neg (by unfold HYSTART_MIN_SAMPLES; omega), if_neg hle]

theorem hystart_round_keeps (sk : sock) :
    (if after sk.tp.snd_una sk.ca.end_seq then bictcp_hystart_reset sk else sk).tp = sk.tp ∧
    (if after sk.tp.snd_una sk.ca.end_seq then bictcp_hystart_reset sk else sk).ca.delay_min =
      sk.ca.delay_min ∧
    (if after sk.tp.snd_una sk.ca.end_seq then bictcp_hystart_reset sk else sk).ca.found =
      sk.ca.found := by
  split_ifs <;> exact ⟨rfl, rfl, rfl⟩

/-! ## The minimum delay stays within 31 bits -/

theorem suss_measurements_delay_min (p : Params) (sk sk' : sock) (ack acked : Nat)
    (h : suss_measurements p sk ack acked = some sk') : sk'.ca.delay_min = sk.ca.delay_min := by
  rw [suss_measurements_eq, Option.bind_eq_some] at h
  obtain ⟨s, hs, h⟩ := h
  have e1 := ca_core_delay_min _ _ (suss_count_core _ _ _ h)
  have e2 : ca_core s.ca =
      ca_core (suss_round_head (suss_first_red sk) (bictcp_clock_us sk) ack).ca := by
    split_ifs at hs
    · exact suss_measurements_tail_core _ _ _ _ _ hs
    · simp only [Option.some.injEq] at hs
      rw [hs]
  have e2 := ca_core_delay_min _ _ e2
  have e3 : (suss_round_head (suss_first_red sk) (bictcp_clock_us sk) ack).ca.delay_min =
      (suss_first_red sk).ca.delay_min := by
    unfold suss_round_head
    split_ifs <;> rfl
  have e4 := ca_core_delay_min _ _ (suss_first_red_core sk)
  exact e1.trans (e2.trans (e3.trans e4))

theorem cong_avoid_delay_min (K : Kernel) (p : Params) (d : Scales) (jiffies : Nat)
    (sk sk' : sock) (ack acked : Nat)
    (h : cubictcp_cong_avoid K p d jiffies sk ack acked = some sk') :
    sk'.ca.delay_min = sk.ca.delay_min := by
  rw [cubictcp_cong_avoid_eq, Option.bind_eq_some] at h
  obtain ⟨s, hs, h⟩ := h
  have e1 := ca_core_delay_min _ _ ((cong_avoid_grow_core _ _ _ _ _ _ _ h).trans
    (upd_snd_wnd_core _ _))
  have e2 : s.ca.delay_min = (suss_clocking sk).ca.delay_min := by
    split_ifs at hs
    · exact suss_measurements_delay_min _ _ _ _ _ hs
    · simp only [Option.some.injEq] at hs
      rw [hs]
  rw [suss_clocking_ca] at e2
  exact e1.trans e2

theorem suss_cap_delay_min (p : Params) (sk : sock) :
    (suss_cap p sk).ca.delay_min = sk.ca.delay_min := by
  unfold suss_cap suss_cap_enforce suss_cap_arm
  dsimp only
  split_ifs <;> rfl

theorem hystart_delay_delay_min (sk : sock) (delay : Nat) :
    (hystart_delay sk delay).ca.delay_min = sk.ca.delay_min := by
  unfold hystart_delay
  dsimp only
  split_ifs <;> rfl

theorem hystart_update_delay_min (p : Params) (sk : sock) (delay : Nat) :
    (hystart_update p sk delay).ca.delay_min = sk.ca.delay_min := by
  have h0 := (hystart_round_keeps sk).2.1
  unfold hystart_update
  dsimp only
  generalize (if after sk.tp.snd_una sk.ca.end_seq then bictcp_hystart_reset sk else sk) = s0 at *
  split_ifs <;>
    first
    | exact h0
    | exact (hystart_delay_delay_min _ delay).trans (((hystart_ack_train_keeps p s0).1).trans h0)
    | exact ((hystart_ack_train_keeps p s0).1).trans h0
    | exact (hystart_delay_delay_min _ delay).trans h0

/-- Every call keeps the minimum delay below `2 ^ 31`, an RTT sample being an `s32`:
`cubictcp_init` and the loss reset zero it, `cubictcp_acked` stores a sample or keeps it,
and no other call writes it. -/
theorem call_delay_min_fits (K : Kernel) (p : Params) (d : Scales) (c : Call)
    (hc : ∀ j r, c = Call.pkts_acked j r → r < 2147483648)
    (sk sk' : sock) (hm : sk.ca.delay_min < 2147483648) (h : c.run K p d sk = some sk') :
    sk'.ca.delay_min < 2147483648 := by
  cases c with
  | init =>
    simp only [Call.run, Option.some.injEq] at h
    subst h
    have e : (cubictcp_init p sk).ca.delay_min = 0 := by
      unfold cubictcp_init
      dsimp only
      split_ifs <;> rfl
    rw [e]
    decide
  | cong_avoid j a k => rw [cong_avoid_delay_min K p d j sk sk' a k h]; exact hm
  | measurements a k => rw [suss_measurements_delay_min p sk sk' a k h]; exact hm
  | pkts_acked j r =>
    simp only [Call.run, Option.some.injEq] at h
    subst h
    exact acked_delay_min_fits K p j sk r (hc j r rfl) hm
  | hystart dl =>
    simp only [Call.run, Option.some.injEq] at h
    subst h
    rw [hystart_update_delay_min]; exact hm
  | cap =>
    simp only [Call.run, Option.some.injEq] at h
    subst h
    rw [suss_cap_delay_min]; exact hm
  | ssthresh =>
    simp only [Call.run, Option.some.injEq] at h
    subst h
    have e : (cubictcp_recalc_ssthresh p sk).1.ca.delay_min = sk.ca.delay_min := by
      unfold cubictcp_recalc_ssthresh
      dsimp only
      split_ifs <;> rfl
    rw [e]; exact hm
  | set_state n =>
    simp only [Call.run, Option.some.injEq] at h
    subst h
    unfold cubictcp_state
    split_ifs
    · exact (by decide : (0 : Nat) < 2147483648)
    · exact hm
  | cwnd_event j ev =>
    simp only [Call.run, Option.some.injEq] at h
    subst h
    have e : (cubictcp_cwnd_event j sk ev).ca.delay_min = sk.ca.delay_min := by
      unfold cubictcp_cwnd_event
      dsimp only
      split_ifs <;> rfl
    rw [e]; exact hm

/-- On every run of calls whose RTT samples are `s32` values, with the transport leaving
the private area alone between calls, the minimum delay stays below `2 ^ 31`. -/
theorem run_delay_min_fits (K : Kernel) (p : Params) (d : Scales) (es : List Step) :
    ∀ sk sk' : sock, (∀ e ∈ es, ∀ s : sock, (e.env s).ca = s.ca) →
      (∀ e ∈ es, ∀ j r, e.call = Call.pkts_acked j r → r < 2147483648) →
      sk.ca.delay_min < 2147483648 → run_calls K p d sk es = some sk' →
      sk'.ca.delay_min < 2147483648 := by
  induction es with
  | nil =>
    intro sk sk' _ _ hm h
    simp only [run_calls, Option.some.injEq] at h
    subst h
    exact hm
  | cons e es ih =>
    intro sk sk' henv hcall hm h
    rw [run_calls, Option.bind_eq_some] at h
    obtain ⟨s1, h1, h⟩ := h
    have hm0 : (e.env sk).ca.delay_min < 2147483648 := by
      rw [henv e (List.mem_cons_self _ _) sk]
      exact hm
    have hm1 := call_delay_min_fits K p d e.call (hcall e (List.mem_cons_self _ _)) _ _ hm0 h1
    exact ih s1 sk' (fun e' h' => henv e' (List.mem_cons_of_mem _ h'))
      (fun e' h' => hcall e' (List.mem_cons_of_mem _ h')) hm1 h

/-- C17: in `hystart_update` with delay detection enabled, for a minimum delay that fits
an `s32` (it is an RTT sample or 0, and stays so on every run: `run_delay_min_fits`).
With `snd_cwnd >= hystart_low_window`, the update is
the delay detector run on the state `s1` that the round reset and the ACK-train block
leave: the round minimum `curr_rtt` becomes `min(curr_rtt, delay)`; with fewer than 8
samples the detector only adds 1 to `sample_cnt`; otherwise it declares exit (`found = 1`,
`snd_ssthresh = snd_cwnd`) when `curr_rtt > delay_min + clamp(delay_min / 8, 4000, 16000)`
and only stores the round minimum when not. With `snd_cwnd < hystart_low_window` neither
detector runs: `found` and the transport block (`snd_ssthresh`, `snd_cwnd`) are unchanged. -/
theorem hystart_delay_detector (p : Params) (sk : sock) (delay : Nat)
    (hdet : (u32 p.hystart_detect) &&& HYSTART_DELAY ≠ 0)
    (hdm : sk.ca.delay_min < 2147483648) :
    (u32 p.hystart_low_window ≤ sk.tp.snd_cwnd →
      ∀ s0 s1 : sock,
        s0 = (if after sk.tp.snd_una sk.ca.end_seq then bictcp_hystart_reset sk else sk) →
        s1 = (if (u32 p.hystart_detect) &&& HYSTART_ACK_TRAIN ≠ 0 then hystart_ack_train p s0
          else s0) →
        hystart_update p sk delay = hystart_delay s1 delay ∧
        s1.ca.delay_min = sk.ca.delay_min ∧
        (hystart_update p sk delay).ca.curr_rtt = min s1.ca.curr_rtt delay ∧
        (s1.ca.sample_cnt < 8 →
          hystart_update p sk delay =
            { s1 with ca := { s1.ca with
                curr_rtt := min s1.ca.curr_rtt delay, sample_cnt := s1.ca.sample_cnt + 1 } }) ∧
        (8 ≤ s1.ca.sample_cnt →
          min s1.ca.curr_rtt delay >
            sk.ca.delay_min + min (max (sk.ca.delay_min / 8) 4000) 16000 →
          (hystart_update p sk delay).ca.found = 1 ∧
          (hystart_update p sk delay).tp.snd_ssthresh =
            (hystart_update p sk delay).tp.snd_cwnd) ∧
        (8 ≤ s1.ca.sample_cnt →
          ¬ min s1.ca.curr_rtt delay >
            sk.ca.delay_min + min (max (sk.ca.delay_min / 8) 4000) 16000 →
          hystart_update p sk delay =
            { s1 with ca := { s1.ca with curr_rtt := min s1.ca.curr_rtt delay } })) ∧
    (sk.tp.snd_cwnd < u32 p.hystart_low_window →
      hystart_update p sk delay =
        (if after sk.tp.snd_una sk.ca.end_seq then bictcp_hystart_reset sk else sk) ∧
      (hystart_update p sk delay).ca.found = sk.ca.found ∧
      (hystart_update p sk delay).tp = sk.tp) := by
  have hk := hystart_round_keeps sk
  constructor
  · intro hwin s0 s1 hs0 hs1
    have e0 : s0.tp = sk.tp := by rw [hs0]; exact hk.1
    have d0 : s0.ca.delay_min = sk.ca.delay_min := by rw [hs0]; exact hk.2.1
    have d1 : s1.ca.delay_min = sk.ca.delay_min := by
      rw [hs1]
      split_ifs
      · rw [(hystart_ack_train_keeps p s0).1]; exact d0
      · exact d0
    have hu : hystart_update p sk delay = hystart_delay s1 delay := by
      unfold hystart_update
      dsimp only
      rw [← hs0, ← hs1, if_neg (by unfold tcp_snd_cwnd; rw [e0]; omega), if_pos hdet]
    have sp := hystart_delay_spec s1 delay (by rw [d1]; exact hdm)
    rw [d1] at sp
    rw [hu]
    exact ⟨rfl, d1, sp.1, sp.2.1, sp.2.2.1, sp.2.2.2⟩
  · intro hlow
    have hu : hystart_update p sk delay =
        (if after sk.tp.snd_una sk.ca.end_seq then bictcp_hystart_reset sk else sk) := by
      unfold hystart_update
      dsimp only
      rw [if_pos (by unfold tcp_snd_cwnd; rw [hk.1]; exact hlow)]
    rw [hu]
    exact ⟨rfl, hk.2.2, hk.1⟩

theorem hystart_delay_detector_witness :
    (hystart_update Params.default (sock.delayRound 3) 26000).ca.curr_rtt = 26000 ∧
    (hystart_update Params.default (sock.delayRound 3) 26000).ca.sample_cnt = 4 ∧
    (hystart_update Params.default (sock.delayRound 3) 26000).ca.found = 0 ∧
    (hystart_update Params.default (sock.delayRound 8) 26000).ca.found = 1 ∧
    (hystart_update Params.default (sock.delayRound 8) 26000).tp.snd_ssthresh = 20 ∧
    (hystart_update Params.default (sock.delayRound 8) 22000).ca.found = 0 := by
  have h3 := (hystart_delay_detector Params.default (sock.delayRound 3) 26000 (by decide)
    (by decide)).1 (by decide) _ _ rfl rfl
  have h8 := (hystart_delay_detector Params.default (sock.delayRound 8) 26000 (by decide)
    (by decide)).1 (by decide) _ _ rfl rfl
  have h8' := (hystart_delay_detector Params.default (sock.delayRound 8) 22000 (by decide)
    (by decide)).1 (by decide) _ _ rfl rfl
  refine ⟨h3.2.2.1.trans (by decide), ?_, ?_, (h8.2.2.2.2.1 (by decide) (by decide)).1, ?_, ?_⟩
  · rw [h3.2.2.2.1 (by decide)]; decide
  · rw [h3.2.2.2.1 (by decide)]; decide
  · rw [(h8.2.2.2.2.1 (by decide) (by decide)).2]; decide
  · rw [h8'.2.2.2.2.2 (by decide) (by decide)]; decide

theorem hystart_ack_delay_le (sk : sock) :
    hystart_ack_delay sk ≤ 1000 ∧ (sk.sk_pacing_rate = 0 → hystart_ack_delay sk = 0) := by
  unfold hystart_ack_delay USEC_PER_MSEC
  dsimp only
  split_ifs with h
  · exact ⟨Nat.zero_le _, fun _ => rfl⟩
  · exact ⟨Nat.min_le_left _ _, fun h0 => absurd h0 h⟩

theorem hystart_delay_exit_kept (s : sock) (delay : Nat) (hf : s.ca.found = 1)
    (hs : s.tp.snd_ssthresh = s.tp.snd_cwnd) :
    (hystart_delay s delay).ca.found = 1 ∧
    (hystart_delay s delay).tp.snd_ssthresh = (hystart_delay s delay).tp.snd_cwnd ∧
    (s.tp.suss_state = 10 → (hystart_delay s delay).tp.snd_cwnd = s.tp.snd_cwnd) := by
  unfold hystart_delay tcp_snd_cwnd
  dsimp only
  split_ifs <;> (try dsimp only at *) <;>
    first
    | exact ⟨hf, hs, fun _ => rfl⟩
    | exact ⟨rfl, rfl, fun _ => rfl⟩
    | exact ⟨rfl, rfl, fun h10 => by omega⟩

theorem suss_cap_disabled (p : Params) (sk : sock) (hs : sk.tp.suss_state = 10) :
    (sk.ca.suss_flag = 1 ∧ sk.tp.snd_cwnd > sk.ca.suss_cap → suss_cap p sk = suss_cap_enforce sk) ∧
    (¬ (sk.ca.suss_flag = 1 ∧ sk.tp.snd_cwnd > sk.ca.suss_cap) → suss_cap p sk = sk) := by
  unfold suss_cap
  dsimp only
  constructor
  · intro h
    rw [if_pos h]
  · intro h
    rw [if_neg h, if_neg (by omega)]

theorem plain_train_exit (p : Params) (sk : sock) (now : Nat)
    (hsp : s32 (sub32 now sk.ca.last_ack) ≤ p.hystart_ack_delta_us)
    (hpace : sk.sk_pacing_status = SK_PACING_NONE)
    (hel : sub32 now sk.ca.round_start > sk.ca.delay_min / 2 + hystart_ack_delay sk) :
    hystart_plain_train p sk now =
      { sk with
        ca := { sk.ca with last_ack := now, found := 1 },
        tp := { sk.tp with snd_ssthresh := sk.tp.snd_cwnd } } := by
  have hd : hystart_ack_delay { sk with ca := { sk.ca with last_ack := now } } =
      hystart_ack_delay sk := rfl
  have hth : ((sk.ca.delay_min + hystart_ack_delay sk) % 4294967296) >>> 1 ≤
      sk.ca.delay_min / 2 + hystart_ack_delay sk := by
    rw [Nat.shiftRight_eq_div_pow]
    have := Nat.mod_le (sk.ca.delay_min + hystart_ack_delay sk) 4294967296
    omega
  unfold hystart_plain_train tcp_snd_cwnd
  dsimp only
  rw [if_pos hsp, if_pos hpace, hd, if_pos (by omega)]

/-- C18 (as stated, refuted): with the extension disabled, the window above
`hystart_low_window`, no round reset due, the last close ACK 0.5 ms ago, `delay_min` of
8 ms, the pacing rate unset and 5 ms elapsed in the round (more than 4 ms), a socket
whose `sk_pacing_status` is `SK_PACING_NEEDED` does not exit: its threshold is `delay_min`
plus the cushion, not halved. The same socket with `SK_PACING_NONE` exits. -/
theorem ack_train_paced :
    (sock.trainRound SK_PACING_NEEDED).tp.suss_state = 10 ∧
    s32 (sub32 (bictcp_clock_us (sock.trainRound SK_PACING_NEEDED))
      (sock.trainRound SK_PACING_NEEDED).ca.last_ack) ≤ Params.default.hystart_ack_delta_us ∧
    sub32 (bictcp_clock_us (sock.trainRound SK_PACING_NEEDED))
        (sock.trainRound SK_PACING_NEEDED).ca.round_start >
      (sock.trainRound SK_PACING_NEEDED).ca.delay_min / 2 +
        hystart_ack_delay (sock.trainRound SK_PACING_NEEDED) ∧
    (hystart_update Params.default (sock.trainRound SK_PACING_NEEDED) 8000).ca.found = 0 ∧
    (hystart_update Params.default (sock.trainRound SK_PACING_NEEDED) 8000).tp.snd_ssthresh =
      2147483647 ∧
    (hystart_update Params.default (sock.trainRound SK_PACING_NONE) 8000).ca.found = 1 := by
  decide

/-- C18 (amended): for a state with the extension disabled (`suss_state = 10`), ACK-train
detection enabled, `snd_cwnd >= hystart_low_window`, no round reset due on this sample
and a socket that is not paced (`sk_pacing_status = SK_PACING_NONE`): if the spacing since
the last close ACK is within `hystart_ack_delta_us` and the elapsed round time exceeds
`delay_min / 2` plus the cushion `hystart_ack_delay` (0 when the pacing rate is unset, at
most 1000 us), then `hystart_update` declares exit (`found = 1`) and leaves
`snd_ssthresh` equal to the window, which is the window at the call unless an armed cap
was exceeded. -/
theorem hystart_ack_train_exit (p : Params) (sk : sock) (delay : Nat)
    (hs : sk.tp.suss_state = 10)
    (hdet : (u32 p.hystart_detect) &&& HYSTART_ACK_TRAIN ≠ 0)
    (hwin : u32 p.hystart_low_window ≤ sk.tp.snd_cwnd)
    (hnr : after sk.tp.snd_una sk.ca.end_seq = false)
    (hpace : sk.sk_pacing_status = SK_PACING_NONE)
    (hsp : s32 (sub32 (bictcp_clock_us sk) sk.ca.last_ack) ≤ p.hystart_ack_delta_us)
    (hel : sub32 (bictcp_clock_us sk) sk.ca.round_start >
      sk.ca.delay_min / 2 + hystart_ack_delay sk) :
    (hystart_update p sk delay).ca.found = 1 ∧
    (hystart_update p sk delay).tp.snd_ssthresh = (hystart_update p sk delay).tp.snd_cwnd ∧
    (¬ (sk.ca.suss_flag = 1 ∧ sk.tp.snd_cwnd > sk.ca.suss_cap) →
      (hystart_update p sk delay).tp.snd_cwnd = sk.tp.snd_cwnd) ∧
    hystart_ack_delay sk ≤ 1000 ∧ (sk.sk_pacing_rate = 0 → hystart_ack_delay sk = 0) := by
  have htrain : (hystart_ack_train p sk).ca.found = 1 ∧
      (hystart_ack_train p sk).tp.snd_ssthresh = (hystart_ack_train p sk).tp.snd_cwnd ∧
      (¬ (sk.ca.suss_flag = 1 ∧ sk.tp.snd_cwnd > sk.ca.suss_cap) →
        (hystart_ack_train p sk).tp.snd_cwnd = sk.tp.snd_cwnd ∧
        (hystart_ack_train p sk).tp.suss_state = 10) := by
    unfold hystart_ack_train
    dsimp only
    by_cases hc : sk.ca.suss_flag = 1 ∧ sk.tp.snd_cwnd > sk.ca.suss_cap
    · rw [(suss_cap_disabled p sk hs).1 hc]
      have e3 : (suss_cap_enforce sk).tp.suss_state = 3 := by
        unfold suss_cap_enforce
        dsimp only
        split_ifs <;> rfl
      rw [if_neg (by rw [e3]; decide)]
      refine ⟨?_, ?_, fun hn => absurd hc hn⟩
      · unfold suss_cap_enforce
        dsimp only
        split_ifs <;> rfl
      · rfl
    · rw [(suss_cap_disabled p sk hs).2 hc, if_pos hs, plain_train_exit p sk _ hsp hpace hel]
      exact ⟨rfl, rfl, fun _ => ⟨rfl, hs⟩⟩
  have hu : hystart_update p sk delay =
      (if (u32 p.hystart_detect) &&& HYSTART_DELAY ≠ 0 then
        hystart_delay (hystart_ack_train p sk) delay
      else hystart_ack_train p sk) := by
    unfold hystart_update
    dsimp only
    rw [hnr]
    simp only [Bool.false_eq_true, if_false]
    rw [if_neg (by unfold tcp_snd_cwnd; omega), if_pos hdet]
  rw [hu]
  refine ⟨?_, ?_, fun hn => ?_, hystart_ack_delay_le sk⟩
  · split_ifs
    · exact (hystart_delay_exit_kept _ delay htrain.1 htrain.2.1).1
    · exact htrain.1
  · split_ifs
    · exact (hystart_delay_exit_kept _ delay htrain.1 htrain.2.1).2.1
    · exact htrain.2.1
  · split_ifs
    · rw [(hystart_delay_exit_kept _ delay htrain.1 htrain.2.1).2.2 (htrain.2.2 hn).2]
      exact (htrain.2.2 hn).1
    · exact (htrain.2.2 hn).1

theorem hystart_ack_train_exit_witness :
    (hystart_update Params.default (sock.trainRound SK_PACING_NONE) 8000).ca.found = 1 ∧
    (hystart_update Params.default (sock.trainRound SK_PACING_NONE) 8000).tp.snd_ssthresh = 20 := by
  have h := hystart_ack_train_exit Params.default (sock.trainRound SK_PACING_NONE) 8000
    (by decide) (by decide) (by decide) (by decide) (by decide) (by decide) (by decide)
  exact ⟨h.1, by rw [h.2.1, h.2.2.1 (by decide)]; decide⟩

/-- C19: the ACK-train block of `hystart_update` is `suss_cap` followed by the plain
ACK-train check guarded by `suss_state == 10`. Whenever `suss_state` is not 10 after the
cap check, and in particular whenever it is not 10 at the call, the block is `suss_cap`
alone, so that its effect on `found`, `snd_ssthresh`, `snd_cwnd`, `last_ack` and on every
other field is the effect of `suss_cap`, and the whole `hystart_update` is `suss_cap`
followed by the delay detector; the plain check is evaluated only when `suss_state = 10`
after the cap check, which requires `suss_state = 10` at the call. -/
theorem ack_train_superseded (p : Params) (sk : sock) (delay : Nat) :
    ((suss_cap p sk).tp.suss_state ≠ 10 → hystart_ack_train p sk = suss_cap p sk) ∧
    (sk.tp.suss_state ≠ 10 → hystart_ack_train p sk = suss_cap p sk) ∧
    (hystart_ack_train p sk ≠ suss_cap p sk →
      sk.tp.suss_state = 10 ∧ (suss_cap p sk).tp.suss_state = 10) ∧
    ((suss_cap p sk).tp.suss_state = 10 →
      hystart_ack_train p sk = hystart_plain_train p (suss_cap p sk) (bictcp_clock_us sk)) ∧
    (sk.tp.suss_state ≠ 10 → (u32 p.hystart_detect) &&& HYSTART_ACK_TRAIN ≠ 0 →
      u32 p.hystart_low_window ≤ sk.tp.snd_cwnd → after sk.tp.snd_una sk.ca.end_seq = false →
      hystart_update p sk delay =
        (if (u32 p.hystart_detect) &&& HYSTART_DELAY ≠ 0 then hystart_delay (suss_cap p sk) delay
          else suss_cap p sk)) := by
  have hcap : sk.tp.suss_state ≠ 10 → (suss_cap p sk).tp.suss_state ≠ 10 := by
    intro hne
    unfold suss_cap suss_cap_enforce suss_cap_arm
    dsimp only
    split_ifs <;> (try dsimp only) <;> first | exact hne | decide
  have h1 : (suss_cap p sk).tp.suss_state ≠ 10 → hystart_ack_train p sk = suss_cap p sk := by
    intro hne
    unfold hystart_ack_train
    dsimp only
    rw [if_neg hne]
  have h4 : (suss_cap p sk).tp.suss_state = 10 →
      hystart_ack_train p sk = hystart_plain_train p (suss_cap p sk) (bictcp_clock_us sk) := by
    intro he
    unfold hystart_ack_train
    dsimp only
    rw [if_pos he]
  refine ⟨h1, fun hne => h1 (hcap hne), fun hd => ?_, h4, fun hne hdet hwin hnr => ?_⟩
  · by_cases ha : (suss_cap p sk).tp.suss_state = 10
    · refine ⟨?_, ha⟩
      by_contra hb
      exact hcap hb ha
    · exact absurd (h1 ha) hd
  · unfold hystart_update
    dsimp only
    rw [hnr]
    simp only [Bool.false_eq_true, if_false]
    rw [if_neg (by unfold tcp_snd_cwnd; omega), if_pos hdet, h1 (hcap hne)]

theorem ack_train_superseded_witness :
    sock.overCap.tp.suss_state ≠ 10 ∧
    hystart_ack_train Params.sussOn sock.overCap = suss_cap Params.sussOn sock.overCap ∧
    (hystart_ack_train Params.sussOn sock.overCap).ca.found = 1 ∧
    (hystart_ack_train Params.sussOn sock.overCap).ca.last_ack = sock.overCap.ca.last_ack :=
  ⟨by decide, (ack_train_superseded Params.sussOn sock.overCap 30000).2.1 (by decide),
    by decide, by decide⟩

/-! ## Minimum delay across the other handlers -/

theorem cong_avoid_env_delay_min (K : Kernel) (p : Params) (d : Scales)
    (jiffies ack acked : Nat) (s : sock) :
    (cong_avoid_env K p d jiffies ack acked s).ca.delay_min = s.ca.delay_min := by
  unfold cong_avoid_env
  cases h : cubictcp_cong_avoid K p d jiffies s ack acked with
  | none => rfl
  | some sk' => exact cong_avoid_delay_min K p d jiffies s sk' ack acked h

/-- C6 (amended): starting from `delay_min = 0` (as after a reset), after any sequence
of RTT samples delivered to `cubictcp_acked`, whatever the other handlers and the
transport do between the samples short of changing `delay_min`, `delay_min` is the
minimum, over the samples that were taken into account, of the sample raised to at
least 1 microsecond, and 0 when none was taken into account; a sample is taken into
account when it has a timestamp (`rtt_us >= 0`) and does not arrive within `HZ` jiffies
after the start of the epoch that is set when it is delivered. When the steps between
the samples leave `epoch_start` alone, that epoch is the one of the start of the run;
in particular, with the epoch unset and all samples at least 1, `delay_min` is the
minimum of all the samples. -/
theorem acked_run_delay_min (K : Kernel) (p : Params) (sk : sock) (es : List RttEvent)
    (h0 : sk.ca.delay_min = 0)
    (henv : ∀ e ∈ es, ∀ s : sock, (e.env s).ca.delay_min = s.ca.delay_min)
    (hr : ∀ e ∈ es, e.rtt_us < 2147483648) :
    (acked_run K p sk es).ca.delay_min = samples_min (accepted_delays K p sk es) ∧
    ((∀ e ∈ es, ∀ s : sock, (e.env s).ca.epoch_start = s.ca.epoch_start) →
      (acked_run K p sk es).ca.delay_min =
        samples_min ((es.filter (sample_accepted K sk.ca.epoch_start)).map sample_delay)) ∧
    ((∀ e ∈ es, ∀ s : sock, (e.env s).ca.epoch_start = s.ca.epoch_start) →
      sk.ca.epoch_start = 0 → (∀ e ∈ es, 1 ≤ e.rtt_us) →
      (acked_run K p sk es).ca.delay_min = samples_min (es.map fun e => e.rtt_us.toNat)) := by
  have main : (acked_run K p sk es).ca.delay_min = samples_min (accepted_delays K p sk es) := by
    rw [acked_run_steps K p es sk henv hr, h0]
    exact foldl_step_zero _ (accepted_delays_pos K p es sk)
  have fixed : (∀ e ∈ es, ∀ s : sock, (e.env s).ca.epoch_start = s.ca.epoch_start) →
      (acked_run K p sk es).ca.delay_min =
        samples_min ((es.filter (sample_accepted K sk.ca.epoch_start)).map sample_delay) := by
    intro hep
    rw [main, accepted_delays_fixed K p es sk hep hr]
  refine ⟨main, fixed, fun hfix hep hpos => ?_⟩
  rw [fixed hfix, hep]
  have hall : es.filter (sample_accepted K 0) = es := by
    rw [List.filter_eq_self]
    intro e he
    have := hpos e he
    unfold sample_accepted
    simp
    omega
  rw [hall]
  congr 1
  apply List.map_congr_left
  intro e he
  have := hpos e he
  unfold sample_delay
  omega

theorem acked_run_delay_min_witness :
    (cubictcp_init Params.default sock.fresh).ca.delay_min = 0 ∧
    (acked_run Kernel.sample Params.default (cubictcp_init Params.default sock.fresh)
      epoch_samples).ca.delay_min = 25000 ∧
    (acked_run Kernel.sample Params.default (cubictcp_init Params.default sock.fresh)
      (epoch_samples.take 2)).ca.delay_min = 30000 ∧
    (acked_run Kernel.sample Params.default (cubictcp_init Params.default sock.fresh)
      (epoch_samples.take 2)).ca.epoch_start = 1001 ∧
    accepted_delays Kernel.sample Params.default (cubictcp_init Params.default sock.fresh)
      epoch_samples = [30000, 25000] :=
  ⟨rfl, ((acked_run_delay_min Kernel.sample Params.default
      (cubictcp_init Params.default sock.fresh) epoch_samples rfl
      (by
        intro e he s
        simp only [epoch_samples, List.mem_cons, List.mem_singleton, List.not_mem_nil,
          or_false] at he
        rcases he with rfl | rfl | rfl
        · rfl
        · exact cong_avoid_env_delay_min _ _ _ _ _ _ s
        · rfl)
      (by decide)).1).trans (by decide), by decide, by decide, by decide⟩

/-! ## TCP friendliness -/

theorem friendliness_bound (p : Params) (d : Scales) (ca ca' : bictcp) (cwnd : Nat)
    (hfr : p.tcp_friendliness ≠ 0) (h : bictcp_friendliness p d ca cwnd = some ca')
    (hgt : ca'.tcp_cwnd > cwnd) : ca'.cnt ≤ max (cwnd / (ca'.tcp_cwnd - cwnd)) 2 := by
  unfold bictcp_friendliness at h
  dsimp only at h
  rw [if_pos hfr, Option.bind_eq_some] at h
  obtain ⟨r, _, h⟩ := h
  simp only [Option.some.injEq] at h
  subst h
  by_cases hc : r.2 > cwnd
  · rw [if_pos hc]
    split_ifs with hm
    · exact Nat.le_refl _
    · dsimp only
      have : ca.cnt ≤ cwnd / (r.2 - cwnd) := by omega
      omega
  · exfalso
    rw [if_neg hc] at hgt
    exact hc hgt

/-- C20: for a call of `bictcp_update` that does not take the coalescing early return,
with TCP friendliness on: if the TCP-friendly estimate `tcp_cwnd` after the call exceeds
`cwnd`, the resulting credit `cnt` is at most `max(cwnd / (tcp_cwnd - cwnd), 2)`. With the
default `beta_scale` of 15 the call returns for every window from 1 to 2290649224. -/
theorem friendly_credit_bound (K : Kernel) (p : Params) (d : Scales) (jiffies : Nat)
    (ca : bictcp) (cwnd acked : Nat) (hfr : p.tcp_friendliness ≠ 0)
    (hco : ¬ (ca.last_cwnd = cwnd ∧
      s32 (sub32 jiffies ca.last_time) ≤ ((K.HZ / 32 : Nat) : Int))) :
    (∀ ca', bictcp_update K p d jiffies ca cwnd acked = some ca' → ca'.tcp_cwnd > cwnd →
      ca'.cnt ≤ max (cwnd / (ca'.tcp_cwnd - cwnd)) 2) ∧
    (d.beta_scale = 15 → 1 ≤ cwnd → cwnd < 2290649225 →
      ∃ ca', bictcp_update K p d jiffies ca cwnd acked = some ca') := by
  constructor
  · intro ca' h hgt
    unfold bictcp_update at h
    dsimp only at h
    rw [if_neg hco] at h
    split_ifs at h
    · exact friendliness_bound p d _ ca' cwnd hfr h hgt
    · rw [Option.bind_eq_some] at h
      obtain ⟨c, _, h⟩ := h
      exact friendliness_bound p d _ ca' cwnd hfr h hgt
  · intro hb h1 h2
    have hd : 1 ≤ ((cwnd * d.beta_scale) % 4294967296) >>> 3 := by
      have e : (2 : Nat) ^ 3 = 8 := by norm_num
      rw [hb, Nat.shiftRight_eq_div_pow, e]
      exact friendly_step_pos cwnd h1 h2
    exact update_isSome K p d jiffies ca cwnd acked hd

theorem friendly_credit_bound_witness :
    ∃ ca', bictcp_update Kernel.sample Params.default Scales.default 1050
        bictcp.afterFirstUpdate 10 100 = some ca' ∧ ca'.tcp_cwnd = 16 ∧ ca'.cnt = 2 ∧
      ca'.cnt ≤ max (10 / (ca'.tcp_cwnd - 10)) 2 := by
  have hs : bictcp_update Kernel.sample Params.default Scales.default 1050
      bictcp.afterFirstUpdate 10 100 =
      some { bictcp.afterFirstUpdate with
        cnt := 2, last_time := 1050, ack_cnt := 2, tcp_cwnd := 16 } := by decide
  refine ⟨_, hs, rfl, rfl, ?_⟩
  exact (friendly_credit_bound Kernel.sample Params.default Scales.default 1050
    bictcp.afterFirstUpdate 10 100 (by decide) (by decide)).1 _ hs (by decide)

/-! ## The disabled phase -/

theorem bictcp_friendliness_ase (p : Params) (d : Scales) (ca ca' : bictcp) (cwnd : Nat)
    (h : bictcp_friendliness p d ca cwnd = some ca') : ca_ase ca' = ca_ase ca := by
  unfold bictcp_friendliness at h
  dsimp only at h
  split_ifs at h
  · rw [Option.bind_eq_some] at h
    obtain ⟨r, _, h⟩ := h
    simp only [Option.some.injEq] at h
    subst h
    split_ifs <;> rfl
  · simp only [Option.some.injEq] at h
    subst h
    rfl

theorem bictcp_epoch_ase (d : Scales) (jiffies : Nat) (ca ca' : bictcp) (cwnd acked : Nat)
    (h : bictcp_epoch d jiffies ca cwnd acked = some ca') : ca_ase ca' = ca_ase ca := by
  unfold bictcp_epoch at h
  dsimp only at h
  split_ifs at h
  · simp only [Option.some.injEq] at h
    subst h
    rfl
  · rw [Option.bind_eq_some] at h
    obtain ⟨k, _, h⟩ := h
    simp only [Option.some.injEq] at h
    subst h
    rfl
  · simp only [Option.some.injEq] at h
    subst h
    rfl

theorem bictcp_cubic_ase (K : Kernel) (d : Scales) (jiffies : Nat) (ca : bictcp) (cwnd : Nat) :
    ca_ase (bictcp_cubic K d jiffies ca cwnd) = ca_ase ca := rfl

theorem upd_ack_cnt_ase (ca : bictcp) (v : Nat) :
    ca_ase { ca with ack_cnt := v } = ca_ase ca := rfl

theorem upd_last_ase (ca : bictcp) (v w : Nat) :
    ca_ase { ca with last_cwnd := v, last_time := w } = ca_ase ca := rfl

theorem bictcp_update_ase (K : Kernel) (p : Params) (d : Scales) (jiffies : Nat)
    (ca ca' : bictcp) (cwnd acked : Nat)
    (h : bictcp_update K p d jiffies ca cwnd acked = some ca') : ca_ase ca' = ca_ase ca := by
  unfold bictcp_update at h
  conv at h => zeta
  split_ifs at h
  · simp only [Option.some.injEq] at h
    subst h
    exact upd_ack_cnt_ase _ _
  · exact (bictcp_friendliness_ase _ _ _ _ _ h).trans (upd_ack_cnt_ase _ _)
  · rw [Option.bind_eq_some] at h
    obtain ⟨c, hc, h⟩ := h
    exact (bictcp_friendliness_ase _ _ _ _ _ h).trans
      ((bictcp_cubic_ase _ _ _ _ _).trans
        ((bictcp_epoch_ase _ _ _ _ _ _ hc).trans
          ((upd_last_ase _ _ _).trans (upd_ack_cnt_ase _ _))))

theorem cong_avoid_grow_ase (K : Kernel) (p : Params) (d : Scales) (jiffies : Nat)
    (hK : K.window_only) (sk sk' : sock) (acked : Nat)
    (h : cong_avoid_grow K p d jiffies sk acked = some sk') :
    ca_ase sk'.ca = ca_ase sk.ca ∧ sk'.tp.suss_state = sk.tp.suss_state ∧
      sk'.tp.snd_wnd = sk.tp.snd_wnd := by
  unfold cong_avoid_grow at h
  conv at h => zeta
  split_ifs at h
  · simp only [Option.some.injEq] at h
    subst h
    exact ⟨rfl, rfl, rfl⟩
  · simp only [Option.some.injEq] at h
    subst h
    exact ⟨rfl, (hK.1 _ _).1, (hK.1 _ _).2⟩
  · rw [Option.bind_eq_some] at h
    obtain ⟨c, hc, h⟩ := h
    simp only [Option.some.injEq] at h
    subst h
    exact ⟨bictcp_update_ase _ _ _ _ _ _ _ _ hc, ((hK.2 _ _ _).1).trans (hK.1 _ _).1,
      ((hK.2 _ _ _).2).trans (hK.1 _ _).2⟩
  · rw [Option.bind_eq_some] at h
    obtain ⟨c, hc, h⟩ := h
    simp only [Option.some.injEq] at h
    subst h
    exact ⟨bictcp_update_ase _ _ _ _ _ _ _ _ hc, (hK.2 _ _ _).1, (hK.2 _ _ _).2⟩

theorem suss_clocking_disabled (sk : sock) (hs : sk.tp.suss_state = 10) : suss_clocking sk = sk := by
  unfold suss_clocking
  rw [if_neg (by omega)]

theorem upd_snd_wnd_ase (s : sock) (v : Nat) :
    ca_ase ({ s with tp := { s.tp with snd_wnd := v } } : sock).ca = ca_ase s.ca ∧
    ({ s with tp := { s.tp with snd_wnd := v } } : sock).tp.suss_state = s.tp.suss_state :=
  ⟨rfl, rfl⟩

theorem cong_avoid_disabled (K : Kernel) (p : Params) (d : Scales) (jiffies : Nat)
    (hK : K.window_only) (sk sk' : sock) (ack acked : Nat) (hs : sk.tp.suss_state = 10)
    (h : cubictcp_cong_avoid K p d jiffies sk ack acked = some sk') :
    ca_ase sk'.ca = ca_ase sk.ca ∧ sk'.tp.suss_state = 10 := by
  rw [cubictcp_cong_avoid_eq, suss_clocking_disabled sk hs, if_neg (by omega),
    Option.some_bind] at h
  have e := cong_avoid_grow_ase K p d jiffies hK _ _ _ h
  exact ⟨e.1.trans (upd_snd_wnd_ase sk _).1, (e.2.1.trans (upd_snd_wnd_ase sk _).2).trans hs⟩

theorem suss_cap_idle (p : Params) (sk : sock) (hs : sk.tp.suss_state = 10)
    (hf : sk.ca.suss_flag = 0) : suss_cap p sk = sk := by
  unfold suss_cap
  dsimp only
  rw [if_neg (by omega), if_neg (by omega)]

theorem hystart_plain_train_ase (p : Params) (sk : sock) (now : Nat) :
    ca_ase (hystart_plain_train p sk now).ca = ca_ase sk.ca ∧
    (hystart_plain_train p sk now).tp.suss_state = sk.tp.suss_state := by
  unfold hystart_plain_train
  dsimp only
  split_ifs <;> exact ⟨rfl, rfl⟩

theorem hystart_delay_ase (sk : sock) (delay : Nat) (hs : sk.tp.suss_state = 10) :
    ca_ase (hystart_delay sk delay).ca = ca_ase sk.ca ∧
    (hystart_delay sk delay).tp.suss_state = 10 := by
  unfold hystart_delay
  dsimp only
  split_ifs with h1 h2 h3 h4 h5 h6 <;>
    first
    | exact ⟨rfl, hs⟩
    | (exfalso; (try dsimp only at *); omega)

theorem hystart_update_disabled (p : Params) (sk : sock) (delay : Nat)
    (hs : sk.tp.suss_state = 10) (hf : sk.ca.suss_flag = 0) :
    ca_ase (hystart_update p sk delay).ca = ca_ase sk.ca ∧
    (hystart_update p sk delay).tp.suss_state = 10 := by
  have h0 : ∀ s0 : sock,
      s0 = (if after sk.tp.snd_una sk.ca.end_seq then bictcp_hystart_reset sk else sk) →
      ca_ase s0.ca = ca_ase sk.ca ∧ s0.tp.suss_state = 10 ∧ s0.ca.suss_flag = 0 := by
    intro s0 e
    rw [e]
    split_ifs
    · exact ⟨rfl, hs, hf⟩
    · exact ⟨rfl, hs, hf⟩
  unfold hystart_update
  dsimp only
  generalize (if after sk.tp.snd_una sk.ca.end_seq then bictcp_hystart_reset sk else sk) = s0 at h0
  obtain ⟨a0, b0, c0⟩ := h0 s0 rfl
  have ht : ca_ase (hystart_ack_train p s0).ca = ca_ase sk.ca ∧
      (hystart_ack_train p s0).tp.suss_state = 10 := by
    unfold hystart_ack_train
    dsimp only
    rw [suss_cap_idle p s0 b0 c0, if_pos b0]
    exact ⟨(hystart_plain_train_ase p s0 _).1.trans a0, (hystart_plain_train_ase p s0 _).2.trans b0⟩
  split_ifs <;>
    first
    | exact ⟨a0, b0⟩
    | exact ⟨(hystart_delay_ase _ delay ht.2).1.trans ht.1, (hystart_delay_ase _ delay ht.2).2⟩
    | exact ht
    | exact ⟨(hystart_delay_ase _ delay b0).1.trans a0, (hystart_delay_ase _ delay b0).2⟩

theorem acked_disabled (K : Kernel) (p : Params) (jiffies : Nat) (sk : sock) (rtt_us : Int)
    (hs : sk.tp.suss_state = 10) (hf : sk.ca.suss_flag = 0) :
    ca_ase (cubictcp_acked K p jiffies sk rtt_us).ca = ca_ase sk.ca ∧
    (cubictcp_acked K p jiffies sk rtt_us).tp.suss_state = 10 := by
  unfold cubictcp_acked
  by_cases h1 : rtt_us < 0
  · rw [if_pos h1]
    exact ⟨rfl, hs⟩
  · rw [if_neg h1]
    by_cases h2 : sk.ca.epoch_start ≠ 0 ∧ s32 (sub32 jiffies sk.ca.epoch_start) < (K.HZ : Int)
    · rw [if_pos h2]
      exact ⟨rfl, hs⟩
    · rw [if_neg h2]
      dsimp only
      generalize (if u32 rtt_us = 0 then 1 else u32 rtt_us) = v
      have hm : ∀ s1 : sock,
          s1 = (if sk.ca.delay_min = 0 ∨ sk.ca.delay_min > v then
            ({ sk with ca := { sk.ca with
                delay_min := v, suss_r_minupdate := sk.ca.suss_round_no } } : sock)
          else sk) →
          ca_ase s1.ca = ca_ase sk.ca ∧ s1.tp.suss_state = 10 ∧ s1.ca.suss_flag = 0 := by
        intro s1 e
        rw [e]
        split_ifs
        · exact ⟨rfl, hs, hf⟩
        · exact ⟨rfl, hs, hf⟩
      generalize (if sk.ca.delay_min = 0 ∨ sk.ca.delay_min > v then
        ({ sk with ca := { sk.ca with delay_min := v, suss_r_minupdate := sk.ca.suss_round_no } }
          : sock)
      else sk) = s1 at hm ⊢
      obtain ⟨a1, b1, c1⟩ := hm s1 rfl
      split_ifs
      · exact ⟨(hystart_update_disabled p s1 v b1 c1).1.trans a1,
          (hystart_update_disabled p s1 v b1 c1).2⟩
      · exact ⟨a1, b1⟩

theorem ca_ase_fields (a b : bictcp) (h : ca_ase a = ca_ase b) :
    a.suss_round_no = b.suss_round_no ∧ a.suss_gf = b.suss_gf ∧
    a.suss_is_blue = b.suss_is_blue ∧ a.suss_blue_cnt = b.suss_blue_cnt ∧
    a.suss_head_seq = b.suss_head_seq ∧ a.suss_tail_seq = b.suss_tail_seq ∧
    a.suss_flag = b.suss_flag ∧ a.suss_cap = b.suss_cap ∧
    a.suss_num_of_jump = b.suss_num_of_jump := by
  unfold ca_ase at h
  simp only [List.cons.injEq, and_true] at h
  exact h

theorem call_disabled (K : Kernel) (p : Params) (d : Scales) (hK : K.window_only) (c : Call)
    (hc : c ≠ Call.init) (hm : ∀ a k, c ≠ Call.measurements a k) (sk sk' : sock)
    (hs : sk.tp.suss_state = 10) (hf : sk.ca.suss_flag = 0) (h : c.run K p d sk = some sk') :
    ca_ase sk'.ca = ca_ase sk.ca ∧ sk'.tp.suss_state = 10 := by
  cases c with
  | init => exact absurd rfl hc
  | cong_avoid j a k => exact cong_avoid_disabled K p d j hK sk sk' a k hs h
  | measurements a k => exact absurd rfl (hm a k)
  | pkts_acked j r =>
    simp only [Call.run, Option.some.injEq] at h
    subst h
    exact acked_disabled K p j sk r hs hf
  | hystart dl =>
    simp only [Call.run, Option.some.injEq] at h
    subst h
    exact hystart_update_disabled p sk dl hs hf
  | cap =>
    simp only [Call.run, Option.some.injEq] at h
    subst h
    rw [suss_cap_idle p sk hs hf]
    exact ⟨rfl, hs⟩
  | ssthresh =>
    simp only [Call.run, Option.some.injEq] at h
    subst h
    unfold cubictcp_recalc_ssthresh
    dsimp only
    split_ifs <;> exact ⟨rfl, hs⟩
  | set_state n =>
    simp only [Call.run, Option.some.injEq] at h
    subst h
    unfold cubictcp_state
    split_ifs <;> exact ⟨rfl, hs⟩
  | cwnd_event j ev =>
    simp only [Call.run, Option.some.injEq] at h
    subst h
    unfold cubictcp_cwnd_event
    dsimp only
    split_ifs <;> exact ⟨rfl, hs⟩

theorem run_disabled (K : Kernel) (p : Params) (d : Scales) (hK : K.window_only)
    (es : List Step) :
    ∀ sk sk' : sock,
      (∀ e ∈ es, ∀ s : sock, (e.env s).ca = s.ca ∧ (e.env s).tp.suss_state = s.tp.suss_state) →
      (∀ e ∈ es, e.call ≠ Call.init ∧ ∀ a k, e.call ≠ Call.measurements a k) →
      sk.tp.suss_state = 10 → sk.ca.suss_flag = 0 → run_calls K p d sk es = some sk' →
      ca_ase sk'.ca = ca_ase sk.ca ∧ sk'.tp.suss_state = 10 := by
  induction es with
  | nil =>
    intro sk sk' _ _ hs _ h
    simp only [run_calls, Option.some.injEq] at h
    subst h
    exact ⟨rfl, hs⟩
  | cons e es ih =>
    intro sk sk' henv hcall hs hf h
    rw [run_calls, Option.bind_eq_some] at h
    obtain ⟨s1, h1, h⟩ := h
    have he := henv e (List.mem_cons_self _ _) sk
    have hce := hcall e (List.mem_cons_self _ _)
    have h0 := call_disabled K p d hK e.call hce.1 hce.2 (e.env sk) s1 (he.2.trans hs)
      (by rw [he.1]; exact hf) h1
    rw [he.1] at h0
    have hf1 : s1.ca.suss_flag = 0 := ((ca_ase_fields _ _ h0.1).2.2.2.2.2.2.1).trans hf
    have h2 := ih s1 sk' (fun e' h' => henv e' (List.mem_cons_of_mem _ h'))
      (fun e' h' => hcall e' (List.mem_cons_of_mem _ h')) h0.2 hf1 h
    exact ⟨h2.1.trans h0.1, h2.2⟩

/-- C21: Disabled is absorbing. From a state with `suss_state = 10` and the cap not
armed, along every sequence of calls other than `cubictcp_init` (per-ACK calls
`cubictcp_cong_avoid`, RTT samples, `hystart_update`, `suss_cap`,
`cubictcp_recalc_ssthresh`, state changes with the loss state among them, window events
with the idle resume among them; `suss_measurements` is only called by
`cubictcp_cong_avoid`), with the transport leaving the private area and `suss_state`
alone between calls and the kernel's `tcp_slow_start` and `tcp_cong_avoid_ai` leaving
`suss_state` alone, the phase stays `suss_state = 10` and the round number, `suss_gf`,
`suss_is_blue`, the lead-ACK count, the head and tail bounds, the cap flag, the cap
value and the jump count are unchanged. -/
theorem disabled_absorbing (K : Kernel) (p : Params) (d : Scales) (hK : K.window_only)
    (sk sk' : sock) (es : List Step)
    (henv : ∀ e ∈ es, ∀ s : sock,
      (e.env s).ca = s.ca ∧ (e.env s).tp.suss_state = s.tp.suss_state)
    (hcall : ∀ e ∈ es, e.call ≠ Call.init ∧ ∀ a k, e.call ≠ Call.measurements a k)
    (hs : sk.tp.suss_state = 10) (hf : sk.ca.suss_flag = 0)
    (h : run_calls K p d sk es = some sk') :
    sk'.tp.suss_state = 10 ∧ sk'.ca.suss_round_no = sk.ca.suss_round_no ∧
    sk'.ca.suss_gf = sk.ca.suss_gf ∧ sk'.ca.suss_is_blue = sk.ca.suss_is_blue ∧
    sk'.ca.suss_blue_cnt = sk.ca.suss_blue_cnt ∧
    sk'.ca.suss_head_seq = sk.ca.suss_head_seq ∧ sk'.ca.suss_tail_seq = sk.ca.suss_tail_seq ∧
    sk'.ca.suss_flag = 0 ∧ sk'.ca.suss_cap = sk.ca.suss_cap ∧
    sk'.ca.suss_num_of_jump = sk.ca.suss_num_of_jump := by
  obtain ⟨hv, hst⟩ := run_disabled K p d hK es sk sk' henv hcall hs hf h
  obtain ⟨a1, a2, a3, a4, a5, a6, a7, a8, a9⟩ := ca_ase_fields _ _ hv
  exact ⟨hst, a1, a2, a3, a4, a5, a6, a7.trans hf, a8, a9⟩

theorem disabled_absorbing_witness :
    ∃ s sk' : sock,
      suss_measurements Params.sussOn (sock.tailAck 5400) 11000 1 = some s ∧
      s.tp.suss_state = 10 ∧ s.ca.suss_flag = 0 ∧
      run_calls Kernel.sample Params.sussOn Scales.default s disabled_steps = some sk' ∧
      sk'.tp.suss_state = 10 ∧ sk'.ca.suss_round_no = s.ca.suss_round_no ∧
      sk'.ca.suss_round_no = 2 ∧ sk'.tp.snd_cwnd = 13 := by
  have hK : Kernel.sample.window_only := ⟨fun _ _ => ⟨rfl, rfl⟩, fun _ _ _ => ⟨rfl, rfl⟩⟩
  have hs : ((suss_measurements Params.sussOn (sock.tailAck 5400) 11000 1).bind fun s =>
      run_calls Kernel.sample Params.sussOn Scales.default s disabled_steps).isSome = true := by
    decide
  obtain ⟨sk', h⟩ := Option.isSome_iff_exists.mp hs
  rw [Option.bind_eq_some] at h
  obtain ⟨s, h1, h2⟩ := h
  have hf : (suss_measurements Params.sussOn (sock.tailAck 5400) 11000 1).map
      (fun s => [s.tp.suss_state, s.ca.suss_flag, s.ca.suss_round_no]) = some [10, 0, 2] := by
    decide
  rw [h1] at hf
  have hl := Option.some.inj hf
  simp only [List.cons.injEq, and_true] at hl
  have hg : ((suss_measurements Params.sussOn (sock.tailAck 5400) 11000 1).bind fun s =>
      run_calls Kernel.sample Params.sussOn Scales.default s disabled_steps).map
      (fun s => s.tp.snd_cwnd) = some 13 := by decide
  rw [h1, Option.some_bind, h2] at hg
  have hd := disabled_absorbing Kernel.sample Params.sussOn Scales.default hK s sk'
    disabled_steps
    (by
      intro e he s
      simp only [disabled_steps, List.mem_cons, List.mem_singleton, List.not_mem_nil,
        or_false] at he
      rcases he with rfl | rfl | rfl | rfl | rfl <;> exact ⟨rfl, rfl⟩)
    (by
      intro e he
      simp only [disabled_steps, List.mem_cons, List.mem_singleton, List.not_mem_nil,
        or_false] at he
      rcases he with rfl | rfl | rfl | rfl | rfl <;>
        exact ⟨by decide, fun _ _ hq => Call.noConfusion hq⟩)
    hl.1 hl.2.1 h2
  exact ⟨s, sk', h1, hl.1, hl.2.1, h2, hd.1, hd.2.1, hd.2.1.trans hl.2.2, Option.some.inj hg⟩

/-! ## Idle resume -/

theorem sub32_self (n : Nat) : sub32 n n = 0 := by
  unfold sub32
  omega

theorem s32_lt (n : Nat) : s32 n < 2147483648 := by
  unfold s32
  split_ifs <;> omega

theorem epoch_shift_arith (now e0 : Nat) (dl : Int) (hd0 : 0 < dl) (hd1 : dl < 2147483648) :
    sub32 now ((e0 + u32 dl) % 4294967296) = sub32 (sub32 now e0) (u32 dl) ∧
    (0 ≤ s32 (sub32 now e0) →
      (0 ≤ s32 (sub32 now ((e0 + u32 dl) % 4294967296)) ↔ dl ≤ s32 (sub32 now e0)) ∧
      (dl ≤ s32 (sub32 now e0) →
        s32 (sub32 now ((e0 + u32 dl) % 4294967296)) = s32 (sub32 now e0) - dl)) := by
  have hu : ((u32 dl : Nat) : Int) = dl := by
    unfold u32
    omega
  generalize u32 dl = n at *
  unfold s32 sub32
  refine ⟨?_, fun h0 => ⟨?_, fun _ => ?_⟩⟩
  · omega
  · split_ifs at h0 ⊢ <;> omega
  · split_ifs at h0 ⊢ <;> omega

/-- C22: on the idle-resume event (`cubictcp_cwnd_event` with `CA_EVENT_TX_START`), with
the idle gap `delta = (s32)(now - lsndtime)`: if the epoch is set and `delta > 0`,
`epoch_start` becomes `epoch_start + delta` (a `u32` sum), except that it becomes `now`
when the sum is after `now`, and nothing else changes; the elapsed epoch time
`(s32)(now - epoch_start)` is then never negative, it is the old elapsed time less the gap
in `u32` when the sum is kept, and, for an epoch that did not start after `now`, it is
the old elapsed time less the gap, or 0 when that is negative. If the epoch is unset or
`delta <= 0`, and for every other event, the state is unchanged. -/
theorem idle_resume_shifts_epoch (jiffies : Nat) (sk : sock) (event : Nat) :
    (event = CA_EVENT_TX_START → sk.ca.epoch_start ≠ 0 →
      0 < s32 (sub32 jiffies sk.tp.lsndtime) →
      ∀ e : Nat,
        e = (sk.ca.epoch_start + u32 (s32 (sub32 jiffies sk.tp.lsndtime))) % 4294967296 →
        cubictcp_cwnd_event jiffies sk event =
          { sk with ca := { sk.ca with epoch_start := if after e jiffies then jiffies else e } } ∧
        0 ≤ s32 (sub32 jiffies (cubictcp_cwnd_event jiffies sk event).ca.epoch_start) ∧
        (after e jiffies = false →
          (cubictcp_cwnd_event jiffies sk event).ca.epoch_start = e ∧
          sub32 jiffies (cubictcp_cwnd_event jiffies sk event).ca.epoch_start =
            sub32 (sub32 jiffies sk.ca.epoch_start) (u32 (s32 (sub32 jiffies sk.tp.lsndtime)))) ∧
        (0 ≤ s32 (sub32 jiffies sk.ca.epoch_start) →
          s32 (sub32 jiffies (cubictcp_cwnd_event jiffies sk event).ca.epoch_start) =
            max (s32 (sub32 jiffies sk.ca.epoch_start) - s32 (sub32 jiffies sk.tp.lsndtime)) 0)) ∧
    (¬ (event = CA_EVENT_TX_START ∧ sk.ca.epoch_start ≠ 0 ∧
        0 < s32 (sub32 jiffies sk.tp.lsndtime)) →
      cubictcp_cwnd_event jiffies sk event = sk) := by
  constructor
  · intro hev hep hdl e he
    have hrec : cubictcp_cwnd_event jiffies sk event =
        { sk with ca := { sk.ca with epoch_start := if after e jiffies then jiffies else e } } := by
      unfold cubictcp_cwnd_event
      rw [if_pos hev]
      dsimp only
      rw [if_pos ⟨hep, hdl⟩, he]
    have hval : (cubictcp_cwnd_event jiffies sk event).ca.epoch_start =
        if after e jiffies then jiffies else e := by
      rw [hrec]
    have ar := epoch_shift_arith jiffies sk.ca.epoch_start (s32 (sub32 jiffies sk.tp.lsndtime))
      hdl (s32_lt _)
    rw [← he] at ar
    refine ⟨hrec, ?_, ?_, ?_⟩
    · rw [hval]
      by_cases ha : after e jiffies = true
      · rw [if_pos ha, sub32_self]
        decide
      · rw [if_neg ha]
        unfold after at ha
        simp only [decide_eq_true_eq, not_lt] at ha
        exact ha
    · intro ha
      rw [hval, ha]
      exact ⟨rfl, ar.1⟩
    · intro h0
      rw [hval]
      have ar2 := ar.2 h0
      by_cases ha : after e jiffies = true
      · rw [if_pos ha, sub32_self]
        unfold after at ha
        simp only [decide_eq_true_eq] at ha
        have hlt : ¬ (s32 (sub32 jiffies sk.tp.lsndtime) ≤ s32 (sub32 jiffies sk.ca.epoch_start)) :=
          fun hle => absurd (ar2.1.mpr hle) (by omega)
        have hz : s32 0 = 0 := by decide
        rw [hz]
        omega
      · rw [if_neg ha]
        unfold after at ha
        simp only [decide_eq_true_eq, not_lt] at ha
        have hle := ar2.1.mp ha
        rw [ar2.2 hle]
        omega
  · intro hn
    unfold cubictcp_cwnd_event
    by_cases hev : event = CA_EVENT_TX_START
    · rw [if_pos hev]
      dsimp only
      rw [if_neg (fun hc => hn ⟨hev, hc.1, hc.2⟩)]
    · rw [if_neg hev]

theorem idle_resume_shifts_epoch_witness :
    (cubictcp_cwnd_event 5000 sock.idle CA_EVENT_TX_START).ca.epoch_start = 2000 ∧
    s32 (sub32 5000 sock.idle.ca.epoch_start) = 4000 ∧
    s32 (sub32 5000 (cubictcp_cwnd_event 5000 sock.idle CA_EVENT_TX_START).ca.epoch_start) =
      3000 ∧
    (cubictcp_cwnd_event 4500 { sock.idle with ca := { sock.idle.ca with epoch_start := 4400 } }
      CA_EVENT_TX_START).ca.epoch_start = 4500 ∧
    cubictcp_cwnd_event 5000 sock.idle 1 = sock.idle := by
  have h := (idle_resume_shifts_epoch 5000 sock.idle CA_EVENT_TX_START).1 rfl (by decide)
    (by decide) 2000 (by decide)
  have h' := (idle_resume_shifts_epoch 4500
    { sock.idle with ca := { sock.idle.ca with epoch_start := 4400 } } CA_EVENT_TX_START).1 rfl
    (by decide) (by decide) 4900 (by decide)
  refine ⟨(h.2.2.1 (by decide)).1, by decide, ?_, ?_,
    (idle_resume_shifts_epoch 5000 sock.idle 1).2 (by decide)⟩
  · rw [h.2.2.2 (by decide)]
    decide
  · rw [h'.1]
    decide

/-! ## The tail of the lead train -/

theorem shr32_sub (x n c : Nat) (hc : c ≤ n) (h : n - c < 32) :
    shr32 x ((n : Int) - (c : Int)) = some (x >>> (n - c)) := by
  unfold shr32
  have e : ((n : Int) - (c : Int)).toNat = n - c := by omega
  rw [if_pos (by omega), e]

theorem train_sizes (n : Nat) (h2 : 2 ≤ n) (h15 : n ≤ 15) :
    10 <<< (n - 1) < 4294967296 ∧
    (10 <<< (n - 1)) <<< (n - 1) < 4294967296 ∧
    10 <<< (n - 1) ≤ (10 <<< (n - 1)) <<< (n - 1) ∧
    (10 <<< (n - 1) / 2) <<< (n - 2) < 4294967296 ∧
    10 <<< (n - 1) / 2 ≤ (10 <<< (n - 1) / 2) <<< (n - 2) ∧
    (10 <<< (n - 1) / 2) <<< (n - 2) - 10 <<< (n - 1) / 2 ≤
      (10 <<< (n - 1)) <<< (n - 1) - 10 <<< (n - 1) := by
  interval_cases n <;> decide

theorem budget_le_half (dm n : Nat) (h2 : 2 ≤ n) : dm >>> (n - 1) ≤ dm / 2 := by
  rw [Nat.shiftRight_eq_div_pow]
  have h : 2 ^ 1 ≤ 2 ^ (n - 1) := Nat.pow_le_pow_right (by norm_num) (by omega)
  exact Nat.div_le_div_left (by simpa using h) (by norm_num)

theorem suss_tail_pace_spec (s1 : sock) (n delta acked : Nat)
    (hn : s1.ca.suss_round_no = n) (h2 : 2 ≤ n) (h15 : n ≤ 15)
    (hd0 : 0 < s1.ca.delay_min) (hd1 : s1.ca.delay_min < 4294967296) :
    ∃ s', suss_tail_pace s1 (10 <<< (n - 1)) delta acked = some s' ∧
      s'.tp.suss_limit =
        (s1.tp.snd_cwnd + acked + ((10 <<< (n - 1)) <<< (n - 1) - 10 <<< (n - 1)) -
          ((10 <<< (n - 1) / 2) <<< (n - 2) - 10 <<< (n - 1) / 2)) % 4294967296 ∧
      s'.ca.suss_perv_delta_t_bat = delta % 262144 ∧
      (s1.ca.delay_min >>> (n - 1) > delta →
        s'.tp.suss_state = 2 ∧
        s'.ca.suss_num_of_jump = (s1.ca.suss_num_of_jump + 1) % 8 ∧
        s'.tp.suss_pacing_start_ns =
          (s1.tp.tcp_clock_cache + (s1.ca.delay_min >>> (n - 1) - delta) / 2 * 1000) %
            18446744073709551616) ∧
      (¬ s1.ca.delay_min >>> (n - 1) > delta →
        s'.tp.suss_state = 1 ∧ s'.ca.suss_num_of_jump = s1.ca.suss_num_of_jump ∧
        s'.tp.suss_pacing_start_ns = s1.tp.suss_pacing_start_ns) ∧
      s'.ca.suss_gf = s1.ca.suss_gf ∧ s'.ca.suss_is_blue = s1.ca.suss_is_blue ∧
      s'.tp.snd_cwnd = s1.tp.snd_cwnd := by
  obtain ⟨b0, b1, b2, b3, b4, b5⟩ := train_sizes n h2 h15
  have hb := budget_le_half s1.ca.delay_min n h2
  have e1 := shl32_sub (10 <<< (n - 1)) n 1 (by omega) (by omega)
  have e2 := shl32_sub (10 <<< (n - 1) >>> 1) n 2 (by omega) (by omega)
  have e3 := shr32_sub s1.ca.delay_min n 1 (by omega) (by omega)
  simp only [Nat.cast_ofNat, Nat.cast_one] at e1 e2 e3
  have eh : (10 <<< (n - 1)) >>> 1 = 10 <<< (n - 1) / 2 := by
    rw [Nat.shiftRight_eq_div_pow, Nat.pow_one]
  rw [eh] at e2
  generalize hB : 10 <<< (n - 1) = B at *
  generalize hP : B <<< (n - 1) = P at *
  generalize hA : (B / 2) <<< (n - 2) = A at *
  generalize hM : s1.ca.delay_min >>> (n - 1) = M at *
  have eP : sub32 (P % 4294967296) B = P - B := by
    rw [Nat.mod_eq_of_lt b1]
    exact sub32_eq P B b2 b1
  have eA : sub32 (A % 4294967296) (B / 2) = A - B / 2 := by
    rw [Nat.mod_eq_of_lt b3]
    exact sub32_eq A (B / 2) b4 b3
  have eD : sub32 s1.ca.delay_min M = s1.ca.delay_min - M := sub32_eq _ _ (by omega) hd1
  have eT : sub32 s1.ca.delay_min (s1.ca.delay_min - M) = M := by
    rw [sub32_eq _ _ (by omega) hd1]
    omega
  have eL : sub32 (((s1.tp.snd_cwnd + acked) % 4294967296 + (P - B)) % 4294967296) (A - B / 2) =
      (s1.tp.snd_cwnd + acked + (P - B) - (A - B / 2)) % 4294967296 := by
    unfold sub32
    omega
  have hpd : s1.ca.delay_min - M ≠ 0 := by omega
  unfold suss_tail_pace
  dsimp only
  rw [hn, eh, e1, Option.some_bind, e2, Option.some_bind, e3, Option.some_bind, eP, eA, eD, eT, eL]
  unfold div64
  rw [if_neg hpd, Option.some_bind]
  by_cases hc : M > delta
  · rw [if_pos hc]
    exact ⟨_, rfl, rfl, rfl, fun _ => ⟨rfl, rfl, by
      simp only [NSEC_PER_USEC, Nat.shiftRight_eq_div_pow, Nat.pow_one]⟩,
      fun h => absurd hc h, rfl, rfl, rfl⟩
  · rw [if_neg hc]
    exact ⟨_, rfl, rfl, rfl, fun h => absurd h hc, fun _ => ⟨rfl, rfl, rfl⟩, rfl, rfl, rfl⟩

theorem tail_view_fields (a b : sock) (h : tail_view a = tail_view b) :
    a.tp = b.tp ∧ a.ca.suss_round_no = b.ca.suss_round_no ∧ a.ca.suss_gf = b.ca.suss_gf ∧
    a.ca.suss_blue_cnt = b.ca.suss_blue_cnt ∧ a.ca.delay_min = b.ca.delay_min ∧
    a.ca.suss_num_of_jump = b.ca.suss_num_of_jump ∧
    a.ca.suss_perv_delta_t_bat = b.ca.suss_perv_delta_t_bat ∧
    a.ca.suss_r_minupdate = b.ca.suss_r_minupdate ∧ a.ca.curr_rtt = b.ca.curr_rtt := by
  unfold tail_view at h
  simp only [Prod.mk.injEq, List.cons.injEq, and_true] at h
  exact h

theorem upd_tail_seq_view (s : sock) (v : Nat) :
    tail_view ({ s with ca := { s.ca with suss_tail_seq := v } } : sock) = tail_view s := rfl

theorem upd_is_blue_view (s : sock) (v : Nat) :
    tail_view ({ s with ca := { s.ca with suss_is_blue := v } } : sock) = tail_view s := rfl

theorem upd_tail_seq_blue (s : sock) (v : Nat) :
    ({ s with ca := { s.ca with suss_tail_seq := v } } : sock).ca.suss_is_blue =
      s.ca.suss_is_blue := rfl

theorem suss_speedup_result (p : Params) (sk : sock) (delta : Nat) (r : Nat × sock)
    (h : suss_speedup p sk delta = some r) :
    (r.1 = 0 ∨ r.1 = 1) ∧ (r.1 = 1 → r.2 = sk) ∧ (sk.ca.suss_round_no ≠ 2 → r.2 = sk) ∧
    (r.1 = 0 → sk.ca.suss_round_no = 2 →
      r.2 = { sk with tp := { sk.tp with suss_state := 10 } }) := by
  unfold suss_speedup at h
  dsimp only at h
  by_cases h2 : sk.ca.suss_round_no = 2
  · rw [if_pos h2] at h
    split_ifs at h
    · simp only [Option.some.injEq] at h
      subst h
      exact ⟨Or.inr rfl, fun _ => rfl, fun hn => absurd h2 hn, fun h0 => absurd h0 Nat.one_ne_zero⟩
    · simp only [Option.some.injEq] at h
      subst h
      exact ⟨Or.inl rfl, fun h1 => absurd h1 Nat.zero_ne_one, fun hn => absurd h2 hn,
        fun _ _ => rfl⟩
  · rw [if_neg h2] at h
    rw [Option.bind_eq_some] at h
    obtain ⟨_, _, h⟩ := h
    rw [Option.bind_eq_some] at h
    obtain ⟨_, _, h⟩ := h
    rw [Option.bind_eq_some] at h
    obtain ⟨_, _, h⟩ := h
    simp only [Option.some.injEq] at h
    subst h
    refine ⟨?_, fun _ => rfl, fun _ => rfl, fun _ h2' => absurd h2' h2⟩
    dsimp only
    split_ifs <;> first | exact Or.inl rfl | exact Or.inr rfl

theorem suss_speedup_view (p : Params) (a b : sock) (delta : Nat)
    (h : tail_view a = tail_view b) :
    (suss_speedup p a delta).map Prod.fst = (suss_speedup p b delta).map Prod.fst := by
  obtain ⟨_, f1, _, _, f4, _, f6, f7, f8⟩ := tail_view_fields a b h
  unfold suss_speedup
  dsimp only
  rw [f1, f4, f6, f7, f8]
  by_cases h2 : b.ca.suss_round_no = 2
  · rw [if_pos h2, if_pos h2]
    split_ifs <;> rfl
  · rw [if_neg h2, if_neg h2]
    cases shl32 delta ((b.ca.suss_round_no : Int) - 2) with
    | none => rfl
    | some x =>
      rw [Option.some_bind, Option.some_bind]
      cases shl32 b.ca.suss_perv_delta_t_bat ((b.ca.suss_round_no : Int) - 3) with
      | none => rfl
      | some y =>
        rw [Option.some_bind, Option.some_bind]
        cases div64 (x <<< SUSS_SCALE) ((y <<< 1) % 4294967296) with
        | none => rfl
        | some z => rfl

theorem suss_count_lead (s : sock) (acked : Nat) (h : s.ca.suss_is_blue ≠ 0) :
    suss_count s acked =
      some { s with ca := { s.ca with suss_blue_cnt := (s.ca.suss_blue_cnt + acked) % 4096 } } := by
  unfold suss_count
  dsimp only
  rw [if_pos h, if_neg (fun hc => h hc.1)]

theorem suss_tail_speedup_spec (p : Params) (s0 : sock) (d : Nat) (hgf : s0.ca.suss_gf = 1)
    (r : Nat × sock) (hr : suss_speedup p s0 d = some r) :
    suss_tail_speedup p s0 d = some { r.2 with ca := { r.2.ca with suss_gf := r.1 % 2 } } := by
  unfold suss_tail_speedup
  rw [if_pos hgf, hr, Option.some_bind]

theorem map_fst_some (x : Option (Nat × sock)) (v : Nat) (h : x.map Prod.fst = some v) :
    ∃ r, x = some r ∧ r.1 = v := by
  cases x with
  | none => exact absurd h (by simp)
  | some r => exact ⟨r, rfl, Option.some.inj h⟩

theorem tail_rest_continue (p : Params) (s0 sh : sock) (n bp num delta acked : Nat)
    (hv : tail_view s0 = tail_view sh) (hb : s0.ca.suss_is_blue = 2)
    (hn : sh.ca.suss_round_no = n) (h2 : 2 ≤ n) (h15 : n ≤ 15) (hbp : bp = 10 <<< (n - 1))
    (hnum : num < 4294967296) (hcnt : sh.ca.suss_blue_cnt ≠ 0)
    (hdelta : delta = num / (2 * sh.ca.suss_blue_cnt))
    (hgf : sh.ca.suss_gf = 1) (hrule : (suss_speedup p sh delta).map Prod.fst = some 1)
    (hd0 : 0 < sh.ca.delay_min) (hd1 : sh.ca.delay_min < 4294967296) :
    ∃ s', ((div64 num (s0.ca.suss_blue_cnt <<< 1)).bind fun q =>
        (suss_tail_speedup p s0 (q % 4294967296)).bind fun sk =>
          if sk.ca.suss_gf = 1 then suss_tail_pace sk bp (q % 4294967296) acked
          else some sk).bind (fun s => suss_count s acked) = some s' ∧
      s'.tp.suss_limit =
        (sh.tp.snd_cwnd + acked + ((10 <<< (n - 1)) <<< (n - 1) - 10 <<< (n - 1)) -
          ((10 <<< (n - 1) / 2) <<< (n - 2) - 10 <<< (n - 1) / 2)) % 4294967296 ∧
      s'.ca.suss_perv_delta_t_bat = delta % 262144 ∧
      (sh.ca.delay_min >>> (n - 1) > delta →
        s'.tp.suss_state = 2 ∧
        s'.ca.suss_num_of_jump = (sh.ca.suss_num_of_jump + 1) % 8 ∧
        s'.tp.suss_pacing_start_ns =
          (sh.tp.tcp_clock_cache + (sh.ca.delay_min >>> (n - 1) - delta) / 2 * 1000) %
            18446744073709551616) ∧
      (¬ sh.ca.delay_min >>> (n - 1) > delta →
        s'.tp.suss_state = 1 ∧ s'.ca.suss_num_of_jump = sh.ca.suss_num_of_jump ∧
        s'.tp.suss_pacing_start_ns = sh.tp.suss_pacing_start_ns) ∧
      s'.ca.suss_gf = 1 ∧ s'.tp.snd_cwnd = sh.tp.snd_cwnd := by
  obtain ⟨ftp, f1, f2, f3, f4, f5, _, _, _⟩ := tail_view_fields s0 sh hv
  have hq : div64 num (s0.ca.suss_blue_cnt <<< 1) = some delta := by
    unfold div64
    rw [f3, Nat.shiftLeft_eq, Nat.pow_one, if_neg (by omega), hdelta, Nat.mul_comm]
  have hdl : delta % 4294967296 = delta := by
    apply Nat.mod_eq_of_lt
    rw [hdelta]
    exact lt_of_le_of_lt (Nat.div_le_self _ _) hnum
  rw [← suss_speedup_view p s0 sh delta hv] at hrule
  obtain ⟨r, hr, hr1⟩ := map_fst_some _ _ hrule
  have hr2 := (suss_speedup_result p s0 delta r hr).2.1 hr1
  have hsp := suss_tail_speedup_spec p s0 delta (f2.trans hgf) r hr
  rw [hr1, hr2] at hsp
  obtain ⟨s', hs', l1, l2, l3, l4, l5, l6, l7⟩ :=
    suss_tail_pace_spec ({ s0 with ca := { s0.ca with suss_gf := 1 % 2 } } : sock) n delta acked
      (f1.trans hn) h2 h15 (by rw [← f4] at hd0; exact hd0) (by rw [← f4] at hd1; exact hd1)
  rw [hq, Option.some_bind, hdl, hsp, Option.some_bind, if_pos rfl, hbp, hs', Option.some_bind,
    suss_count_lead s' acked (by rw [l6]; exact (by rw [hb]; decide : s0.ca.suss_is_blue ≠ 0))]
  have e4 : ({ s0 with ca := { s0.ca with suss_gf := 1 % 2 } } : sock).ca.delay_min =
      sh.ca.delay_min := f4
  have e5 : ({ s0 with ca := { s0.ca with suss_gf := 1 % 2 } } : sock).ca.suss_num_of_jump =
      sh.ca.suss_num_of_jump := f5
  have etp : ({ s0 with ca := { s0.ca with suss_gf := 1 % 2 } } : sock).tp = sh.tp := ftp
  rw [e4, e5, etp] at l3 l4
  rw [etp] at l1 l7
  exact ⟨_, rfl, l1, l2, l3, l4, l5, l7⟩

theorem suss_tail_speedup_stop (p : Params) (s0 : sock) (delta : Nat)
    (hstop : s0.ca.suss_gf ≠ 1 ∨ (suss_speedup p s0 delta).map Prod.fst = some 0) :
    ∃ s1, suss_tail_speedup p s0 delta = some s1 ∧ s1.ca.suss_gf ≠ 1 ∧
      s1.ca.suss_is_blue = s0.ca.suss_is_blue ∧
      s1.ca.suss_num_of_jump = s0.ca.suss_num_of_jump ∧
      s1.ca.suss_perv_delta_t_bat = s0.ca.suss_perv_delta_t_bat ∧
      s1.tp.suss_limit = s0.tp.suss_limit ∧ s1.tp.suss_rate = s0.tp.suss_rate ∧
      s1.tp.suss_pacing_start_ns = s0.tp.suss_pacing_start_ns ∧
      s1.tp.snd_cwnd = s0.tp.snd_cwnd ∧
      s1.tp.suss_state =
        (if s0.ca.suss_gf = 1 ∧ s0.ca.suss_round_no = 2 then 10 else s0.tp.suss_state) := by
  by_cases hgf : s0.ca.suss_gf = 1
  · have hrule : (suss_speedup p s0 delta).map Prod.fst = some 0 := by
      rcases hstop with h | h
      · exact absurd hgf h
      · exact h
    obtain ⟨r, hr, hr1⟩ := map_fst_some _ _ hrule
    have hres := suss_speedup_result p s0 delta r hr
    have hsp := suss_tail_speedup_spec p s0 delta hgf r hr
    rw [hr1] at hsp
    have h02 : ¬ (0 % 2 = 1) := by decide
    by_cases hn2 : s0.ca.suss_round_no = 2
    · rw [hres.2.2.2 hr1 hn2] at hsp
      rw [if_pos ⟨hgf, hn2⟩]
      exact ⟨_, hsp, h02, rfl, rfl, rfl, rfl, rfl, rfl, rfl, rfl⟩
    · rw [hres.2.2.1 hn2] at hsp
      rw [if_neg (fun hc => hn2 hc.2)]
      exact ⟨_, hsp, h02, rfl, rfl, rfl, rfl, rfl, rfl, rfl, rfl⟩
  · have hsp : suss_tail_speedup p s0 delta = some s0 := by
      unfold suss_tail_speedup
      rw [if_neg hgf]
    rw [if_neg (fun hc => hgf hc.1)]
    exact ⟨_, hsp, hgf, rfl, rfl, rfl, rfl, rfl, rfl, rfl, rfl⟩

theorem tail_rest_stop (p : Params) (s0 sh : sock) (n bp num delta acked : Nat)
    (hv : tail_view s0 = tail_view sh) (hb : s0.ca.suss_is_blue = 2)
    (hn : sh.ca.suss_round_no = n)
    (hnum : num < 4294967296) (hcnt : sh.ca.suss_blue_cnt ≠ 0)
    (hdelta : delta = num / (2 * sh.ca.suss_blue_cnt))
    (hstop : sh.ca.suss_gf ≠ 1 ∨ (suss_speedup p sh delta).map Prod.fst = some 0) :
    ∃ s', ((div64 num (s0.ca.suss_blue_cnt <<< 1)).bind fun q =>
        (suss_tail_speedup p s0 (q % 4294967296)).bind fun sk =>
          if sk.ca.suss_gf = 1 then suss_tail_pace sk bp (q % 4294967296) acked
          else some sk).bind (fun s => suss_count s acked) = some s' ∧
      s'.tp.suss_limit = sh.tp.suss_limit ∧ s'.tp.suss_rate = sh.tp.suss_rate ∧
      s'.tp.suss_pacing_start_ns = sh.tp.suss_pacing_start_ns ∧
      s'.tp.snd_cwnd = sh.tp.snd_cwnd ∧
      s'.ca.suss_num_of_jump = sh.ca.suss_num_of_jump ∧
      s'.ca.suss_perv_delta_t_bat = sh.ca.suss_perv_delta_t_bat ∧
      s'.ca.suss_gf ≠ 1 ∧
      s'.tp.suss_state = (if sh.ca.suss_gf = 1 ∧ n = 2 then 10 else sh.tp.suss_state) := by
  obtain ⟨ftp, f1, f2, f3, f4, f5, f6, _, _⟩ := tail_view_fields s0 sh hv
  have hq : div64 num (s0.ca.suss_blue_cnt <<< 1) = some delta := by
    unfold div64
    rw [f3, Nat.shiftLeft_eq, Nat.pow_one, if_neg (by omega), hdelta, Nat.mul_comm]
  have hdl : delta % 4294967296 = delta := by
    apply Nat.mod_eq_of_lt
    rw [hdelta]
    exact lt_of_le_of_lt (Nat.div_le_self _ _) hnum
  have hstop0 : s0.ca.suss_gf ≠ 1 ∨ (suss_speedup p s0 delta).map Prod.fst = some 0 := by
    rw [f2, suss_speedup_view p s0 sh delta hv]
    exact hstop
  obtain ⟨s1, hs1, g1, g2, g3, g4, g5, g6, g7, g8, g9⟩ := suss_tail_speedup_stop p s0 delta hstop0
  rw [f2, f1, hn, ftp] at g9
  rw [ftp] at g5 g6 g7 g8
  rw [hq, Option.some_bind, hdl, hs1, Option.some_bind, if_neg g1, Option.some_bind,
    suss_count_lead s1 acked (by rw [g2, hb]; decide)]
  exact ⟨_, rfl, g5, g6, g7, g8, g3.trans f5, g4.trans f6, g1, g9⟩

theorem suss_measurements_tail_entry (p : Params) (sk : sock) (now acked bp : Nat)
    (h : shl32 TCP_INIT_CWND ((sk.ca.suss_round_no : Int) - 1) = some bp) :
    ∃ s0 : sock, tail_view s0 = tail_view sk ∧ s0.ca.suss_is_blue = 2 ∧
      suss_measurements_tail p sk now acked =
        (div64 ((bp * sub32 now sk.ca.suss_round_start_us) % 4294967296)
            (s0.ca.suss_blue_cnt <<< 1)).bind fun q =>
          (suss_tail_speedup p s0 (q % 4294967296)).bind fun s =>
            if s.ca.suss_gf = 1 then suss_tail_pace s bp (q % 4294967296) acked else some s := by
  have h' : shl32 TCP_INIT_CWND
      (((({ sk with ca := { sk.ca with suss_is_blue := 2 } } : sock).ca.suss_round_no : Nat) : Int)
        - 1) = some bp := h
  refine ⟨?s0, ?a, ?b, ?c⟩
  case c =>
    rw [suss_measurements_tail_eq]
    conv =>
      lhs
      zeta
    rw [h', Option.some_bind]
    exact rfl
  case a => exact (upd_tail_seq_view _ _).trans (upd_is_blue_view _ _)
  case b => exact (upd_tail_seq_blue _ _).trans rfl

/-- C23 (as stated, refuted): on the flow `sock.tailAck 5400`, in round 2 with the
extension measuring (`suss_state = 1`) and a minimum delay of 20 ms, the ACK 11000 passes
the tail 10999 of the lead train 5.4 ms after the start of the round; the measured delta
is 6000 us, not below `delay_min / 4`, so speed-up does not continue (`suss_gf` becomes 0),
and the tail step sets the phase to Disabled (`suss_state = 10`): the phase is modified.
With 3.6 ms elapsed the delta is 4000 us and the flow enters Pacing. -/
theorem tail_step_disables :
    (sock.tailAck 5400).tp.suss_state = 1 ∧ (sock.tailAck 5400).ca.suss_round_no = 2 ∧
    (sock.tailAck 5400).ca.suss_gf = 1 ∧ 11000 > (sock.tailAck 5400).ca.suss_tail_seq ∧
    ¬ 11000 > (sock.tailAck 5400).ca.suss_head_seq ∧
    (suss_measurements Params.sussOn (sock.tailAck 5400) 11000 1).map
      (fun s => [s.ca.suss_gf, s.tp.suss_state, s.ca.suss_round_no, s.tp.suss_limit,
        s.ca.suss_num_of_jump]) = some [0, 10, 2, 0, 0] ∧
    (suss_measurements Params.sussOn (sock.tailAck 3600) 11000 1).map
      (fun s => [s.ca.suss_gf, s.tp.suss_state, s.ca.suss_round_no, s.tp.suss_limit,
        s.ca.suss_num_of_jump]) = some [1, 2, 2, 40, 1] := by
  decide

/-- C23 (amended): at an ACK that passes the tail of the lead train, with `sh` the state
after the head block of the same call, in round `n` from 2 to 15 with a non-zero lead-ACK
count, and with `delta` the measured train delta
`(u32)(blue_pkt * elapsed) / (2 * suss_blue_cnt)`, `blue_pkt = 10 << (n - 1)`,
`red_pkt = (blue_pkt << (n - 1)) - blue_pkt` and
`red_ack = ((blue_pkt / 2) << (n - 2)) - blue_pkt / 2`.
When speed-up continues (`suss_gf = 1` and the rule returns 1), with a non-zero minimum
delay, a delta below `2 ^ 18` and fewer than 7 jumps, `suss_measurements` returns, sets
`suss_limit = snd_cwnd + acked + red_pkt - red_ack` (as a `u32`), records `delta` as the
previous train delta and keeps `suss_gf = 1`; it enters Pacing (`suss_state = 2`, jump
count plus 1, pacing start `tcp_clock_cache + ((budget - delta) / 2) * 1000`) exactly when
the budget `delay_min >> (n - 1)` is greater than `delta`, and otherwise sets
`suss_state = 1` and leaves the jump count and the pacing start.
When speed-up does not continue (`suss_gf` is not 1, or the rule returns 0),
`suss_measurements` returns and leaves `suss_limit`, `suss_rate`, the pacing start, the
previous delta and the jump count as they are; it leaves the phase as it is too, except
that a failed rule in round 2 sets it to Disabled (`suss_state = 10`). -/
theorem suss_tail_step (p : Params) (sk : sock) (ack acked : Nat) :
    ∀ (sh : sock) (n delta : Nat),
      sh = suss_round_head (suss_first_red sk) (bictcp_clock_us sk) ack →
      n = sh.ca.suss_round_no →
      delta = ((10 <<< (n - 1)) * sub32 (bictcp_clock_us sk) sh.ca.suss_round_start_us)
        % 4294967296 / (2 * sh.ca.suss_blue_cnt) →
      ack > sh.ca.suss_tail_seq → 2 ≤ n → n ≤ 15 → sh.ca.suss_blue_cnt ≠ 0 →
      (sh.ca.suss_gf = 1 → (suss_speedup p sh delta).map Prod.fst = some 1 →
        0 < sh.ca.delay_min → sh.ca.delay_min < 4294967296 → delta < 262144 →
        sh.ca.suss_num_of_jump < 7 →
        ∃ s', suss_measurements p sk ack acked = some s' ∧
          s'.tp.suss_limit =
            (sh.tp.snd_cwnd + acked + ((10 <<< (n - 1)) <<< (n - 1) - 10 <<< (n - 1)) -
              ((10 <<< (n - 1) / 2) <<< (n - 2) - 10 <<< (n - 1) / 2)) % 4294967296 ∧
          s'.ca.suss_perv_delta_t_bat = delta ∧ s'.ca.suss_gf = 1 ∧
          (sh.ca.delay_min >>> (n - 1) > delta →
            s'.tp.suss_state = 2 ∧
            s'.ca.suss_num_of_jump = sh.ca.suss_num_of_jump + 1 ∧
            s'.tp.suss_pacing_start_ns =
              (sh.tp.tcp_clock_cache + (sh.ca.delay_min >>> (n - 1) - delta) / 2 * 1000) %
                18446744073709551616) ∧
          (¬ sh.ca.delay_min >>> (n - 1) > delta →
            s'.tp.suss_state = 1 ∧ s'.ca.suss_num_of_jump = sh.ca.suss_num_of_jump ∧
            s'.tp.suss_pacing_start_ns = sh.tp.suss_pacing_start_ns)) ∧
      (sh.ca.suss_gf ≠ 1 ∨ (suss_speedup p sh delta).map Prod.fst = some 0 →
        ∃ s', suss_measurements p sk ack acked = some s' ∧
          s'.tp.suss_limit = sh.tp.suss_limit ∧ s'.tp.suss_rate = sh.tp.suss_rate ∧
          s'.tp.suss_pacing_start_ns = sh.tp.suss_pacing_start_ns ∧
          s'.ca.suss_perv_delta_t_bat = sh.ca.suss_perv_delta_t_bat ∧
          s'.ca.suss_num_of_jump = sh.ca.suss_num_of_jump ∧ s'.ca.suss_gf ≠ 1 ∧
          s'.tp.suss_state = (if sh.ca.suss_gf = 1 ∧ n = 2 then 10 else sh.tp.suss_state)) := by
  intro sh n delta hsh hn hdelta htail h2 h15 hcnt
  have hshl : shl32 TCP_INIT_CWND ((sh.ca.suss_round_no : Int) - 1) = some (10 <<< (n - 1)) := by
    have e := shl32_sub 10 n 1 (by omega) (by omega)
    simp only [Nat.cast_one] at e
    rw [Nat.mod_eq_of_lt (train_sizes n h2 h15).1] at e
    rw [← hn]
    exact e
  obtain ⟨s0, hv, hb, htl⟩ :=
    suss_measurements_tail_entry p sh (bictcp_clock_us sk) acked _ hshl
  have hm : suss_measurements p sk ack acked =
      ((div64 (((10 <<< (n - 1)) * sub32 (bictcp_clock_us sk) sh.ca.suss_round_start_us)
            % 4294967296) (s0.ca.suss_blue_cnt <<< 1)).bind fun q =>
          (suss_tail_speedup p s0 (q % 4294967296)).bind fun s =>
            if s.ca.suss_gf = 1 then suss_tail_pace s (10 <<< (n - 1)) (q % 4294967296) acked
            else some s).bind fun s => suss_count s acked := by
    rw [suss_measurements_eq, ← hsh, if_pos htail, htl]
  have hnum : ((10 <<< (n - 1)) * sub32 (bictcp_clock_us sk) sh.ca.suss_round_start_us)
      % 4294967296 < 4294967296 := Nat.mod_lt _ (by norm_num)
  constructor
  · intro hgf hrule hd0 hd1 hd18 hj
    obtain ⟨s', hs', l1, l2, l3, l4, l5, _⟩ :=
      tail_rest_continue p s0 sh n _ _ delta acked hv hb hn.symm h2 h15 rfl hnum hcnt hdelta hgf
        hrule hd0 hd1
    rw [Nat.mod_eq_of_lt hd18] at l2
    rw [Nat.mod_eq_of_lt (by omega : sh.ca.suss_num_of_jump + 1 < 8)] at l3
    exact ⟨s', hm.trans hs', l1, l2, l5, l3, l4⟩
  · intro hstop
    obtain ⟨s', hs', l1, l2, l3, _, l5, l6, l7, l8⟩ :=
      tail_rest_stop p s0 sh n _ _ delta acked hv hb hn.symm hnum hcnt hdelta hstop
    exact ⟨s', hm.trans hs', l1, l2, l3, l6, l5, l7, l8⟩

theorem suss_tail_step_witness :
    ∃ s', suss_measurements Params.sussOn (sock.tailAck 3600) 11000 1 = some s' ∧
      s'.tp.suss_limit = 40 ∧ s'.ca.suss_perv_delta_t_bat = 4000 ∧ s'.tp.suss_state = 2 ∧
      s'.ca.suss_num_of_jump = 1 ∧ s'.tp.suss_pacing_start_ns = 76600000 := by
  have h := (suss_tail_step Params.sussOn (sock.tailAck 3600) 11000 1 (sock.tailAck 3600) 2 4000
    (by decide) (by decide) (by decide) (by decide) (by decide) (by decide) (by decide)).1
    (by decide) (by decide) (by decide) (by decide) (by decide) (by decide)
  obtain ⟨s', hs', l1, l2, _, l4, _⟩ := h
  have l4' := l4 (by decide)
  exact ⟨s', hs', l1.trans (by decide), l2, l4'.1, l4'.2.1.trans (by decide),
    l4'.2.2.trans (by decide)⟩

/-! ## The loop of the TCP-friendly estimate -/

theorem tcp_friendly_loop_closed (delta : Nat) (hd : 1 ≤ delta) :
    ∀ fuel ack_cnt tcp_cwnd : Nat, (ack_cnt - 1) / delta ≤ fuel →
      tcp_friendly_loop delta fuel ack_cnt tcp_cwnd =
        some (if ack_cnt > delta then
          ((ack_cnt - 1) % delta + 1, (tcp_cwnd + (ack_cnt - 1) / delta) % 4294967296)
        else (ack_cnt, tcp_cwnd)) := by
  intro fuel
  induction fuel with
  | zero =>
    intro a t h
    have hq : (a - 1) / delta = 0 := Nat.le_zero.mp h
    have hlt : a - 1 < delta := (Nat.div_eq_zero_iff (by omega)).mp hq
    rw [tcp_friendly_loop, if_neg (by omega), if_neg (by omega)]
  | succ f ih =>
    intro a t h
    by_cases hc : a > delta
    · rw [tcp_friendly_loop, if_pos hc, if_pos hc]
      have e1 : a - 1 = (a - delta - 1) + delta := by omega
      have hdiv : (a - 1) / delta = (a - delta - 1) / delta + 1 := by
        rw [e1, Nat.add_div_right _ (by omega)]
      have hmod : (a - 1) % delta = (a - delta - 1) % delta := by
        rw [e1, Nat.add_mod_right]
      rw [ih (a - delta) ((t + 1) % 4294967296) (by omega), hdiv, hmod]
      by_cases hc2 : a - delta > delta
      · rw [if_pos hc2]
        congr 2
        omega
      · rw [if_neg hc2]
        have hlt : a - delta - 1 < delta := by omega
        rw [Nat.mod_eq_of_lt hlt, Nat.div_eq_of_lt hlt]
        congr 2
        omega
    · rw [tcp_friendly_loop, if_neg hc, if_neg hc]

theorem div_pred_le (a delta : Nat) : (a - 1) / delta ≤ a :=
  Nat.le_trans (Nat.div_le_self _ _) (Nat.sub_le _ _)

/-- C24 (as stated, refuted): the window 2290649225 is at least 1, and with the default
`beta_scale` of 15 its step `(cwnd * 15) >> 3`, computed in `u32`, is 0: from an ACK count
of 1 the loop is still running after any number of iterations, and `bictcp_update` does
not return. -/
theorem friendly_step_wraps :
    Scales.default.beta_scale = 15 ∧ 1 ≤ 2290649225 ∧ 2290649225 < 4294967296 ∧
    ((2290649225 * Scales.default.beta_scale) % 4294967296) >>> 3 = 0 ∧
    (∀ fuel : Nat,
      tcp_friendly_loop (((2290649225 * Scales.default.beta_scale) % 4294967296) >>> 3) fuel
        1 10 = none) ∧
    bictcp_update Kernel.sample Params.default Scales.default 1050 bictcp.afterFirstUpdate
      2290649225 1 = none := by
  refine ⟨rfl, by decide, by decide, by decide, fun fuel => ?_, by decide⟩
  have e : ((2290649225 * Scales.default.beta_scale) % 4294967296) >>> 3 = 0 := by decide
  rw [e]
  exact tcp_friendly_loop_diverges fuel 1 10 (by decide)

/-- C24 (amended): with TCP friendliness on and the default `beta_scale` of 15, for every
window from 1 to 2290649224 (every window that fits a C `int`) the step
`delta = (cwnd * 15) >> 3`, a `u32` value, is at least 1 and the loop of the TCP-friendly
estimate terminates within `(ack_cnt0 - 1) / delta` iterations (any larger bound on the
iterations gives the same result): on exit `ack_cnt <= delta`; for `ack_cnt0 > delta`,
`tcp_cwnd` is increased by exactly `(ack_cnt0 - 1) / delta` (as a `u32`) and
`ack_cnt = ((ack_cnt0 - 1) mod delta) + 1`; for `ack_cnt0 <= delta` both are unchanged.
For a window of 0 with a non-zero ACK count the step is 0, an iteration leaves the ACK
count as it is, and the loop does not terminate. -/
theorem friendly_loop_result (p : Params) (d : Scales) (ca : bictcp)
    (hfr : p.tcp_friendliness ≠ 0) :
    (d.beta_scale = 15 → ∀ cwnd delta : Nat, 1 ≤ cwnd → cwnd < 2290649225 →
      delta = ((cwnd * d.beta_scale) % 4294967296) >>> 3 →
      1 ≤ delta ∧
      (∀ fuel : Nat, (ca.ack_cnt - 1) / delta ≤ fuel →
        tcp_friendly_loop delta fuel ca.ack_cnt ca.tcp_cwnd =
          some (if ca.ack_cnt > delta then
            ((ca.ack_cnt - 1) % delta + 1,
              (ca.tcp_cwnd + (ca.ack_cnt - 1) / delta) % 4294967296)
          else (ca.ack_cnt, ca.tcp_cwnd))) ∧
      ∃ ca', bictcp_friendliness p d ca cwnd = some ca' ∧ ca'.ack_cnt ≤ delta ∧
        (ca.ack_cnt > delta →
          ca'.tcp_cwnd = (ca.tcp_cwnd + (ca.ack_cnt - 1) / delta) % 4294967296 ∧
          ca'.ack_cnt = (ca.ack_cnt - 1) % delta + 1) ∧
        (ca.ack_cnt ≤ delta → ca'.tcp_cwnd = ca.tcp_cwnd ∧ ca'.ack_cnt = ca.ack_cnt)) ∧
    (0 < ca.ack_cnt →
      ((0 * d.beta_scale) % 4294967296) >>> 3 = 0 ∧
      (∀ fuel : Nat,
        tcp_friendly_loop 0 (fuel + 1) ca.ack_cnt ca.tcp_cwnd =
          tcp_friendly_loop 0 fuel ca.ack_cnt ((ca.tcp_cwnd + 1) % 4294967296)) ∧
      (∀ fuel : Nat, tcp_friendly_loop 0 fuel ca.ack_cnt ca.tcp_cwnd = none) ∧
      bictcp_friendliness p d ca 0 = none) := by
  constructor
  · intro hb cwnd delta h1 h2 hdelta
    have hd : 1 ≤ delta := by
      have e : (2 : Nat) ^ 3 = 8 := by norm_num
      rw [hdelta, hb, Nat.shiftRight_eq_div_pow, e]
      exact friendly_step_pos cwnd h1 h2
    have hloop := tcp_friendly_loop_closed delta hd
    refine ⟨hd, fun fuel hf => hloop fuel _ _ hf, ?_⟩
    have hrun := hloop ca.ack_cnt ca.ack_cnt ca.tcp_cwnd (div_pred_le _ _)
    have hml := Nat.mod_lt (ca.ack_cnt - 1) (by omega : delta > 0)
    unfold bictcp_friendliness
    dsimp only
    rw [if_pos hfr, ← hdelta, hrun, Option.some_bind]
    by_cases hc : ca.ack_cnt > delta
    · rw [if_pos hc]
      dsimp only
      split_ifs
      · exact ⟨_, rfl, by dsimp only; omega, fun _ => ⟨rfl, rfl⟩, fun h => absurd hc (by omega)⟩
      · exact ⟨_, rfl, by dsimp only; omega, fun _ => ⟨rfl, rfl⟩, fun h => absurd hc (by omega)⟩
      · exact ⟨_, rfl, by dsimp only; omega, fun _ => ⟨rfl, rfl⟩, fun h => absurd hc (by omega)⟩
    · rw [if_neg hc]
      dsimp only
      split_ifs
      · exact ⟨_, rfl, by dsimp only; omega, fun h => absurd h hc, fun _ => ⟨rfl, rfl⟩⟩
      · exact ⟨_, rfl, by dsimp only; omega, fun h => absurd h hc, fun _ => ⟨rfl, rfl⟩⟩
      · exact ⟨_, rfl, by dsimp only; omega, fun h => absurd h hc, fun _ => ⟨rfl, rfl⟩⟩
  · intro h0
    have hz : ((0 * d.beta_scale) % 4294967296) >>> 3 = 0 := by
      rw [Nat.zero_mul]
      rfl
    refine ⟨hz, fun fuel => ?_, fun fuel => tcp_friendly_loop_diverges fuel _ _ h0, ?_⟩
    · rw [tcp_friendly_loop, if_pos h0, Nat.sub_zero]
    · unfold bictcp_friendliness
      dsimp only
      rw [if_pos hfr, hz, tcp_friendly_loop_diverges _ _ _ h0]
      rfl

theorem friendly_loop_result_witness :
    ((10 * Scales.default.beta_scale) % 4294967296) >>> 3 = 18 ∧
    tcp_friendly_loop 18 2 40 10 = some (4, 12) ∧ (40 - 1) / 18 = 2 ∧ (40 - 1) % 18 + 1 = 4 ∧
    ∃ ca', bictcp_friendliness Params.default Scales.default
        { bictcp.afterFirstUpdate with ack_cnt := 40 } 10 = some ca' ∧
      ca'.tcp_cwnd = 12 ∧ ca'.ack_cnt = 4 := by
  have h := (friendly_loop_result Params.default Scales.default
    { bictcp.afterFirstUpdate with ack_cnt := 40 } (by decide)).1 rfl 10 18 (by decide)
    (by decide) (by decide)
  obtain ⟨ca', hca, _, hgt, _⟩ := h.2.2
  refine ⟨by decide, (h.2.1 2 (by decide)).trans (by decide), by decide, by decide, ca', hca, ?_⟩
  have hv := hgt (by decide)
  exact ⟨hv.1.trans (by decide), hv.2.trans (by decide)⟩

/-! ## The floor of the send window -/

theorem wnd_view_fields (a b : sock) (h : wnd_view a = wnd_view b) :
    a.tp.snd_wnd = b.tp.snd_wnd ∧ a.tp.mss_cache = b.tp.mss_cache := by
  unfold wnd_view at h
  simp only [List.cons.injEq, and_true] at h
  exact h

theorem suss_tail_speedup_wnd (p : Params) (sk sk' : sock) (d : Nat)
    (h : suss_tail_speedup p sk d = some sk') : wnd_view sk' = wnd_view sk := by
  unfold suss_tail_speedup at h
  split_ifs at h
  · rw [Option.bind_eq_some] at h
    obtain ⟨vs, hv, h⟩ := h
    simp only [Option.some.injEq] at h
    subst h
    rcases suss_speedup_frame p sk d vs hv with e | e <;> rw [e] <;> rfl
  · simp only [Option.some.injEq] at h
    rw [h]

theorem suss_tail_pace_wnd (sk sk' : sock) (bp d acked : Nat)
    (h : suss_tail_pace sk bp d acked = some sk') : wnd_view sk' = wnd_view sk := by
  unfold suss_tail_pace at h
  dsimp only at h
  rw [Option.bind_eq_some] at h
  obtain ⟨_, _, h⟩ := h
  rw [Option.bind_eq_some] at h
  obtain ⟨_, _, h⟩ := h
  rw [Option.bind_eq_some] at h
  obtain ⟨_, _, h⟩ := h
  rw [Option.bind_eq_some] at h
  obtain ⟨_, _, h⟩ := h
  split_ifs at h <;>
  · simp only [Option.some.injEq] at h
    rw [← h]
    rfl

theorem upd_tail_seq_wnd (s : sock) (v : Nat) :
    wnd_view ({ s with ca := { s.ca with suss_tail_seq := v } } : sock) = wnd_view s := rfl

theorem upd_is_blue_wnd (s : sock) (v : Nat) :
    wnd_view ({ s with ca := { s.ca with suss_is_blue := v } } : sock) = wnd_view s := rfl

theorem upd_blue_cnt_wnd (s : sock) (v : Nat) :
    wnd_view ({ s with ca := { s.ca with suss_blue_cnt := v } } : sock) = wnd_view s := rfl

theorem upd_snd_cwnd_wnd (s : sock) (v : Nat) :
    wnd_view ({ s with tp := { s.tp with snd_cwnd := v } } : sock) = wnd_view s := rfl

theorem suss_measurements_tail_wnd (p : Params) (sk sk' : sock) (now acked : Nat)
    (h : suss_measurements_tail p sk now acked = some sk') : wnd_view sk' = wnd_view sk := by
  rw [suss_measurements_tail_eq] at h
  conv at h => zeta
  rw [Option.bind_eq_some] at h
  obtain ⟨bp, _, h⟩ := h
  rw [Option.bind_eq_some] at h
  obtain ⟨q, _, h⟩ := h
  rw [Option.bind_eq_some] at h
  obtain ⟨s3, h3, h⟩ := h
  have e3 := suss_tail_speedup_wnd _ _ _ _ h3
  have e4 : wnd_view sk' = wnd_view s3 := by
    split_ifs at h
    · exact suss_tail_pace_wnd _ _ _ _ _ h
    · simp only [Option.some.injEq] at h
      rw [h]
  exact e4.trans ((e3.trans (upd_tail_seq_wnd _ _)).trans (upd_is_blue_wnd _ _))

theorem suss_first_red_wnd (sk : sock) : wnd_view (suss_first_red sk) = wnd_view sk := by
  unfold suss_first_red
  split_ifs
  · exact upd_is_blue_wnd _ _
  · rfl

theorem suss_round_head_wnd (sk : sock) (now ack : Nat) :
    wnd_view (suss_round_head sk now ack) = wnd_view sk := by
  unfold suss_round_head
  split_ifs <;> rfl

theorem suss_count_wnd (sk sk' : sock) (acked : Nat) (h : suss_count sk acked = some sk') :
    wnd_view sk' = wnd_view sk := by
  unfold suss_count at h
  conv at h => zeta
  by_cases hb : sk.ca.suss_is_blue ≠ 0
  · rw [if_pos hb] at h
    split_ifs at h
    · simp only [Option.some.injEq] at h
      subst h
      exact (upd_snd_cwnd_wnd _ _).trans (upd_blue_cnt_wnd _ _)
    · simp only [Option.some.injEq] at h
      subst h
      exact upd_blue_cnt_wnd _ _
  · rw [if_neg hb] at h
    split_ifs at h
    · simp only [Option.some.injEq] at h
      subst h
      exact upd_snd_cwnd_wnd _ _
    · simp only [Option.some.injEq] at h
      rw [h]

theorem suss_measurements_wnd (p : Params) (sk sk' : sock) (ack acked : Nat)
    (h : suss_measurements p sk ack acked = some sk') : wnd_view sk' = wnd_view sk := by
  rw [suss_measurements_eq, Option.bind_eq_some] at h
  obtain ⟨s, hs, h⟩ := h
  have e1 := suss_count_wnd _ _ _ h
  have e2 : wnd_view s =
      wnd_view (suss_round_head (suss_first_red sk) (bictcp_clock_us sk) ack) := by
    split_ifs at hs
    · exact suss_measurements_tail_wnd _ _ _ _ _ hs
    · simp only [Option.some.injEq] at hs
      rw [hs]
  exact e1.trans (e2.trans ((suss_round_head_wnd _ _ _).trans (suss_first_red_wnd sk)))

theorem suss_clocking_tp (sk : sock) : (suss_clocking sk).tp = sk.tp := by
  unfold suss_clocking
  split_ifs <;> rfl

theorem suss_clocking_wnd (sk : sock) : wnd_view (suss_clocking sk) = wnd_view sk := by
  unfold wnd_view
  rw [suss_clocking_tp]

theorem shl32_u8_lt (x t : Nat) (h : t < 32) :
    shl32_u8 x t = (x <<< t) % 4294967296 := by
  unfold shl32_u8
  rw [Nat.mod_eq_of_lt h]

theorem le_shiftLeft (a t : Nat) : a ≤ a <<< t := by
  rw [Nat.shiftLeft_eq]
  exact Nat.le_mul_of_pos_right a (Nat.pow_pos (by norm_num))

theorem shiftLeft_fits (a t : Nat) (h : a <<< t < 4294967296) : a = 0 ∨ t < 32 := by
  by_cases ht : t < 32
  · exact Or.inr ht
  · left
    rw [Nat.shiftLeft_eq] at h
    have hp : 2 ^ 32 ≤ 2 ^ t := Nat.pow_le_pow_right (by norm_num) (by omega)
    have h32 : (2 : Nat) ^ 32 = 4294967296 := by norm_num
    by_contra ha
    have hle : 1 * 2 ^ t ≤ a * 2 ^ t := Nat.mul_le_mul_right _ (by omega)
    generalize 2 ^ t = P at *
    omega

theorem suss_wnd_exp_off (p : Params) (s : sock) (h : 3 ≤ s.tp.suss_state) :
    suss_wnd_exp p s = 0 := by
  unfold suss_wnd_exp
  rw [if_neg (fun hc => by omega)]

/-- C25 (as stated, refuted): on the flow `sock.lateRound` (extension measuring, round 9,
seven jumps, so that `9 < suss_max + 7` and the exponent is 15) with segments of 52429
bytes, `10 * mss = 524290` and `524290 << 15` is 65536 in 32 bits: the call returns with
`snd_wnd = 65536`, below `10 * mss`. And on the flow of `trickle`, acknowledged once per
round trip, the 31st ACK wraps the round number to 0 with the extension active and no
jump: the exponent `0 + 0 - 1` is 255 as a `u8`, not `suss_round_no + suss_num_of_jump -
1`, the floor `10000 << 255` comes out as 0 and the call returns with the window 65535 it
found; had the peer advertised a window of 5000 bytes before that ACK, the call would
return with `snd_wnd = 5000`, below `10 * mss = 10000`. -/
theorem snd_wnd_floor_wraps :
    sock.lateRound.tp.suss_state < 3 ∧
    (sock.lateRound.ca.suss_round_no : Int) <
      Params.sussOn.suss_max + (sock.lateRound.ca.suss_num_of_jump : Int) ∧
    sock.lateRound.ca.suss_round_no + sock.lateRound.ca.suss_num_of_jump - 1 = 15 ∧
    sock.lateRound.tp.snd_wnd = 0 ∧ 10 * sock.lateRound.tp.mss_cache = 524290 ∧
    (524290 <<< 15) % 4294967296 = 65536 ∧
    (cubictcp_cong_avoid Kernel.idle Params.sussOn Scales.default 1000 sock.lateRound 4000 1).map
      (fun s => [s.tp.snd_wnd, s.ca.suss_round_no, s.ca.suss_num_of_jump, s.tp.suss_state]) =
      some [65536, 9, 7, 1] ∧
    ((run_calls Kernel.idle Params.sussOn Scales.default (cubictcp_init Params.sussOn sock.fresh)
      (trickle 30)).bind fun s =>
        (suss_measurements Params.sussOn ((trickle_step 31).env s) 4100 1).map fun s' =>
          [s'.tp.suss_state, s'.ca.suss_round_no, s'.ca.suss_num_of_jump,
            suss_wnd_exp Params.sussOn s']) = some [1, 0, 0, 255] ∧
    ((run_calls Kernel.idle Params.sussOn Scales.default (cubictcp_init Params.sussOn sock.fresh)
      (trickle 30)).bind fun s =>
        (cubictcp_cong_avoid Kernel.idle Params.sussOn Scales.default 2550
          ((trickle_step 31).env s) 4100 1).map fun s' =>
            [s'.tp.snd_wnd, 10 * s'.tp.mss_cache, s'.ca.suss_round_no]) =
      some [65535, 10000, 0] ∧
    ((run_calls Kernel.idle Params.sussOn Scales.default (cubictcp_init Params.sussOn sock.fresh)
      (trickle 30)).bind fun s =>
        (cubictcp_cong_avoid Kernel.idle Params.sussOn Scales.default 2550
          { (trickle_step 31).env s with
            tp := { ((trickle_step 31).env s).tp with snd_wnd := 5000 } } 4100 1).map fun s' =>
            [s'.tp.snd_wnd, 10 * s'.tp.mss_cache, s'.ca.suss_round_no]) =
      some [5000, 10000, 0] :=
  ⟨by decide, by decide, by decide, by decide, by decide, by decide, by decide, by decide,
    by decide, by decide⟩

/-- C25 (amended): every call of `cubictcp_cong_avoid` that returns leaves
`snd_wnd = max(old snd_wnd, w)`, so it never lowers `snd_wnd`; for an exponent `t < 32`
the floor `w` is `(10 * mss) << t`, the product and the shift taken in `u32` (for a
larger exponent it is the value of the compiled shift, `shl32_u8`), and the call leaves
`snd_wnd` at least `10 * mss` whenever `(10 * mss) << t` fits 32 bits. With `s` the state
after the measurement step of the same call, the exponent `t` is the `u8` local `temp`:
`suss_round_no + suss_num_of_jump - 1` when the extension is active (`suss_state < 3`),
`suss_round_no < suss_max + suss_num_of_jump` and that sum is at least 1, and 0 when the
extension is not active or the round number has reached that bound; when the extension
is disabled or capped at the call (`suss_state >= 3`) the exponent is 0, the floor is
`10 * mss`, and the call is the growth step run on the state with the raised window, so
it returns whenever the growth step does; at every exponent the call is the growth step
run on the state of the measurement step with the raised window. The kernel's
`tcp_slow_start` and `tcp_cong_avoid_ai` are taken to leave `snd_wnd` alone. -/
theorem snd_wnd_floor (K : Kernel) (p : Params) (d : Scales) (hK : K.window_only)
    (jiffies : Nat) (sk : sock) (ack acked : Nat) :
    (∀ sk', cubictcp_cong_avoid K p d jiffies sk ack acked = some sk' →
      ∃ (s : sock) (t w : Nat),
        (if (suss_clocking sk).tp.suss_state < 3 ∧ (suss_clocking sk).ca.suss_flag = 0 then
          suss_measurements p (suss_clocking sk) ack acked
        else some (suss_clocking sk)) = some s ∧
        t = suss_wnd_exp p s ∧
        (s.tp.suss_state < 3 ∧
            (s.ca.suss_round_no : Int) < p.suss_max + (s.ca.suss_num_of_jump : Int) →
          1 ≤ s.ca.suss_round_no + s.ca.suss_num_of_jump →
          s.ca.suss_round_no + s.ca.suss_num_of_jump < 257 →
          t = s.ca.suss_round_no + s.ca.suss_num_of_jump - 1) ∧
        (¬ (s.tp.suss_state < 3 ∧
            (s.ca.suss_round_no : Int) < p.suss_max + (s.ca.suss_num_of_jump : Int)) → t = 0) ∧
        w = shl32_u8 ((10 * sk.tp.mss_cache) % 4294967296) t ∧
        (t < 32 → w = (((10 * sk.tp.mss_cache) % 4294967296) <<< t) % 4294967296) ∧
        sk'.tp.snd_wnd = max sk.tp.snd_wnd w ∧ sk.tp.snd_wnd ≤ sk'.tp.snd_wnd ∧
        ((10 * sk.tp.mss_cache) <<< t < 4294967296 → 10 * sk.tp.mss_cache ≤ sk'.tp.snd_wnd) ∧
        (3 ≤ sk.tp.suss_state → t = 0 ∧ w = (10 * sk.tp.mss_cache) % 4294967296)) ∧
    (∀ s : sock,
      (if (suss_clocking sk).tp.suss_state < 3 ∧ (suss_clocking sk).ca.suss_flag = 0 then
          suss_measurements p (suss_clocking sk) ack acked
        else some (suss_clocking sk)) = some s →
      cubictcp_cong_avoid K p d jiffies sk ack acked =
        cong_avoid_grow K p d jiffies
          { s with tp := { s.tp with
              snd_wnd := max s.tp.snd_wnd
                (shl32_u8 ((10 * s.tp.mss_cache) % 4294967296) (suss_wnd_exp p s)) } } acked) ∧
    (3 ≤ sk.tp.suss_state →
      cubictcp_cong_avoid K p d jiffies sk ack acked =
        cong_avoid_grow K p d jiffies
          { suss_clocking sk with
            tp := { (suss_clocking sk).tp with
              snd_wnd := max (suss_clocking sk).tp.snd_wnd
                ((10 * (suss_clocking sk).tp.mss_cache) % 4294967296) } } acked) := by
  constructor
  · intro sk' h
    rw [cubictcp_cong_avoid_eq, Option.bind_eq_some] at h
    obtain ⟨s, hs, h⟩ := h
    have e := (cong_avoid_grow_ase K p d jiffies hK _ _ _ h).2.2
    have e' : sk'.tp.snd_wnd =
        max s.tp.snd_wnd (shl32_u8 ((10 * s.tp.mss_cache) % 4294967296) (suss_wnd_exp p s)) := e
    have hv : wnd_view s = wnd_view sk := by
      have h1 : wnd_view s = wnd_view (suss_clocking sk) := by
        split_ifs at hs
        · exact suss_measurements_wnd _ _ _ _ _ hs
        · simp only [Option.some.injEq] at hs
          rw [hs]
      exact h1.trans (suss_clocking_wnd sk)
    obtain ⟨v1, v2⟩ := wnd_view_fields s sk hv
    rw [v1, v2] at e'
    refine ⟨s, suss_wnd_exp p s, _, hs, rfl, ?_, ?_, rfl, ?_, e', ?_, ?_, ?_⟩
    · intro hc h1 h257
      unfold suss_wnd_exp
      rw [if_pos hc]
      unfold u32
      omega
    · intro hc
      unfold suss_wnd_exp
      rw [if_neg hc]
    · intro ht
      exact shl32_u8_lt _ _ ht
    · rw [e']
      exact Nat.le_max_left _ _
    · intro hfit
      rcases shiftLeft_fits _ _ hfit with h0 | ht
      · rw [h0]
        exact Nat.zero_le _
      · have hle := le_shiftLeft (10 * sk.tp.mss_cache) (suss_wnd_exp p s)
        rw [e', shl32_u8_lt _ _ ht,
          Nat.mod_eq_of_lt (by omega : 10 * sk.tp.mss_cache < 4294967296),
          Nat.mod_eq_of_lt hfit]
        exact Nat.le_trans hle (Nat.le_max_right _ _)
    · intro h3
      have hs' : s = suss_clocking sk := by
        rw [if_neg (fun hc => by rw [suss_clocking_tp] at hc; omega)] at hs
        exact (Option.some.inj hs).symm
      have h0 : suss_wnd_exp p s = 0 :=
        suss_wnd_exp_off p s (by rw [hs', suss_clocking_tp]; exact h3)
      rw [h0, shl32_u8_lt _ _ (by norm_num), Nat.shiftLeft_zero, Nat.mod_mod]
      exact ⟨rfl, rfl⟩
  refine ⟨fun s hs => ?_, ?_⟩
  · rw [cubictcp_cong_avoid_eq, hs, Option.some_bind]
  · intro h3
    have h3' : 3 ≤ (suss_clocking sk).tp.suss_state := by
      rw [suss_clocking_tp]
      exact h3
    rw [cubictcp_cong_avoid_eq, if_neg (fun hc => by omega), Option.some_bind,
      suss_wnd_exp_off p _ h3', shl32_u8_lt _ _ (by norm_num), Nat.shiftLeft_zero, Nat.mod_mod]

theorem snd_wnd_floor_witness :
    Kernel.idle.window_only ∧
    ∃ (sk' s : sock) (t w : Nat),
      cubictcp_cong_avoid Kernel.idle Params.sussOn Scales.default 1000
        (sock.tailAck 3600) 11000 1 = some sk' ∧
      t = suss_wnd_exp Params.sussOn s ∧
      sk'.tp.snd_wnd = max (sock.tailAck 3600).tp.snd_wnd w ∧
      sk'.tp.snd_wnd = 40000 ∧ sk'.ca.suss_round_no = 2 ∧ sk'.ca.suss_num_of_jump = 1 := by
  have hK : Kernel.idle.window_only := ⟨fun _ _ => ⟨rfl, rfl⟩, fun _ _ _ => ⟨rfl, rfl⟩⟩
  have hs : (cubictcp_cong_avoid Kernel.idle Params.sussOn Scales.default 1000
      (sock.tailAck 3600) 11000 1).isSome = true := by decide
  obtain ⟨sk', h⟩ := Option.isSome_iff_exists.mp hs
  have hf : (cubictcp_cong_avoid Kernel.idle Params.sussOn Scales.default 1000
      (sock.tailAck 3600) 11000 1).map
      (fun s => [s.tp.snd_wnd, s.ca.suss_round_no, s.ca.suss_num_of_jump]) =
      some [40000, 2, 1] := by decide
  rw [h] at hf
  have hl := Option.some.inj hf
  simp only [List.cons.injEq, and_true] at hl
  obtain ⟨s, t, w, _, ht, _, _, _, _, hw, _⟩ :=
    (snd_wnd_floor Kernel.idle Params.sussOn Scales.default hK 1000 (sock.tailAck 3600)
      11000 1).1 sk' h
  exact ⟨hK, sk', s, t, w, h, ht, hw, hl.1, hl.2.1, hl.2.2⟩

end TcpCubic
